import Mathlib

/-! # todotxt-tui: parser, filter, task view, storage and key bindings

A shallow embedding of `internal/parser` (`parser.go`, `task.go`, `date.go`,
`validation.go`), `internal/filter` (`criteria.go`, `filter.go`, `index.go`,
`tasklist.go`), `internal/storage` (`todofile.go`) and `internal/keymap`,
together with the theorems that settle the specification's statements about
them.

Modelling conventions

* A Go `string` is a list of Unicode code points (`Str`).  The Go byte length
  `len(s)` is `byteLen s`, the sum of the UTF-8 sizes of the code points.
* `time.Time` values are day-precision calendar dates (`Date`) of the years
  from 0 on, as the parser produces them; the zero `time.Time` is January 1
  of year 1.
* `map[string]struct{}` is a duplicate-free list of keys in insertion order,
  `map[string]string` an association list with unique keys; only membership
  and lookup are meaningful.
* `(*Task, error)` is `Except Str Task`; a method that changes its receiver
  returns the receiver after the call, next to its error if it has one.
* An `int` is an `Int`, wrapped to 64 bits (`wrapInt`) where the arithmetic
  of the code can leave the range.
* In the parser and the filter a `[]*Task` is the list of the tasks pointed
  to.  That `VisibleTasks` and `AllTasks` of a `TaskList` can be one and the
  same slice is recorded in the field `shared`.
* The methods of `TodoFile` write through the pointers they are handed and
  store them: there a `*Task` is an address in a heap of task objects
  (`Heap`), `TodoFile.Tasks` is a list of addresses, and a method returns the
  heap after the call next to the file.
* A run-time panic of an index or slice expression is an error result
  (`sliceIndex`, `sliceRange`).
-/

namespace TodoTxt

/-- A Go string, as the list of its code points. -/
abbrev Str := List Char

/-- Go `len(s)`: the number of bytes of the UTF-8 encoding. -/
def byteLen (s : Str) : Nat := (s.map Char.utf8Size).sum

/-! ## Standard library: `unicode`, `strings` -/

/-- Go `unicode.IsSpace`: the Latin-1 spaces and the code points with the
Unicode White_Space property. -/
def isSpace (c : Char) : Bool :=
  let n := c.toNat
  n = 9 || n = 10 || n = 11 || n = 12 || n = 13 || n = 32 || n = 0x85 || n = 0xA0 ||
  n = 0x1680 || (0x2000 ≤ n && n ≤ 0x200A) || n = 0x2028 || n = 0x2029 ||
  n = 0x202F || n = 0x205F || n = 0x3000

/-- Go `strings.TrimSpace`: drop leading, then trailing, Unicode white space. -/
def TrimSpace (s : Str) : Str :=
  ((s.dropWhile isSpace).reverse.dropWhile isSpace).reverse

/-- Go `strings.HasPrefix`. -/
def HasPrefix (s pre : Str) : Bool := pre.isPrefixOf s

/-- Go `strings.Join`. -/
def Join (parts : List Str) (sep : Str) : Str :=
  match parts with
  | [] => []
  | [p] => p
  | p :: q :: rest => p ++ sep ++ Join (q :: rest) sep

/-- The Latin-1 part of Go's `unicode` property table: the letters. -/
def latin1Letter (c : Char) : Bool :=
  let n := c.toNat
  (65 ≤ n && n ≤ 90) || (97 ≤ n && n ≤ 122) || n = 0xAA || n = 0xB5 || n = 0xBA ||
  (0xC0 ≤ n && n ≤ 0xD6) || (0xD8 ≤ n && n ≤ 0xF6) || (0xF8 ≤ n && n ≤ 0xFF)

/-- The range tables `unicode.Letter` and `unicode.Digit` of the Go standard
library for code points above Latin-1.  They are not part of the repository
and are taken as given. -/
structure UnicodeTables where
  letter : Char → Bool
  digit : Char → Bool

/-- Go `unicode.IsLetter`. -/
def IsLetter (U : UnicodeTables) (r : Char) : Bool :=
  if r.toNat ≤ 0xFF then latin1Letter r else U.letter r

/-- Go `unicode.IsDigit`. -/
def IsDigit (U : UnicodeTables) (r : Char) : Bool :=
  if r.toNat ≤ 0xFF then (48 ≤ r.toNat && r.toNat ≤ 57) else U.digit r

/-! ## Standard library: `regexp` character classes -/

/-- Class `\s` of Go regular expressions: `[\t\n\f\r ]`. -/
def reSpace (c : Char) : Bool :=
  let n := c.toNat
  n = 9 || n = 10 || n = 12 || n = 13 || n = 32

/-- Class `\S`. -/
def reNonSpace (c : Char) : Bool := !reSpace c

/-- Class `\d`: `[0-9]`. -/
def reDigit (c : Char) : Bool := 48 ≤ c.toNat && c.toNat ≤ 57

/-- Class `\w`: `[0-9A-Za-z_]`. -/
def reWord (c : Char) : Bool :=
  let n := c.toNat
  (48 ≤ n && n ≤ 57) || (65 ≤ n && n ≤ 90) || (97 ≤ n && n ≤ 122) || n = 95

/-- Class `[A-Z]`. -/
def reUpper (c : Char) : Bool := 65 ≤ c.toNat && c.toNat ≤ 90

/-- Successive non-overlapping leftmost matches (`FindAll...(s, -1)`) of a
pattern whose match at a position is decided by the text from that position
on.  `matchAt` gives the length of the match that starts at the head of its
argument and the value kept for it; `skip` counts the characters still covered
by the previous match. -/
def findAllFrom {α : Type} (matchAt : Str → Option (Nat × α)) : Nat → Str → List α
  | _, [] => []
  | skip + 1, _ :: cs => findAllFrom matchAt skip cs
  | 0, c :: cs =>
    match matchAt (c :: cs) with
    | some (len, a) => a :: findAllFrom matchAt (len - 1) cs
    | none => findAllFrom matchAt 0 cs

/-! ## Standard library: `time` -/

/-- A day-precision `time.Time`. -/
structure Date where
  year : Nat
  month : Nat
  day : Nat
deriving DecidableEq, Repr

/-- The zero `time.Time`: January 1, year 1. -/
def Date.zero : Date := ⟨1, 1, 1⟩

/-- Go `Time.IsZero`. -/
def Date.IsZero (d : Date) : Bool := decide (d = Date.zero)

/-- Leap years of the proleptic Gregorian calendar (`time.isLeap`). -/
def isLeap (year : Nat) : Bool :=
  year % 4 = 0 && (year % 100 ≠ 0 || year % 400 = 0)

/-- Number of days of a month (`time.daysIn`). -/
def daysIn (month year : Nat) : Nat :=
  if month = 2 then (if isLeap year then 29 else 28)
  else if month = 4 ∨ month = 6 ∨ month = 9 ∨ month = 11 then 30
  else 31

/-- A calendar date that can be written as `YYYY-MM-DD`. -/
def Date.valid (d : Date) : Prop :=
  d.year ≤ 9999 ∧ 1 ≤ d.month ∧ d.month ≤ 12 ∧ 1 ≤ d.day ∧ d.day ≤ daysIn d.month d.year

instance (d : Date) : Decidable d.valid := by
  unfold Date.valid; exact inferInstance

/-- The decimal digit character of a number below ten. -/
def digitChar (n : Nat) : Char := Char.ofNat (48 + n % 10)

/-- The value of a decimal digit character. -/
def digitVal (c : Char) : Nat := c.toNat - 48

/-- Zero-padded two-digit field (`appendInt(b, x, 2)` for `x < 100`). -/
def pad2 (n : Nat) : Str := [digitChar (n / 10), digitChar n]

/-- Year field of width four (`appendInt(b, year, 4)`): zero-padded below
10000, all the digits above. -/
def pad4 (n : Nat) : Str :=
  if n < 10000 then
    [digitChar (n / 1000), digitChar (n / 100), digitChar (n / 10), digitChar n]
  else Nat.toDigits 10 n

/-- Go `t.Format("2006-01-02")`. -/
def Date.Format (d : Date) : Str :=
  pad4 d.year ++ ['-'] ++ pad2 d.month ++ ['-'] ++ pad2 d.day

/-- Go `time.Parse("2006-01-02", s)`: exactly four digits, a dash, two digits,
a dash, two digits, with the month in 1..12 and the day within the month. -/
def timeParse (s : Str) : Option Date :=
  match s with
  | [y1, y2, y3, y4, s1, m1, m2, s2, d1, d2] =>
    if reDigit y1 && reDigit y2 && reDigit y3 && reDigit y4 && s1 = '-' &&
        reDigit m1 && reDigit m2 && s2 = '-' && reDigit d1 && reDigit d2 then
      let year := digitVal y1 * 1000 + digitVal y2 * 100 + digitVal y3 * 10 + digitVal y4
      let month := digitVal m1 * 10 + digitVal m2
      let day := digitVal d1 * 10 + digitVal d2
      if month = 0 ∨ 12 < month then none
      else if day < 1 ∨ daysIn month year < day then none
      else some ⟨year, month, day⟩
    else none
  | _ => none

/-! ## `date.go` -/

/-- `ParseTodoDate`: the zero time for the empty string, otherwise the parsed
date, or an error. -/
def ParseTodoDate (dateStr : Str) : Except Str Date :=
  if dateStr = [] then .ok Date.zero
  else
    match timeParse dateStr with
    | some t => .ok t
    | none => .error ("invalid date format: ".toList ++ dateStr ++ " (expected YYYY-MM-DD)".toList)

/-- `FormatTodoDate`. -/
def FormatTodoDate (t : Date) : Str :=
  if t.IsZero then [] else t.Format

/-! ## `task.go` -/

/-- The `Task` record. -/
structure Task where
  Priority : Str
  CreationDate : Date
  Completed : Bool
  CompletionDate : Date
  Description : Str
  Contexts : List Str
  Projects : List Str
  Metadata : List (Str × Str)
  RawLine : Str
  LineNumber : Int
  Modified : Bool
deriving DecidableEq, Repr

/-- Assignment `m[k] = struct{}{}` on a set. -/
def setInsert (m : List Str) (k : Str) : List Str :=
  if k ∈ m then m else m ++ [k]

/-- Assignment `m[k] = v` on a string map. -/
def mapSet (m : List (Str × Str)) (k v : Str) : List (Str × Str) :=
  match m with
  | [] => [(k, v)]
  | (k0, v0) :: rest => if k0 = k then (k, v) :: rest else (k0, v0) :: mapSet rest k v

/-- `Task.String`: the todo.txt line of a task. -/
def Task.String (t : Task) : Str :=
  let parts : List Str := []
  let parts := if t.Completed then parts ++ ["x".toList] else parts
  let parts := if !t.Completed && t.Priority ≠ [] then
      parts ++ ["(".toList ++ t.Priority ++ ")".toList] else parts
  let parts := if t.Completed && !t.CompletionDate.IsZero then
      parts ++ [t.CompletionDate.Format] else parts
  let parts := if !t.CreationDate.IsZero then parts ++ [t.CreationDate.Format] else parts
  let parts := parts ++ [t.Description]
  Join parts " ".toList

/-- `Task.IsComplete`. -/
def Task.IsComplete (t : Task) : Bool := t.Completed

/-- The first byte `s[0]` of the UTF-8 encoding of a non-empty string. -/
def firstByte (s : Str) : Nat :=
  match s with
  | [] => 0
  | c :: _ =>
    let n := c.toNat
    if n < 0x80 then n
    else if n < 0x800 then 0xC0 + n / 64
    else if n < 0x10000 then 0xE0 + n / 4096
    else 0xF0 + n / 262144

/-- `Task.SetPriority`: the error, if any, and the task after the call. -/
def Task.SetPriority (t : Task) (priority : Str) : Option Str × Task :=
  if priority = [] then (none, { t with Priority := [], Modified := true })
  else if byteLen priority ≠ 1 then (some "priority must be single letter A-Z".toList, t)
  else if firstByte priority < 65 ∨ 90 < firstByte priority then
    (some "priority must be letter A-Z".toList, t)
  else (none, { t with Priority := priority, Modified := true })

/-- `Task.AddContext`: the error, if any, and the task after the call. -/
def Task.AddContext (t : Task) (context : Str) : Option Str × Task :=
  if !HasPrefix context "@".toList then (some "context must start with @".toList, t)
  else if context ∈ t.Contexts then (none, t)
  else (none, { t with Contexts := setInsert t.Contexts context, Modified := true })

/-- `Task.RemoveContext`; `delete(m, k)` removes the key from the set. -/
def Task.RemoveContext (t : Task) (context : Str) : Task :=
  if context ∈ t.Contexts then
    { t with Contexts := t.Contexts.filter (fun x => x ≠ context), Modified := true }
  else t

/-- `Task.AddProject`: the error, if any, and the task after the call. -/
def Task.AddProject (t : Task) (project : Str) : Option Str × Task :=
  if !HasPrefix project "+".toList then (some "project must start with +".toList, t)
  else if project ∈ t.Projects then (none, t)
  else (none, { t with Projects := setInsert t.Projects project, Modified := true })

/-- `Task.RemoveProject`. -/
def Task.RemoveProject (t : Task) (project : Str) : Task :=
  if project ∈ t.Projects then
    { t with Projects := t.Projects.filter (fun x => x ≠ project), Modified := true }
  else t

/-- `Task.HasContext`. -/
def Task.HasContext (t : Task) (context : Str) : Bool := decide (context ∈ t.Contexts)

/-- `Task.HasProject`. -/
def Task.HasProject (t : Task) (project : Str) : Bool := decide (project ∈ t.Projects)

/-- `Task.Complete`; `now` is the date that `time.Now()` returns. -/
def Task.Complete (now : Date) (t : Task) (completionDate : Date) : Task :=
  let completionDate := if completionDate.IsZero then now else completionDate
  { t with Completed := true, CompletionDate := completionDate, Modified := true }

/-- `Task.Uncomplete`. -/
def Task.Uncomplete (t : Task) : Task :=
  { t with Completed := false, CompletionDate := Date.zero, Modified := true }

/-! ## `parser.go` -/

/-- `priorityRe.FindStringSubmatch` for `^\(([A-Z])\)\s+`: the whole match and
the letter. -/
def priorityRe (s : Str) : Option (Str × Str) :=
  match s with
  | c0 :: p :: c2 :: rest =>
    if c0 = '(' ∧ reUpper p ∧ c2 = ')' ∧ rest.takeWhile reSpace ≠ [] then
      some (c0 :: p :: c2 :: rest.takeWhile reSpace, [p])
    else none
  | _ => none

/-- `dateRe.FindStringSubmatch` for `^(\d{4}-\d{2}-\d{2})\s+`: the whole match
and the date text. -/
def dateRe (s : Str) : Option (Str × Str) :=
  let d := s.take 10
  let rest := s.drop 10
  match d with
  | [y1, y2, y3, y4, s1, m1, m2, s2, d1, d2] =>
    if reDigit y1 ∧ reDigit y2 ∧ reDigit y3 ∧ reDigit y4 ∧ s1 = '-' ∧
        reDigit m1 ∧ reDigit m2 ∧ s2 = '-' ∧ reDigit d1 ∧ reDigit d2 ∧
        rest.takeWhile reSpace ≠ [] then
      some (d ++ rest.takeWhile reSpace, d)
    else none
  | _ => none

/-- The match of `c\S+` at the head of the text, for the sigil `c`. -/
def tagAt (sigil : Char) (s : Str) : Option (Nat × Str) :=
  match s with
  | [] => none
  | c :: cs =>
    if c = sigil ∧ cs.takeWhile reNonSpace ≠ [] then
      some (1 + (cs.takeWhile reNonSpace).length, c :: cs.takeWhile reNonSpace)
    else none

/-- `contextRe.FindAllString(s, -1)` for `@\S+`. -/
def contextRe (s : Str) : List Str := findAllFrom (tagAt '@') 0 s

/-- `projectRe.FindAllString(s, -1)` for `\+\S+`. -/
def projectRe (s : Str) : List Str := findAllFrom (tagAt '+') 0 s

/-- The match of `(\w+):(\S+)` at the head of the text: its length and the two
groups. -/
def metadataAt (s : Str) : Option (Nat × (Str × Str)) :=
  let k := s.takeWhile reWord
  match s.dropWhile reWord with
  | c :: rest =>
    if k ≠ [] ∧ c = ':' ∧ rest.takeWhile reNonSpace ≠ [] then
      some (k.length + 1 + (rest.takeWhile reNonSpace).length, (k, rest.takeWhile reNonSpace))
    else none
  | [] => none

/-- `metadataRe.FindAllStringSubmatch(s, -1)` for `(\w+):(\S+)`. -/
def metadataRe (s : Str) : List (Str × Str) := findAllFrom metadataAt 0 s

/-- The parser state after the completion marker: completed flag, completion
date and the text that remains. -/
def parseCompleted (remaining : Str) : Bool × Date × Str :=
  if HasPrefix remaining "x ".toList then
    let remaining := TrimSpace (remaining.drop 2)
    match dateRe remaining with
    | some (whole, dateText) =>
      match ParseTodoDate dateText with
      | .ok date => (true, date, TrimSpace (remaining.drop whole.length))
      | .error _ => (true, Date.zero, remaining)
    | none => (true, Date.zero, remaining)
  else (false, Date.zero, remaining)

/-- The priority step: the priority and the text that remains. -/
def parsePriority (completed : Bool) (remaining : Str) : Str × Str :=
  if !completed then
    match priorityRe remaining with
    | some (whole, letter) => (letter, TrimSpace (remaining.drop whole.length))
    | none => ([], remaining)
  else ([], remaining)

/-- The creation-date step: the creation date and the text that remains. -/
def parseCreation (remaining : Str) : Date × Str :=
  match dateRe remaining with
  | some (whole, dateText) =>
    match ParseTodoDate dateText with
    | .ok date => (date, TrimSpace (remaining.drop whole.length))
    | .error _ => (Date.zero, remaining)
  | none => (Date.zero, remaining)

/-- `parserImpl.ParseLine`.  The three prefix steps are `parseCompleted`,
`parsePriority` and `parseCreation`; what remains is the description, from
which contexts, projects and metadata are extracted. -/
def ParseLine (line : Str) (lineNumber : Int) : Except Str Task :=
  if line = [] then .error "empty line".toList
  else
    let marker := parseCompleted (TrimSpace line)
    let prio := parsePriority marker.1 marker.2.2
    let created := parseCreation prio.2
    let remaining := created.2
    .ok {
      Priority := prio.1
      CreationDate := created.1
      Completed := marker.1
      CompletionDate := marker.2.1
      Description := remaining
      Contexts := (contextRe remaining).foldl setInsert []
      Projects := (projectRe remaining).foldl setInsert []
      Metadata := (metadataRe remaining).foldl (fun m kv => mapSet m kv.1 kv.2) []
      RawLine := line
      LineNumber := lineNumber
      Modified := false }

/-- `bufio.MaxScanTokenSize`: the size of the scanner's buffer. -/
def MaxScanTokenSize : Nat := 65536

/-- The pieces of a text between its newline characters; the last piece is the
one that no newline terminates. -/
def splitNewlines : Str → List Str
  | [] => [[]]
  | c :: cs =>
    if c = '\n' then [] :: splitNewlines cs
    else
      match splitNewlines cs with
      | [] => [[c]]
      | l :: ls => (c :: l) :: ls

/-- The helper `dropCR` of `bufio.ScanLines`: drop one trailing carriage return. -/
def dropCR (l : Str) : Str :=
  match l.getLast? with
  | some c => if c = '\r' then l.dropLast else l
  | none => l

/-- The tokens that `bufio.Scanner` delivers with the `ScanLines` split
function over the pieces of a text, and whether scanning stopped with
`ErrTooLong`.  A piece that a newline terminates is a token; the last piece is
a token when it is not empty.  A piece of `MaxScanTokenSize` bytes or more
does not fit into the buffer and stops the scanner. -/
def scanPieces : List Str → List Str × Bool
  | [] => ([], false)
  | [last] =>
    if last = [] then ([], false)
    else if MaxScanTokenSize ≤ byteLen last then ([], true)
    else ([dropCR last], false)
  | l :: m :: rest =>
    if MaxScanTokenSize ≤ byteLen l then ([], true)
    else ((dropCR l) :: (scanPieces (m :: rest)).1, (scanPieces (m :: rest)).2)

/-- The loop of `ParseFile` over the scanned lines, from the given line
number on. -/
def parseLines : List Str → Int → List Task
  | [], _ => []
  | line :: rest, lineNumber =>
    if TrimSpace line = [] then parseLines rest (lineNumber + 1)
    else
      match ParseLine line lineNumber with
      | .error _ => parseLines rest (lineNumber + 1)
      | .ok task => task :: parseLines rest (lineNumber + 1)

/-- `parserImpl.ParseFile` on a reader that delivers the given text. -/
def ParseFile (text : Str) : Except Str (List Task) :=
  let scanned := scanPieces (splitNewlines text)
  let tasks := parseLines scanned.1 1
  if scanned.2 then .error "error reading file: bufio.Scanner: token too long".toList
  else .ok tasks

/-- `parserImpl.Serialize`. -/
def Serialize (task : Task) : Str := task.String

/-! ## `validation.go` -/

/-- `isValidTagWord`: a non-empty run of letters, digits, underscores and
hyphens. -/
def isValidTagWord (U : UnicodeTables) (s : Str) : Bool :=
  if byteLen s = 0 then false
  else s.all (fun r => IsLetter U r || IsDigit U r || r = '_' || r = '-')

/-- `ValidateContextTag`. -/
def ValidateContextTag (U : UnicodeTables) (tag : Str) : Except Str Unit :=
  if !HasPrefix tag "@".toList then .error "context must start with @".toList
  else if byteLen tag < 2 then .error "context tag too short".toList
  else if !isValidTagWord U (tag.drop 1) then
    .error "context must be single word (no spaces)".toList
  else .ok ()

/-- `ValidateProjectTag`. -/
def ValidateProjectTag (U : UnicodeTables) (tag : Str) : Except Str Unit :=
  if !HasPrefix tag "+".toList then .error "project must start with +".toList
  else if byteLen tag < 2 then .error "project tag too short".toList
  else if !isValidTagWord U (tag.drop 1) then
    .error "project must be single word (no spaces)".toList
  else .ok ()

/-- A validation loop over the keys of a set: the first key that fails the
check gives the error. -/
def validateTags (check : Str → Except Str Unit) (label : Str) : List Str → Except Str Unit
  | [] => .ok ()
  | tag :: rest =>
    match check tag with
    | .error e => .error (label ++ tag ++ ": ".toList ++ e)
    | .ok _ => validateTags check label rest

/-- `parserImpl.Validate`. -/
def Validate (U : UnicodeTables) (task : Task) : Except Str Unit :=
  if task.Priority ≠ [] ∧ byteLen task.Priority ≠ 1 then
    .error "priority must be single letter A-Z".toList
  else if task.Priority ≠ [] ∧ (firstByte task.Priority < 65 ∨ 90 < firstByte task.Priority) then
    .error "priority must be letter A-Z".toList
  else if task.Completed ∧ task.CompletionDate.IsZero then
    .error "completed task must have completion date".toList
  else if TrimSpace task.Description = [] then
    .error "task description cannot be empty".toList
  else
    match validateTags (ValidateContextTag U) "invalid context ".toList task.Contexts with
    | .error e => .error e
    | .ok _ => validateTags (ValidateProjectTag U) "invalid project ".toList task.Projects

/-! ## `filter/criteria.go` -/

/-- A Go string as the bytes of its UTF-8 encoding. -/
abbrev Bytes := List Nat

/-- The UTF-8 encoding of one code point. -/
def utf8Char (c : Char) : Bytes :=
  let n := c.toNat
  if n < 0x80 then [n]
  else if n < 0x800 then [0xC0 + n / 64, 0x80 + n % 64]
  else if n < 0x10000 then [0xE0 + n / 4096, 0x80 + n / 64 % 64, 0x80 + n % 64]
  else [0xF0 + n / 262144, 0x80 + n / 4096 % 64, 0x80 + n / 64 % 64, 0x80 + n % 64]

/-- The bytes of a string. -/
def utf8 (s : Str) : Bytes := (s.map utf8Char).flatten

/-- `FilterType`, an `int`. -/
abbrev FilterType := Int

/-- `FilterNone`. -/
def FilterNone : FilterType := 0
/-- `FilterPriority`. -/
def FilterPriority : FilterType := 1
/-- `FilterContext`. -/
def FilterContext : FilterType := 2
/-- `FilterProject`. -/
def FilterProject : FilterType := 3
/-- `FilterSearch`. -/
def FilterSearch : FilterType := 4
/-- `FilterCompleted`. -/
def FilterCompleted : FilterType := 5

/-- `FilterLogic`, an `int`. -/
abbrev FilterLogic := Int

/-- `FilterAnd`: all filters must match. -/
def FilterAnd : FilterLogic := 0
/-- `FilterOr`: any filter can match. -/
def FilterOr : FilterLogic := 1

/-- `FilterCriteria`; `Kind` is the field `Type` of the source. -/
structure FilterCriteria where
  Kind : FilterType
  Value : Str
  Enabled : Bool
  Logic : FilterLogic
deriving DecidableEq, Repr

/-- One byte of `toLower`: `A`..`Z` are moved to `a`..`z`. -/
def lowerByte (c : Nat) : Nat := if 65 ≤ c ∧ c ≤ 90 then c + 32 else c

/-- `toLower`, byte by byte. -/
def toLower (s : Bytes) : Bytes := s.map lowerByte

/-- The loop of `contains`: `n` iterations are left, from offset `i` on. -/
def containsLoop (s substr : Bytes) : Nat → Nat → Bool
  | 0, _ => false
  | n + 1, i =>
    if (s.drop i).take substr.length = substr then true
    else containsLoop s substr n (i + 1)

/-- `contains`: the offsets `0 .. len(s) - len(substr)` are tried in turn. -/
def contains (s substr : Bytes) : Bool :=
  if substr.length = 0 then true
  else if substr.length > s.length then false
  else containsLoop s substr (s.length - substr.length + 1) 0

/-- `containsIgnoreCase` on the bytes of its arguments. -/
def containsIgnoreCaseBytes (s substr : Bytes) : Bool :=
  contains (toLower s) (toLower substr)

/-- `containsIgnoreCase`. -/
def containsIgnoreCase (s substr : Str) : Bool :=
  containsIgnoreCaseBytes (utf8 s) (utf8 substr)

/-- `FilterCriteria.Matches`. -/
def FilterCriteria.Matches (fc : FilterCriteria) (task : Task) : Bool :=
  if !fc.Enabled then true
  else if fc.Kind = FilterNone then true
  else if fc.Kind = FilterPriority then decide (task.Priority = fc.Value)
  else if fc.Kind = FilterContext then task.HasContext fc.Value
  else if fc.Kind = FilterProject then task.HasProject fc.Value
  else if fc.Kind = FilterSearch then containsIgnoreCase task.Description fc.Value
  else if fc.Kind = FilterCompleted then
    if fc.Value = "true".toList then task.IsComplete else !task.IsComplete
  else false

/-! ## `filter/filter.go` -/

/-- A loop that appends to `result` the elements that are kept. -/
def collectInto {α : Type} (keep : α → Bool) : List α → List α → List α
  | [], result => result
  | x :: rest, result => collectInto keep rest (if keep x then result ++ [x] else result)

/-- The inner loop of the AND branch: `matchesAll`, left at the first
criterion that does not match. -/
def matchesAll (enabledCriteria : List FilterCriteria) (task : Task) : Bool :=
  match enabledCriteria with
  | [] => true
  | c :: rest => if !c.Matches task then false else matchesAll rest task

/-- The inner loop of the OR branch: `matchesAny`, left at the first
criterion that matches. -/
def matchesAny (enabledCriteria : List FilterCriteria) (task : Task) : Bool :=
  match enabledCriteria with
  | [] => false
  | c :: rest => if c.Matches task then true else matchesAny rest task

/-- `filterImpl.Apply`. -/
def Apply (tasks : List Task) (criteria : List FilterCriteria) (logic : FilterLogic) :
    List Task :=
  if criteria.length = 0 then tasks
  else
    let enabledCriteria := collectInto (fun c => c.Enabled) criteria []
    if enabledCriteria.length = 0 then tasks
    else if logic = FilterAnd then collectInto (matchesAll enabledCriteria) tasks []
    else collectInto (matchesAny enabledCriteria) tasks []

/-! ## `filter/index.go` -/

/-- A `map[string][]int`: the keys with their position lists. -/
abbrev PosMap := List (Str × List Nat)

/-- The value `m[k]`, empty for an absent key. -/
def posGet (m : PosMap) (k : Str) : List Nat :=
  match m with
  | [] => []
  | (k0, l) :: rest => if k0 = k then l else posGet rest k

/-- The assignment `m[k] = append(m[k], i)`. -/
def posAppend (m : PosMap) (k : Str) (i : Nat) : PosMap :=
  match m with
  | [] => [(k, [i])]
  | (k0, l) :: rest => if k0 = k then (k0, l ++ [i]) :: rest else (k0, l) :: posAppend rest k i

/-- `Index`. -/
structure Index where
  PriorityIndex : PosMap
  ContextIndex : PosMap
  ProjectIndex : PosMap
  CompletedIdx : List Nat
  ActiveIdx : List Nat
deriving DecidableEq, Repr

/-- `NewIndex`. -/
def NewIndex : Index :=
  { PriorityIndex := [], ContextIndex := [], ProjectIndex := [], CompletedIdx := [],
    ActiveIdx := [] }

/-- The body of the loop of `Index.Build` for the task at position `i`.  A
`range` over a set visits each key once; the value of every `m[k]` afterwards
is the same for every order of the visit (`posGet_foldl_posAppend`). -/
def Index.buildStep (idx : Index) (i : Nat) (task : Task) : Index :=
  let idx := if task.Priority ≠ [] then
      { idx with PriorityIndex := posAppend idx.PriorityIndex task.Priority i } else idx
  let idx := { idx with ContextIndex :=
      task.Contexts.dedup.foldl (fun m ctx => posAppend m ctx i) idx.ContextIndex }
  let idx := { idx with ProjectIndex :=
      task.Projects.dedup.foldl (fun m proj => posAppend m proj i) idx.ProjectIndex }
  if task.IsComplete then { idx with CompletedIdx := idx.CompletedIdx ++ [i] }
  else { idx with ActiveIdx := idx.ActiveIdx ++ [i] }

/-- The loop of `Index.Build` over the tasks from position `i` on. -/
def Index.buildLoop : List Task → Nat → Index → Index
  | [], _, idx => idx
  | task :: rest, i, idx => Index.buildLoop rest (i + 1) (idx.buildStep i task)

/-- `Index.Build`: the five structures are cleared, then filled in one pass. -/
def Index.Build (idx : Index) (tasks : List Task) : Index :=
  let idx := { idx with PriorityIndex := [], ContextIndex := [], ProjectIndex := [],
                        CompletedIdx := [], ActiveIdx := [] }
  Index.buildLoop tasks 0 idx

/-- `Index.GetByPriority`. -/
def Index.GetByPriority (idx : Index) (priority : Str) : List Nat :=
  posGet idx.PriorityIndex priority

/-- `Index.GetByContext`. -/
def Index.GetByContext (idx : Index) (context : Str) : List Nat :=
  posGet idx.ContextIndex context

/-- `Index.GetByProject`. -/
def Index.GetByProject (idx : Index) (project : Str) : List Nat :=
  posGet idx.ProjectIndex project

/-- `Index.GetCompleted`. -/
def Index.GetCompleted (idx : Index) : List Nat := idx.CompletedIdx

/-- `Index.GetActive`. -/
def Index.GetActive (idx : Index) : List Nat := idx.ActiveIdx

/-! ## `filter/tasklist.go` -/

/-- A Go `int` holds 64 bits: the value of an integer after wrap-around. -/
def wrapInt (x : Int) : Int :=
  (x + 9223372036854775808) % 18446744073709551616 - 9223372036854775808

/-- The integer is a value of the type `int`. -/
def IsInt64 (x : Int) : Prop := -9223372036854775808 ≤ x ∧ x ≤ 9223372036854775807

/-- `SortCriteria`, an `int`. -/
abbrev SortCriteria := Int

/-- `SortNone`. -/
def SortNone : SortCriteria := 0
/-- `SortPriority`. -/
def SortPriority : SortCriteria := 1
/-- `SortCreationDate`. -/
def SortCreationDate : SortCriteria := 2
/-- `SortCompletionDate`. -/
def SortCompletionDate : SortCriteria := 3
/-- `SortDescription`. -/
def SortDescription : SortCriteria := 4

/-- `SortOrder`, an `int`. -/
abbrev SortOrder := Int

/-- `SortAscending`. -/
def SortAscending : SortOrder := 0
/-- `SortDescending`. -/
def SortDescending : SortOrder := 1

/-- Go `<` on strings: the byte-wise lexical order. -/
def bytesLess : Bytes → Bytes → Bool
  | [], [] => false
  | [], _ :: _ => true
  | _ :: _, [] => false
  | x :: xs, y :: ys => if x < y then true else if y < x then false else bytesLess xs ys

/-- Go `a < b` for two strings. -/
def strLess (a b : Str) : Bool := bytesLess (utf8 a) (utf8 b)

/-- Go `Time.Before` on day-precision dates. -/
def Date.Before (a b : Date) : Bool :=
  decide (a.year < b.year ∨ (a.year = b.year ∧
    (a.month < b.month ∨ (a.month = b.month ∧ a.day < b.day))))

/-- Go `Time.After`. -/
def Date.After (a b : Date) : Bool := b.Before a

/-- `TaskList`.  `index` is the index held by the field `filter`; `shared`
records that `VisibleTasks` and `AllTasks` are one and the same slice, so
that a write to an element of one is a write to the other. -/
structure TaskList where
  AllTasks : List Task
  ActiveFilters : List FilterCriteria
  FilterLogic : FilterLogic
  index : Index
  SortBy : SortCriteria
  SortOrder : SortOrder
  VisibleTasks : List Task
  shared : Bool
  SelectedIndex : Int
  ScrollOffset : Int
  ViewportSize : Int
  TotalCount : Int
  VisibleCount : Int
deriving DecidableEq, Repr

/-- `NewTaskList`. -/
def NewTaskList (tasks : List Task) : TaskList :=
  { AllTasks := tasks
    ActiveFilters := []
    FilterLogic := FilterAnd
    index := NewIndex.Build tasks
    SortBy := SortNone
    SortOrder := SortAscending
    VisibleTasks := tasks
    shared := true
    SelectedIndex := 0
    ScrollOffset := 0
    ViewportSize := 10
    TotalCount := tasks.length
    VisibleCount := tasks.length }

/-- `TaskList.shouldSwap`: task `i` should come after task `j`. -/
def TaskList.shouldSwap (tl : TaskList) (i j : Task) : Bool :=
  let cmp : Int :=
    if tl.SortBy = SortPriority then
      if i.Priority = [] ∧ j.Priority ≠ [] then 1
      else if i.Priority ≠ [] ∧ j.Priority = [] then -1
      else if strLess i.Priority j.Priority then -1
      else if strLess j.Priority i.Priority then 1
      else 0
    else if tl.SortBy = SortCreationDate then
      if i.CreationDate.Before j.CreationDate then -1
      else if i.CreationDate.After j.CreationDate then 1
      else 0
    else if tl.SortBy = SortCompletionDate then
      if i.CompletionDate.Before j.CompletionDate then -1
      else if i.CompletionDate.After j.CompletionDate then 1
      else 0
    else if tl.SortBy = SortDescription then
      if strLess i.Description j.Description then -1
      else if strLess j.Description i.Description then 1
      else 0
    else 0
  let cmp := if tl.SortOrder = SortDescending then -cmp else cmp
  decide (cmp > 0)

/-- The inner loop of `sort` for a fixed `i`: `n` iterations are left, from
`j` on; the elements at `i` and `j` are exchanged when `should` says so. -/
def sortInner (should : Task → Task → Bool) (i : Nat) : Nat → Nat → List Task → List Task
  | 0, _, v => v
  | n + 1, j, v =>
    sortInner should i n (j + 1)
      (match v[i]?, v[j]? with
        | some a, some b => if should a b then (v.set i b).set j a else v
        | _, _ => v)

/-- The outer loop of `sort`: `n` iterations are left, from `i` on. -/
def sortOuter (should : Task → Task → Bool) : Nat → Nat → List Task → List Task
  | 0, _, v => v
  | n + 1, i, v => sortOuter should n (i + 1) (sortInner should i (v.length - (i + 1)) (i + 1) v)

/-- The two loops of `sort` on a slice: `i` runs over `0 .. len-2` and `j`
over `i+1 .. len-1`. -/
def sortSlice (should : Task → Task → Bool) (v : List Task) : List Task :=
  sortOuter should (v.length - 1) 0 v

/-- `TaskList.sort`: the elements of `VisibleTasks` are rearranged in place,
which rearranges `AllTasks` as well when the two are the same slice. -/
def TaskList.sort (tl : TaskList) : TaskList :=
  if tl.SortBy = SortNone then tl
  else
    { tl with
      VisibleTasks := sortSlice tl.shouldSwap tl.VisibleTasks
      AllTasks := if tl.shared then sortSlice tl.shouldSwap tl.VisibleTasks else tl.AllTasks }

/-- `TaskList.adjustScrollOffset`. -/
def TaskList.adjustScrollOffset (tl : TaskList) : TaskList :=
  if tl.SelectedIndex < tl.ScrollOffset then { tl with ScrollOffset := tl.SelectedIndex }
  else if tl.SelectedIndex ≥ wrapInt (tl.ScrollOffset + tl.ViewportSize) then
    let offset := wrapInt (wrapInt (tl.SelectedIndex - tl.ViewportSize) + 1)
    { tl with ScrollOffset := if offset < 0 then 0 else offset }
  else tl

/-- `Apply` returns its input slice itself, not a new one, when no criterion
is enabled. -/
def applyReturnsInput (criteria : List FilterCriteria) : Bool :=
  decide (criteria.length = 0) || decide ((collectInto (fun c => c.Enabled) criteria []).length = 0)

/-- `TaskList.ApplyFilters`. -/
def TaskList.ApplyFilters (tl : TaskList) : TaskList :=
  let tl := { tl with
    VisibleTasks := Apply tl.AllTasks tl.ActiveFilters tl.FilterLogic
    shared := applyReturnsInput tl.ActiveFilters }
  let tl := { tl with VisibleCount := tl.VisibleTasks.length }
  let tl := tl.sort
  let tl :=
    if tl.SelectedIndex ≥ tl.VisibleCount then
      if tl.VisibleCount > 0 then { tl with SelectedIndex := wrapInt (tl.VisibleCount - 1) }
      else { tl with SelectedIndex := -1 }
    else tl
  tl.adjustScrollOffset

/-- `TaskList.AddFilter`. -/
def TaskList.AddFilter (tl : TaskList) (filter : FilterCriteria) : TaskList :=
  TaskList.ApplyFilters { tl with ActiveFilters := tl.ActiveFilters ++ [filter] }

/-- `TaskList.RemoveFilter`. -/
def TaskList.RemoveFilter (tl : TaskList) (filterType : FilterType) : TaskList :=
  TaskList.ApplyFilters
    { tl with ActiveFilters := collectInto (fun f => decide (f.Kind ≠ filterType)) tl.ActiveFilters [] }

/-- `TaskList.ClearFilters`. -/
def TaskList.ClearFilters (tl : TaskList) : TaskList :=
  TaskList.ApplyFilters { tl with ActiveFilters := [] }

/-- `TaskList.SetSort`. -/
def TaskList.SetSort (tl : TaskList) (sortBy : SortCriteria) (order : TodoTxt.SortOrder) :
    TaskList :=
  TaskList.sort { tl with SortBy := sortBy, SortOrder := order }

/-- `TaskList.SelectNext`; `%` truncates toward zero. -/
def TaskList.SelectNext (tl : TaskList) : TaskList :=
  if tl.VisibleCount = 0 then { tl with SelectedIndex := -1 }
  else
    TaskList.adjustScrollOffset
      { tl with SelectedIndex := Int.tmod (wrapInt (tl.SelectedIndex + 1)) tl.VisibleCount }

/-- `TaskList.SelectPrev`. -/
def TaskList.SelectPrev (tl : TaskList) : TaskList :=
  if tl.VisibleCount = 0 then { tl with SelectedIndex := -1 }
  else
    let tl := { tl with SelectedIndex := wrapInt (tl.SelectedIndex - 1) }
    let tl := if tl.SelectedIndex < 0 then
        { tl with SelectedIndex := wrapInt (tl.VisibleCount - 1) } else tl
    tl.adjustScrollOffset

/-- `TaskList.SelectFirst`. -/
def TaskList.SelectFirst (tl : TaskList) : TaskList :=
  if tl.VisibleCount > 0 then TaskList.adjustScrollOffset { tl with SelectedIndex := 0 }
  else tl

/-- `TaskList.SelectLast`. -/
def TaskList.SelectLast (tl : TaskList) : TaskList :=
  if tl.VisibleCount > 0 then
    TaskList.adjustScrollOffset { tl with SelectedIndex := wrapInt (tl.VisibleCount - 1) }
  else tl

/-- `TaskList.ScrollDown`. -/
def TaskList.ScrollDown (tl : TaskList) : TaskList :=
  let maxOffset := wrapInt (tl.VisibleCount - tl.ViewportSize)
  let maxOffset := if maxOffset < 0 then 0 else maxOffset
  if tl.ScrollOffset < maxOffset then { tl with ScrollOffset := wrapInt (tl.ScrollOffset + 1) }
  else tl

/-- `TaskList.ScrollUp`. -/
def TaskList.ScrollUp (tl : TaskList) : TaskList :=
  if tl.ScrollOffset > 0 then { tl with ScrollOffset := wrapInt (tl.ScrollOffset - 1) }
  else tl

/-- `TaskList.SetViewportSize`. -/
def TaskList.SetViewportSize (tl : TaskList) (size : Int) : TaskList :=
  if size > 0 then TaskList.adjustScrollOffset { tl with ViewportSize := size }
  else tl

/-- `TaskList.Refresh`. -/
def TaskList.Refresh (tl : TaskList) : TaskList :=
  let tl := { tl with TotalCount := tl.AllTasks.length }
  let tl := { tl with index := tl.index.Build tl.AllTasks }
  tl.ApplyFilters

/-- The states of a `TaskList` that `NewTaskList` and the public operations
produce; lengths and arguments are values of the type `int`. -/
inductive Reachable : TaskList → Prop
  | newTaskList (tasks : List Task) (h : (tasks.length : Int) ≤ 9223372036854775807) :
      Reachable (NewTaskList tasks)
  | applyFilters {tl : TaskList} : Reachable tl → Reachable tl.ApplyFilters
  | addFilter {tl : TaskList} (f : FilterCriteria) : Reachable tl → Reachable (tl.AddFilter f)
  | removeFilter {tl : TaskList} (k : FilterType) : Reachable tl → Reachable (tl.RemoveFilter k)
  | clearFilters {tl : TaskList} : Reachable tl → Reachable tl.ClearFilters
  | setSort {tl : TaskList} (sortBy : SortCriteria) (order : SortOrder) :
      Reachable tl → Reachable (tl.SetSort sortBy order)
  | selectNext {tl : TaskList} : Reachable tl → Reachable tl.SelectNext
  | selectPrev {tl : TaskList} : Reachable tl → Reachable tl.SelectPrev
  | selectFirst {tl : TaskList} : Reachable tl → Reachable tl.SelectFirst
  | selectLast {tl : TaskList} : Reachable tl → Reachable tl.SelectLast
  | scrollDown {tl : TaskList} : Reachable tl → Reachable tl.ScrollDown
  | scrollUp {tl : TaskList} : Reachable tl → Reachable tl.ScrollUp
  | setViewportSize {tl : TaskList} (size : Int) (h : IsInt64 size) :
      Reachable tl → Reachable (tl.SetViewportSize size)
  | refresh {tl : TaskList} : Reachable tl → Reachable tl.Refresh

/-- A slice expression `s[low:high]` on a slice whose capacity is its length:
the elements from `low` up to `high`, or the run-time panic. -/
def sliceRange {α : Type} (s : List α) (low high : Int) : Except Str (List α) :=
  if 0 ≤ low ∧ low ≤ high ∧ high ≤ s.length then
    .ok ((s.drop low.toNat).take (high - low).toNat)
  else .error "runtime error: slice bounds out of range".toList

/-- An index expression `s[i]`: the element, or the run-time panic. -/
def sliceIndex {α : Type} (s : List α) (i : Int) : Except Str α :=
  if h : 0 ≤ i ∧ i < s.length then .ok (s.get ⟨i.toNat, by omega⟩)
  else .error "runtime error: index out of range".toList

/-- `TaskList.GetSelectedTask`; `none` is the nil task. -/
def TaskList.GetSelectedTask (tl : TaskList) : Except Str (Option Task) :=
  if tl.SelectedIndex ≥ 0 ∧ tl.SelectedIndex < tl.VisibleCount then
    (sliceIndex tl.VisibleTasks tl.SelectedIndex).map some
  else .ok none

/-- `TaskList.GetVisibleTasks`. -/
def TaskList.GetVisibleTasks (tl : TaskList) : Except Str (List Task) :=
  let start := tl.ScrollOffset
  let stop := wrapInt (start + tl.ViewportSize)
  if start ≥ tl.VisibleCount then .ok []
  else
    let stop := if stop > tl.VisibleCount then tl.VisibleCount else stop
    sliceRange tl.VisibleTasks start stop

/-- `TaskList.GetTaskAtViewportPosition`; `none` is the nil task. -/
def TaskList.GetTaskAtViewportPosition (tl : TaskList) (pos : Int) :
    Except Str (Option Task) :=
  let index := wrapInt (tl.ScrollOffset + pos)
  if index ≥ 0 ∧ index < tl.VisibleCount then (sliceIndex tl.VisibleTasks index).map some
  else .ok none

/-! ## `filter/filter.go`: the dedicated helpers -/

/-- `filterImpl.Search`. -/
def Search (tasks : List Task) (query : Str) : List Task :=
  if query = [] then tasks
  else collectInto (fun task => containsIgnoreCase task.Description query) tasks []

/-- `filterImpl.FilterByPriority`. -/
def FilterByPriority (tasks : List Task) (priority : Str) : List Task :=
  collectInto (fun task => decide (task.Priority = priority)) tasks []

/-- `filterImpl.FilterByContext`. -/
def FilterByContext (tasks : List Task) (context : Str) : List Task :=
  collectInto (fun task => task.HasContext context) tasks []

/-- `filterImpl.FilterByProject`. -/
def FilterByProject (tasks : List Task) (project : Str) : List Task :=
  collectInto (fun task => task.HasProject project) tasks []

/-- `filterImpl.FilterByCompletion`. -/
def FilterByCompletion (tasks : List Task) (completed : Bool) : List Task :=
  collectInto (fun task => decide (task.IsComplete = completed)) tasks []

/-! ## `storage/todofile.go` -/

/-- The task objects that the pointers of type `*parser.Task` point to:
`cell p` is the task at the address `p`, and the addresses from `next` on are
not in use. -/
structure Heap where
  cell : Nat → Task
  next : Nat

/-- An assignment through a pointer: the task at the address `p` becomes `t`. -/
def Heap.write (mem : Heap) (p : Nat) (t : Task) : Heap :=
  { mem with cell := fun q => if q = p then t else mem.cell q }

/-- The expression `&parser.Task{...}`: a new task object with the given
contents, at an address that was not in use; the address and the heap after. -/
def Heap.new (mem : Heap) (t : Task) : Nat × Heap :=
  (mem.next, { cell := fun q => if q = mem.next then t else mem.cell q, next := mem.next + 1 })

/-- New task objects for a list of tasks, as `ParseFile` creates them: their
addresses, in order, and the heap after. -/
def Heap.alloc (mem : Heap) : List Task → List Nat × Heap
  | [] => ([], mem)
  | t :: rest => ((mem.new t).1 :: ((mem.new t).2.alloc rest).1, ((mem.new t).2.alloc rest).2)

/-- `TodoFile`: the task collection, a slice of pointers to tasks, and the
flag of unsaved changes.  A pointer is the address of a task in the heap (it
is not nil); the same address can stand at several positions. -/
structure TodoFile where
  Tasks : List Nat
  Modified : Bool
deriving DecidableEq, Repr

/-- `TodoFile.Load` on the path on which the file exists and the storage
delivers `content`: the error, if any, and the file and the heap after the
call.  The tasks of `ParseFile` are new objects. -/
def TodoFile.Load (tf : TodoFile) (mem : Heap) (content : Str) : Option Str × TodoFile × Heap :=
  match ParseFile content with
  | .error e => (some ("failed to parse file: ".toList ++ e), tf, mem)
  | .ok tasks => (none, { tf with Tasks := (mem.alloc tasks).1, Modified := false },
      (mem.alloc tasks).2)

/-- `TodoFile.AddTask`: the file and the heap after the call.  The line number
and the flag `Modified` are written through the pointer `task`, and the
pointer is appended.  The length of a slice of pointers is far below the
largest `int`, so `len + 1` does not wrap. -/
def TodoFile.AddTask (tf : TodoFile) (mem : Heap) (task : Nat) : TodoFile × Heap :=
  let mem := mem.write task { mem.cell task with LineNumber := (tf.Tasks.length : Int) + 1 }
  let tf := { tf with Tasks := tf.Tasks ++ [task] }
  let tf := { tf with Modified := true }
  let mem := mem.write task { mem.cell task with Modified := true }
  (tf, mem)

/-- The message of `fmt.Errorf("index out of range: %d", index)`. -/
def indexOutOfRange (index : Int) : Str :=
  "index out of range: ".toList ++ (toString index).toList

/-- `TodoFile.UpdateTask`: the error, if any, and the file and the heap after
the call.  The line number of the task at the index is written through the
pointer `task`, the pointer is stored at the index, and `Modified` is written
through the pointer. -/
def TodoFile.UpdateTask (tf : TodoFile) (mem : Heap) (index : Int) (task : Nat) :
    Option Str × TodoFile × Heap :=
  if h : index < 0 ∨ index ≥ tf.Tasks.length then (some (indexOutOfRange index), tf, mem)
  else
    let mem := mem.write task { mem.cell task with
      LineNumber := (mem.cell (tf.Tasks.get ⟨index.toNat, by omega⟩)).LineNumber }
    let tf := { tf with Tasks := tf.Tasks.set index.toNat task }
    let tf := { tf with Modified := true }
    let mem := mem.write task { mem.cell task with Modified := true }
    (none, tf, mem)

/-- The loop `for i := index; i < len(tf.Tasks); i++` of `DeleteTask`, with
`n` iterations left: the line number `i + 1` is written through the pointer
at `i`. -/
def renumberLoop : Nat → Nat → List Nat → Heap → Heap
  | 0, _, _, mem => mem
  | n + 1, i, tasks, mem =>
    renumberLoop n (i + 1) tasks
      (match tasks[i]? with
        | some p => mem.write p { mem.cell p with LineNumber := (i : Int) + 1 }
        | none => mem)

/-- `TodoFile.DeleteTask`: the error, if any, and the file and the heap after
the call. -/
def TodoFile.DeleteTask (tf : TodoFile) (mem : Heap) (index : Int) :
    Option Str × TodoFile × Heap :=
  if index < 0 ∨ index ≥ tf.Tasks.length then (some (indexOutOfRange index), tf, mem)
  else
    let tasks := tf.Tasks.take index.toNat ++ tf.Tasks.drop (index.toNat + 1)
    let mem := renumberLoop (tasks.length - index.toNat) index.toNat tasks mem
    (none, { tf with Tasks := tasks, Modified := true }, mem)

/-- `TodoFile.GetTask`: the pointer at the index. -/
def TodoFile.GetTask (tf : TodoFile) (index : Int) : Except Str Nat :=
  if h : index < 0 ∨ index ≥ tf.Tasks.length then .error (indexOutOfRange index)
  else .ok (tf.Tasks.get ⟨index.toNat, by omega⟩)

/-- The tasks of the collection in order: for each pointer the task it
points to. -/
def TodoFile.tasks (tf : TodoFile) (mem : Heap) : List Task := tf.Tasks.map mem.cell

/-! ## `keymap/types.go`, `keymap/keymap.go`, `keymap/defaults.go` -/

/-- `Mode`. -/
abbrev Mode := Int

/-- `ModeNormal`. -/
def ModeNormal : Mode := 0
/-- `ModeInsert`. -/
def ModeInsert : Mode := 1
/-- `ModeDialog`. -/
def ModeDialog : Mode := 2
/-- `ModeSearch`. -/
def ModeSearch : Mode := 3

/-- `Action`. -/
abbrev Action := Int

/-- `ActionNone`. -/
def ActionNone : Action := 0
/-- `ActionMoveDown`. -/
def ActionMoveDown : Action := 1
/-- `ActionMoveUp`. -/
def ActionMoveUp : Action := 2
/-- `ActionMoveTop`. -/
def ActionMoveTop : Action := 3
/-- `ActionMoveBottom`. -/
def ActionMoveBottom : Action := 4
/-- `ActionPageDown`. -/
def ActionPageDown : Action := 5
/-- `ActionPageUp`. -/
def ActionPageUp : Action := 6
/-- `ActionScrollDown`. -/
def ActionScrollDown : Action := 7
/-- `ActionScrollUp`. -/
def ActionScrollUp : Action := 8
/-- `ActionMoveLeft`. -/
def ActionMoveLeft : Action := 9
/-- `ActionMoveRight`. -/
def ActionMoveRight : Action := 10
/-- `ActionSelectTask`. -/
def ActionSelectTask : Action := 11
/-- `ActionDetailView`. -/
def ActionDetailView : Action := 12
/-- `ActionAddTask`. -/
def ActionAddTask : Action := 13
/-- `ActionEditTask`. -/
def ActionEditTask : Action := 14
/-- `ActionToggleTask`. -/
def ActionToggleTask : Action := 15
/-- `ActionDeleteTask`. -/
def ActionDeleteTask : Action := 16
/-- `ActionIncreasePrio`. -/
def ActionIncreasePrio : Action := 17
/-- `ActionDecreasePrio`. -/
def ActionDecreasePrio : Action := 18
/-- `ActionClearPrio`. -/
def ActionClearPrio : Action := 19
/-- `ActionFilterToggle`. -/
def ActionFilterToggle : Action := 20
/-- `ActionFilterContext`. -/
def ActionFilterContext : Action := 21
/-- `ActionFilterProject`. -/
def ActionFilterProject : Action := 22
/-- `ActionFilterPriority`. -/
def ActionFilterPriority : Action := 23
/-- `ActionSearch`. -/
def ActionSearch : Action := 24
/-- `ActionClearFilters`. -/
def ActionClearFilters : Action := 25
/-- `ActionSave`. -/
def ActionSave : Action := 26
/-- `ActionReload`. -/
def ActionReload : Action := 27
/-- `ActionQuit`. -/
def ActionQuit : Action := 28
/-- `ActionHelp`. -/
def ActionHelp : Action := 29
/-- `ActionCancel`. -/
def ActionCancel : Action := 30
/-- `ActionConfirm`. -/
def ActionConfirm : Action := 31

/-- `KeyBinding`. -/
structure KeyBinding where
  Key : Str
  Action : TodoTxt.Action
  Description : Str
deriving DecidableEq, Repr

/-- Lookup `m[k]` on a map. -/
def tableGet {κ ν : Type} [DecidableEq κ] (m : List (κ × ν)) (k : κ) : Option ν :=
  match m with
  | [] => none
  | (k0, v0) :: rest => if k0 = k then some v0 else tableGet rest k

/-- Assignment `m[k] = v` on a map. -/
def tableSet {κ ν : Type} [DecidableEq κ] (m : List (κ × ν)) (k : κ) (v : ν) : List (κ × ν) :=
  match m with
  | [] => [(k, v)]
  | (k0, v0) :: rest => if k0 = k then (k, v) :: rest else (k0, v0) :: tableSet rest k v

/-- `keymapImpl`: mode to key to action. -/
structure keymapImpl where
  bindings : List (Mode × List (Str × Action))
deriving DecidableEq, Repr

/-- `keymapImpl.GetBinding`. -/
def keymapImpl.GetBinding (km : keymapImpl) (mode : Mode) (key : Str) : Action :=
  match tableGet km.bindings mode with
  | some modeBindings =>
    match tableGet modeBindings key with
    | some action => action
    | none => ActionNone
  | none => ActionNone

/-- The map `normalMode` of `loadDefaultBindings`. -/
def normalModeBindings : List (Str × Action) :=
  let normalMode : List (Str × Action) := []
  let normalMode := tableSet normalMode "j".toList ActionMoveDown
  let normalMode := tableSet normalMode "k".toList ActionMoveUp
  let normalMode := tableSet normalMode "g".toList ActionMoveTop
  let normalMode := tableSet normalMode "G".toList ActionMoveBottom
  let normalMode := tableSet normalMode "h".toList ActionMoveLeft
  let normalMode := tableSet normalMode "l".toList ActionMoveRight
  let normalMode := tableSet normalMode "ctrl+d".toList ActionPageDown
  let normalMode := tableSet normalMode "ctrl+u".toList ActionPageUp
  let normalMode := tableSet normalMode "ctrl+e".toList ActionScrollDown
  let normalMode := tableSet normalMode "ctrl+y".toList ActionScrollUp
  let normalMode := tableSet normalMode "enter".toList ActionDetailView
  let normalMode := tableSet normalMode "a".toList ActionAddTask
  let normalMode := tableSet normalMode "e".toList ActionEditTask
  let normalMode := tableSet normalMode " ".toList ActionToggleTask
  let normalMode := tableSet normalMode "d".toList ActionDeleteTask
  let normalMode := tableSet normalMode "+".toList ActionIncreasePrio
  let normalMode := tableSet normalMode "-".toList ActionDecreasePrio
  let normalMode := tableSet normalMode "0".toList ActionClearPrio
  let normalMode := tableSet normalMode "f".toList ActionFilterToggle
  let normalMode := tableSet normalMode "c".toList ActionFilterContext
  let normalMode := tableSet normalMode "p".toList ActionFilterProject
  let normalMode := tableSet normalMode "P".toList ActionFilterPriority
  let normalMode := tableSet normalMode "/".toList ActionSearch
  let normalMode := tableSet normalMode "F".toList ActionClearFilters
  let normalMode := tableSet normalMode "s".toList ActionSave
  let normalMode := tableSet normalMode "r".toList ActionReload
  let normalMode := tableSet normalMode "q".toList ActionQuit
  let normalMode := tableSet normalMode "?".toList ActionHelp
  let normalMode := tableSet normalMode "esc".toList ActionCancel
  normalMode

/-- `loadDefaultBindings`. -/
def loadDefaultBindings (km : keymapImpl) : keymapImpl :=
  let km := { km with bindings := tableSet km.bindings ModeNormal normalModeBindings }
  let insertMode : List (Str × Action) := []
  let insertMode := tableSet insertMode "esc".toList ActionCancel
  let insertMode := tableSet insertMode "enter".toList ActionConfirm
  let km := { km with bindings := tableSet km.bindings ModeInsert insertMode }
  let dialogMode : List (Str × Action) := []
  let dialogMode := tableSet dialogMode "y".toList ActionConfirm
  let dialogMode := tableSet dialogMode "n".toList ActionCancel
  let dialogMode := tableSet dialogMode "enter".toList ActionConfirm
  let dialogMode := tableSet dialogMode "esc".toList ActionCancel
  let km := { km with bindings := tableSet km.bindings ModeDialog dialogMode }
  let searchMode : List (Str × Action) := []
  let searchMode := tableSet searchMode "esc".toList ActionCancel
  let searchMode := tableSet searchMode "enter".toList ActionConfirm
  { km with bindings := tableSet km.bindings ModeSearch searchMode }

/-- `keymapImpl.ResetToDefaults`. -/
def keymapImpl.ResetToDefaults (km : keymapImpl) : keymapImpl :=
  loadDefaultBindings { km with bindings := [] }

/-- `NewKeymap`. -/
def NewKeymap : keymapImpl :=
  keymapImpl.ResetToDefaults { bindings := [] }

/-- `GetDefaultBindings`: the map from mode to the documented bindings. -/
def GetDefaultBindings : List (Mode × List KeyBinding) :=
  let bindings : List (Mode × List KeyBinding) := []
  let bindings := tableSet bindings ModeNormal [
    ⟨"j".toList, ActionMoveDown, "Move selection down".toList⟩,
    ⟨"k".toList, ActionMoveUp, "Move selection up".toList⟩,
    ⟨"g".toList, ActionMoveTop, "Move to top".toList⟩,
    ⟨"G".toList, ActionMoveBottom, "Move to bottom".toList⟩,
    ⟨"h".toList, ActionMoveLeft, "Move left".toList⟩,
    ⟨"l".toList, ActionMoveRight, "Move right".toList⟩,
    ⟨"ctrl+d".toList, ActionPageDown, "Page down".toList⟩,
    ⟨"ctrl+u".toList, ActionPageUp, "Page up".toList⟩,
    ⟨"ctrl+e".toList, ActionScrollDown, "Scroll down".toList⟩,
    ⟨"ctrl+y".toList, ActionScrollUp, "Scroll up".toList⟩,
    ⟨"enter".toList, ActionDetailView, "Show detail view".toList⟩,
    ⟨"a".toList, ActionAddTask, "Add new task".toList⟩,
    ⟨"e".toList, ActionEditTask, "Edit task".toList⟩,
    ⟨"space".toList, ActionToggleTask, "Toggle task completion".toList⟩,
    ⟨"d".toList, ActionDeleteTask, "Delete task".toList⟩,
    ⟨"+".toList, ActionIncreasePrio, "Increase priority".toList⟩,
    ⟨"-".toList, ActionDecreasePrio, "Decrease priority".toList⟩,
    ⟨"0".toList, ActionClearPrio, "Clear priority".toList⟩,
    ⟨"f".toList, ActionFilterToggle, "Toggle filter".toList⟩,
    ⟨"c".toList, ActionFilterContext, "Filter by context".toList⟩,
    ⟨"p".toList, ActionFilterProject, "Filter by project".toList⟩,
    ⟨"P".toList, ActionFilterPriority, "Filter by priority".toList⟩,
    ⟨"/".toList, ActionSearch, "Search tasks".toList⟩,
    ⟨"F".toList, ActionClearFilters, "Clear all filters".toList⟩,
    ⟨"s".toList, ActionSave, "Save file".toList⟩,
    ⟨"r".toList, ActionReload, "Reload file".toList⟩,
    ⟨"q".toList, ActionQuit, "Quit application".toList⟩,
    ⟨"?".toList, ActionHelp, "Show help".toList⟩,
    ⟨"esc".toList, ActionCancel, "Cancel/escape".toList⟩]
  let bindings := tableSet bindings ModeInsert [
    ⟨"esc".toList, ActionCancel, "Cancel editing".toList⟩,
    ⟨"enter".toList, ActionConfirm, "Confirm edit".toList⟩]
  let bindings := tableSet bindings ModeDialog [
    ⟨"y".toList, ActionConfirm, "Confirm (yes)".toList⟩,
    ⟨"n".toList, ActionCancel, "Cancel (no)".toList⟩,
    ⟨"enter".toList, ActionConfirm, "Confirm".toList⟩,
    ⟨"esc".toList, ActionCancel, "Cancel".toList⟩]
  let bindings := tableSet bindings ModeSearch [
    ⟨"esc".toList, ActionCancel, "Cancel search".toList⟩,
    ⟨"enter".toList, ActionConfirm, "Apply search".toList⟩]
  bindings

deriving instance DecidableEq for Except

/-! ## Definitions that follow the specification -/

/-- Following the specification: the parts of the line that are present, in
the order in which they are written. -/
def serializeParts (t : Task) : List Str :=
  (if t.Completed = true then ["x".toList] else []) ++
  (if t.Completed = false ∧ t.Priority ≠ [] then ["(".toList ++ t.Priority ++ ")".toList] else []) ++
  (if t.Completed = true ∧ t.CompletionDate ≠ Date.zero then [t.CompletionDate.Format] else []) ++
  (if t.CreationDate ≠ Date.zero then [t.CreationDate.Format] else []) ++
  [t.Description]

/-- Following the specification: the tag grammar, a sigil followed by a
non-empty word of letters, digits, underscores and hyphens. -/
def IsTag (U : UnicodeTables) (sigil : Char) (tag : Str) : Prop :=
  ∃ w, tag = sigil :: w ∧ w ≠ [] ∧
    ∀ r ∈ w, IsLetter U r = true ∨ IsDigit U r = true ∨ r = '_' ∨ r = '-'

/-- The text begins with a date token: a date text followed by white space
that `ParseTodoDate` accepts. -/
def startsWithDate (d : Str) : Bool :=
  match dateRe d with
  | some (_, dateText) =>
    match ParseTodoDate dateText with
    | .ok _ => true
    | .error _ => false
  | none => false

/-- An open task without priority whose description begins like a completion
marker. -/
def markerTask : Task :=
  { Priority := [], CreationDate := Date.zero, Completed := false, CompletionDate := Date.zero,
    Description := "x marks the spot".toList, Contexts := [], Projects := [], Metadata := [],
    RawLine := [], LineNumber := 0, Modified := false }

/-- A completed task that still carries a priority. -/
def doneTask : Task :=
  { Priority := "A".toList, CreationDate := Date.zero, Completed := true,
    CompletionDate := ⟨2026, 2, 14⟩, Description := "Done task".toList, Contexts := [],
    Projects := [], Metadata := [], RawLine := [], LineNumber := 0, Modified := false }

/-- An open task with priority, creation date and description. -/
def openTask : Task :=
  { Priority := "A".toList, CreationDate := ⟨2026, 2, 2⟩, Completed := false,
    CompletionDate := Date.zero, Description := "Buy groceries @store".toList,
    Contexts := ["@store".toList], Projects := [], Metadata := [],
    RawLine := [], LineNumber := 0, Modified := false }

/-- Following the specification: the physical lines of a text, that is the
pieces between its newline characters, without the empty piece after a final
newline and without a trailing carriage return. -/
def physicalLines (text : Str) : List Str :=
  let pieces := splitNewlines text
  (if pieces.getLast? = some [] then pieces.dropLast else pieces).map dropCR

/-- Following the specification: the task of line `l` with number `k`, when
the line has a character that is not white space and parses. -/
def taskOfLine (kl : Nat × Str) : Option Task :=
  if TrimSpace kl.2 = [] then none
  else
    match ParseLine kl.2 kl.1 with
    | .ok t => some t
    | .error _ => none

/-- Following the specification: one task for each physical line that is not
blank, in file order, each with its 1-indexed physical line number. -/
def tasksOfLines (lines : List Str) : List Task :=
  (lines.enumFrom 1).filterMap taskOfLine

/-- A task with the context `@work`, not modified. -/
def workTask : Task :=
  { Priority := [], CreationDate := Date.zero, Completed := false, CompletionDate := Date.zero,
    Description := "Write report @work".toList, Contexts := ["@work".toList],
    Projects := ["+office".toList], Metadata := [], RawLine := [], LineNumber := 1,
    Modified := false }

/-- Following the specification: a criterion matches a task. -/
def matchesSpec (fc : FilterCriteria) (task : Task) : Prop :=
  fc.Enabled = false ∨
  fc.Kind = FilterNone ∨
  (fc.Kind = FilterPriority ∧ task.Priority = fc.Value) ∨
  (fc.Kind = FilterContext ∧ fc.Value ∈ task.Contexts) ∨
  (fc.Kind = FilterProject ∧ fc.Value ∈ task.Projects) ∨
  (fc.Kind = FilterSearch ∧ containsIgnoreCase task.Description fc.Value = true) ∨
  (fc.Kind = FilterCompleted ∧ fc.Value = "true".toList ∧ task.Completed = true) ∨
  (fc.Kind = FilterCompleted ∧ fc.Value ≠ "true".toList ∧ task.Completed = false)

/-- Three criteria: the context `@work` and the priority `A`, both enabled,
and a disabled search. -/
def sampleCriteria : List FilterCriteria :=
  [ { Kind := FilterContext, Value := "@work".toList, Enabled := true, Logic := FilterAnd },
    { Kind := FilterSearch, Value := "zzz".toList, Enabled := false, Logic := FilterAnd },
    { Kind := FilterPriority, Value := "A".toList, Enabled := true, Logic := FilterAnd } ]

/-- One run of the inner loop of `sort`, seen from the element `cur` that
stands at position `i` and the elements behind it: the element that stands at
`i` afterwards, and the elements behind it afterwards. -/
def selectPass (should : Task → Task → Bool) : Task → List Task → Task × List Task
  | cur, [] => (cur, [])
  | cur, y :: ys =>
    if should cur y then ((selectPass should y ys).1, cur :: (selectPass should y ys).2)
    else ((selectPass should cur ys).1, y :: (selectPass should cur ys).2)

/-- The outer loop of `sort` as `n` runs of the inner loop, each on the
elements behind the previous position. -/
def selectSort (should : Task → Task → Bool) : Nat → List Task → List Task
  | 0, l => l
  | _ + 1, [] => []
  | n + 1, x :: rest =>
    (selectPass should x rest).1 :: selectSort should n (selectPass should x rest).2

/-- Following the specification: task `a` compares strictly before task `b`
in ascending order of the field. -/
def comesBefore (field : SortCriteria) (a b : Task) : Bool :=
  if field = SortPriority then
    decide ((a.Priority ≠ [] ∧ b.Priority = []) ∨
      (a.Priority ≠ [] ∧ b.Priority ≠ [] ∧ strLess a.Priority b.Priority = true))
  else if field = SortCreationDate then a.CreationDate.Before b.CreationDate
  else if field = SortCompletionDate then a.CompletionDate.Before b.CompletionDate
  else if field = SortDescription then strLess a.Description b.Description
  else false

/-- The relation is a strict weak order: asymmetric, and its negation is
transitive. -/
def StrictWeak {α : Type} (lt : α → α → Bool) : Prop :=
  (∀ a b, lt a b = true → lt b a = false) ∧
  (∀ a b c, lt a b = false → lt b c = false → lt a c = false)

/-- The scroll offset that `adjustScrollOffset` leaves, as a function of the
selected index, the offset and the viewport size. -/
def adjustedOffset (sel off vs : Int) : Int :=
  if sel < off then sel
  else if sel ≥ wrapInt (off + vs) then
    (if wrapInt (wrapInt (sel - vs) + 1) < 0 then 0 else wrapInt (wrapInt (sel - vs) + 1))
  else off

/-- Following the specification: the view is consistent with the collection
and the filters. -/
def ViewConsistent (tl : TaskList) : Prop :=
  tl.VisibleTasks.Perm (Apply tl.AllTasks tl.ActiveFilters tl.FilterLogic) ∧
  (tl.SortBy = SortNone →
    tl.VisibleTasks = Apply tl.AllTasks tl.ActiveFilters tl.FilterLogic) ∧
  tl.VisibleCount = tl.VisibleTasks.length

/-- The selected row is inside the viewport. -/
def InViewport (tl : TaskList) : Prop :=
  tl.ScrollOffset ≤ tl.SelectedIndex ∧ tl.SelectedIndex < tl.ScrollOffset + tl.ViewportSize

/-- A task with the given priority and description and nothing else. -/
def plainTask (priority description : Str) : Task :=
  { Priority := priority, CreationDate := Date.zero, Completed := false,
    CompletionDate := Date.zero, Description := description, Contexts := [], Projects := [],
    Metadata := [], RawLine := [], LineNumber := 0, Modified := false }

/-- Three tasks, the first two with the same priority. -/
def threeTasks : List Task :=
  [plainTask "B".toList "one".toList, plainTask "B".toList "two".toList,
   plainTask "A".toList "three".toList]

/-- An enabled criterion that none of the three tasks matches. -/
def priorityZ : FilterCriteria :=
  { Kind := FilterPriority, Value := "Z".toList, Enabled := true, Logic := FilterAnd }

/-- The task of the line `0000-06-01 Old`, line 2. -/
def yearZeroTask : Task :=
  { Priority := [], CreationDate := ⟨0, 6, 1⟩, Completed := false,
    CompletionDate := Date.zero, Description := "Old".toList, Contexts := [], Projects := [],
    Metadata := [], RawLine := "0000-06-01 Old".toList, LineNumber := 2, Modified := false }

/-- The task of the line `Undated`, line 1. -/
def undatedTask : Task :=
  { Priority := [], CreationDate := Date.zero, Completed := false,
    CompletionDate := Date.zero, Description := "Undated".toList, Contexts := [], Projects := [],
    Metadata := [], RawLine := "Undated".toList, LineNumber := 1, Modified := false }

/-- What every reachable state satisfies: the lengths and the fields are
values of the type `int`, `VisibleCount` is the length of `VisibleTasks`, the
selection and the offset are at least -1, the selection is below
`VisibleCount` unless it is 0 or -1, and the viewport has at least one row. -/
def WellFormed (tl : TaskList) : Prop :=
  (tl.AllTasks.length : Int) ≤ 9223372036854775807 ∧
  tl.VisibleCount = (tl.VisibleTasks.length : Int) ∧
  tl.VisibleCount ≤ 9223372036854775807 ∧
  -1 ≤ tl.SelectedIndex ∧
  (tl.SelectedIndex ≤ 0 ∨ tl.SelectedIndex < tl.VisibleCount) ∧
  -1 ≤ tl.ScrollOffset ∧ tl.ScrollOffset ≤ 9223372036854775807 ∧
  1 ≤ tl.ViewportSize ∧ tl.ViewportSize ≤ 9223372036854775807

/-- Three tasks in a viewport of one row. -/
def oneRow : TaskList := (NewTaskList threeTasks).SetViewportSize 1

/-- Three tasks, the last one selected in a viewport of one row, and the
viewport then grown to ten rows. -/
def grownViewport : TaskList := (oneRow.SelectLast).SetViewportSize 10

/-- One task behind a filter that it does not match. -/
def hiddenAll : TaskList := (NewTaskList [plainTask [] "one".toList]).AddFilter priorityZ

/-- Following the specification: the invariants of a task that the mutators
preserve. -/
def TaskInvariant (t : Task) : Prop :=
  (t.Priority = [] ∨ ∃ c, t.Priority = [c] ∧ reUpper c = true) ∧
  (t.Completed = true ↔ t.CompletionDate ≠ Date.zero)

/-- The key under which a documented binding is installed: the documented
name `space` stands for the key of one blank. -/
def installedKey (key : Str) : Str :=
  if key = "space".toList then " ".toList else key

/-- Following the specification: the documented bindings of a mode. -/
def documented (mode : Mode) : List KeyBinding :=
  (tableGet GetDefaultBindings mode).getD []

/-- Following the specification: the keys and actions bound in a mode of a
keymap. -/
def bound (km : keymapImpl) (mode : Mode) : List (Str × Action) :=
  (tableGet km.bindings mode).getD []

/-- A position list is strictly increasing and below the bound. -/
def IncreasingBelow (bound : Nat) (l : List Nat) : Prop :=
  l.Pairwise (fun a b => a < b) ∧ ∀ j ∈ l, j < bound

/-- The keys of a map are distinct and no key maps to the empty list. -/
def PosMapWF (m : PosMap) : Prop :=
  (m.map Prod.fst).Nodup ∧ ∀ kl ∈ m, kl.2 ≠ []

/-- Following the specification: the ASCII capital letters, each with its
small letter. -/
def asciiLetters : List (Char × Char) :=
  "ABCDEFGHIJKLMNOPQRSTUVWXYZ".toList.zip "abcdefghijklmnopqrstuvwxyz".toList

/-- Following the specification: the mapping of ASCII `A`..`Z` to `a`..`z` on
bytes; every other byte is mapped to itself. -/
def asciiFold (b : Nat) : Nat :=
  match asciiLetters.find? (fun p => p.1.toNat = b) with
  | some p => p.2.toNat
  | none => b

/-- Following the specification: line numbers are contiguous and 1-indexed,
the task at every position `i` has the line number `i + 1`. -/
def Contiguous (tasks : List Task) : Prop :=
  ∀ (i : Nat) (t : Task), tasks[i]? = some t → t.LineNumber = (i : Int) + 1

/-- A task without its line number. -/
def Task.withoutLineNumber (t : Task) : Task := { t with LineNumber := 0 }

/-- A heap in which no address is in use. -/
def emptyHeap : Heap := { cell := fun _ => plainTask [] [], next := 0 }

/-- An empty file that has not been loaded. -/
def emptyFile : TodoFile := { Tasks := [], Modified := false }

/-- Three task objects `a`, `b` and `c`, at the addresses 0, 1 and 2. -/
def threeCells : Heap :=
  (emptyHeap.alloc [plainTask [] "a".toList, plainTask [] "b".toList,
    plainTask [] "c".toList]).2

/-- The file to which the tasks `a` and `b` of `threeCells` have been added:
the file and the heap. -/
def twoTaskFile : TodoFile × Heap :=
  (emptyFile.AddTask threeCells 0).1.AddTask (emptyFile.AddTask threeCells 0).2 1

/-- The description and the line number of each task. -/
def lineNumbers (tasks : List Task) : List (Str × Int) :=
  tasks.map (fun t => (t.Description, t.LineNumber))

/-- Following the specification: the text `d` is a token of the line, a
maximal run of characters that are not white space. -/
def IsToken (d line : Str) : Prop :=
  d ≠ [] ∧ (∀ c ∈ d, isSpace c = false) ∧
  ∃ pre post, line = pre ++ d ++ post ∧
    (∀ c, pre.getLast? = some c → isSpace c = true) ∧
    (∀ c, post.head? = some c → isSpace c = true)

/-- The text of the zero date. -/
def zeroDateText : Str := "0001-01-01".toList

/-- The text `r` stands in the line behind white space or at its start. -/
def Aligned (r line : Str) : Prop :=
  ∃ pre post, line = pre ++ r ++ post ∧ ∀ c, pre.getLast? = some c → isSpace c = true

/-- The conditions on the priority, the creation date, the completed flag,
the completion date and the description of a task under which `ParseLine`
reads the serialized task back. -/
def ReparsableFields (priority : Str) (created : Date) (completed : Bool) (done : Date)
    (description : Str) : Prop :=
  (priority = [] ∨ ∃ p, reUpper p = true ∧ priority = [p]) ∧
  (completed = true → priority = []) ∧
  (completed = false → done = Date.zero) ∧
  (completed = true → done = Date.zero → created = Date.zero) ∧
  created.valid ∧ done.valid ∧
  description ≠ [] ∧ TrimSpace description = description ∧
  (created = Date.zero → startsWithDate description = false) ∧
  (created = Date.zero → completed = false → priority = [] →
    HasPrefix description "x ".toList = false ∧ priorityRe description = none)

/-- A task that `ParseLine` reads back from its serialized form. -/
def Reparsable (t : Task) : Prop :=
  ReparsableFields t.Priority t.CreationDate t.Completed t.CompletionDate t.Description

/-- A line with a completion marker, a completion date, a creation date, a
description that begins like a priority, and untidy white space. -/
def untidyLine : Str := "  x  2026-03-04   2026-02-02 (A)  call  Bob ".toList

/-! ## Theorems: `ParseLine`, errors and the completion marker -/

theorem ParseLine_of_ne_nil (line : Str) (n : Int) (h : line ≠ []) :
    ParseLine line n = .ok {
      Priority := (parsePriority (parseCompleted (TrimSpace line)).1
        (parseCompleted (TrimSpace line)).2.2).1
      CreationDate := (parseCreation (parsePriority (parseCompleted (TrimSpace line)).1
        (parseCompleted (TrimSpace line)).2.2).2).1
      Completed := (parseCompleted (TrimSpace line)).1
      CompletionDate := (parseCompleted (TrimSpace line)).2.1
      Description := (parseCreation (parsePriority (parseCompleted (TrimSpace line)).1
        (parseCompleted (TrimSpace line)).2.2).2).2
      Contexts := (contextRe (parseCreation (parsePriority (parseCompleted (TrimSpace line)).1
        (parseCompleted (TrimSpace line)).2.2).2).2).foldl setInsert []
      Projects := (projectRe (parseCreation (parsePriority (parseCompleted (TrimSpace line)).1
        (parseCompleted (TrimSpace line)).2.2).2).2).foldl setInsert []
      Metadata := (metadataRe (parseCreation (parsePriority (parseCompleted (TrimSpace line)).1
        (parseCompleted (TrimSpace line)).2.2).2).2).foldl (fun m kv => mapSet m kv.1 kv.2) []
      RawLine := line
      LineNumber := n
      Modified := false } := by
  rw [ParseLine, if_neg h]

theorem parseCompleted_of_marker (r : Str) (h : HasPrefix r "x ".toList = true) :
    (parseCompleted r).1 = true := by
  unfold parseCompleted
  rw [if_pos h]
  dsimp only
  split
  · split <;> rfl
  · rfl

theorem parseCompleted_of_no_marker (r : Str) (h : HasPrefix r "x ".toList = false) :
    parseCompleted r = (false, Date.zero, r) := by
  unfold parseCompleted
  rw [if_neg (by rw [h]; decide)]

theorem parsePriority_completed (r : Str) : parsePriority true r = ([], r) := by
  simp [parsePriority]

/-- C2, as stated, fails: the line made of one blank is empty after trimming,
yet `ParseLine` accepts it and returns a task (with an empty description). -/
theorem ParseLine_accepts_blank_line :
    TrimSpace " ".toList = [] ∧
    ∃ t, ParseLine " ".toList 1 = .ok t ∧ t.Description = [] := by
  refine ⟨by decide, _, rfl, by decide⟩

theorem parse_steps_nil :
    parseCompleted [] = (false, Date.zero, []) ∧ parsePriority false [] = ([], []) ∧
    parseCreation [] = (Date.zero, []) := by
  refine ⟨by decide, by decide, by decide⟩

/-- C2, amended: `ParseLine` returns an error exactly when the line is the
empty string, and a task for every other line; a non-empty line made only of
white space yields a task with an empty description. -/
theorem ParseLine_error_iff_empty (line : Str) (n : Int) :
    ((∃ e, ParseLine line n = .error e) ↔ line = []) ∧
    ((∃ t, ParseLine line n = .ok t) ↔ line ≠ []) ∧
    (∀ t, ParseLine line n = .ok t → TrimSpace line = [] → t.Description = []) := by
  by_cases h : line = []
  · subst h
    simp [ParseLine]
  · refine ⟨by simp [ParseLine_of_ne_nil line n h, h],
      by simp [ParseLine_of_ne_nil line n h, h], ?_⟩
    intro t ht hblank
    rw [ParseLine_of_ne_nil line n h] at ht
    simp only [Except.ok.injEq] at ht
    subst ht
    simp only [hblank, parse_steps_nil.1, parse_steps_nil.2.1, parse_steps_nil.2.2]

/-- C3: a line whose trimmed text starts with the marker `x ` parses to a
completed task without priority, whatever follows the marker; and the line
`x 2026-02-14 (A) Task` has completion date 2026-02-14, no priority and the
description `(A) Task`. -/
theorem ParseLine_completed_has_no_priority :
    (∀ (line : Str) (n : Int), HasPrefix (TrimSpace line) "x ".toList = true →
      ∃ t, ParseLine line n = .ok t ∧ t.Completed = true ∧ t.Priority = []) ∧
    (∃ t, ParseLine "x 2026-02-14 (A) Task".toList 1 = .ok t ∧ t.Completed = true ∧
      t.CompletionDate = ⟨2026, 2, 14⟩ ∧ t.Priority = [] ∧
      t.Description = "(A) Task".toList) := by
  refine ⟨?_, _, rfl, by decide, by decide, by decide, by decide⟩
  intro line n h
  have hne : line ≠ [] := by
    rintro rfl
    simp [TrimSpace, HasPrefix] at h
  refine ⟨_, ParseLine_of_ne_nil line n hne, parseCompleted_of_marker _ h, ?_⟩
  simp only [parseCompleted_of_marker _ h, parsePriority_completed]

/-- C3 at a concrete line: leading blanks before the marker and a priority
token after it. -/
theorem ParseLine_completed_has_no_priority_witness :
    ∃ t, ParseLine "  x (B) call".toList 7 = .ok t ∧ t.Completed = true ∧ t.Priority = [] :=
  ParseLine_completed_has_no_priority.1 "  x (B) call".toList 7 (by decide)

/-! ## Theorems: `Serialize` and `Validate` -/

theorem byteLen_cons (c : Char) (s : Str) : byteLen (c :: s) = c.utf8Size + byteLen s := by
  simp [byteLen]

theorem byteLen_eq_zero_iff (s : Str) : byteLen s = 0 ↔ s = [] := by
  cases s with
  | nil => simp [byteLen]
  | cons c cs =>
    have := Char.utf8Size_pos c
    simp [byteLen_cons]
    omega

theorem utf8Size_of_lt (c : Char) (h : c.toNat < 128) : c.utf8Size = 1 := by
  unfold Char.utf8Size
  have h1 : c.val ≤ UInt32.ofNatCore 127 (by decide) := by
    show c.val.toNat ≤ 127
    have : c.toNat = c.val.toNat := rfl
    omega
  rw [if_pos h1]

theorem Join_eq_intercalate (parts : List Str) (sep : Str) :
    Join parts sep = sep.intercalate parts := by
  induction parts with
  | nil => rfl
  | cons p rest ih =>
    cases rest with
    | nil => simp [Join, List.intercalate]
    | cons q rest =>
      rw [Join, ih]
      simp [List.intercalate, List.intersperse]

theorem String_eq_Join_parts (t : Task) : t.String = Join (serializeParts t) " ".toList := by
  unfold Task.String serializeParts Date.IsZero
  cases hc : t.Completed <;> by_cases hp : t.Priority = [] <;>
    by_cases h1 : t.CompletionDate = Date.zero <;>
    by_cases h2 : t.CreationDate = Date.zero <;> simp [hc, hp, h1, h2]

/-- C9: `Serialize` (that is `Task.String`) is the single-space join of the
parts `x` (if completed), `(P)` (if not completed and the priority is set),
the completion date (if completed and non-zero), the creation date (if
non-zero) and the description, in this order; so the line of a completed task
does not depend on its priority, and no line depends on the contexts, projects
or metadata fields. -/
theorem Serialize_is_join_of_parts (t : Task) :
    Serialize t = " ".toList.intercalate (serializeParts t) ∧
    (t.Completed = true → ∀ p, Serialize { t with Priority := p } = Serialize t) ∧
    (∀ c p m, Serialize { t with Contexts := c, Projects := p, Metadata := m } = Serialize t) := by
  refine ⟨?_, ?_, ?_⟩
  · rw [Serialize, String_eq_Join_parts, Join_eq_intercalate]
  · intro hc p
    simp [Serialize, String_eq_Join_parts, serializeParts, hc]
  · intro c p m
    simp [Serialize, String_eq_Join_parts, serializeParts]

theorem isValidTagWord_iff (U : UnicodeTables) (w : Str) :
    isValidTagWord U w = true ↔
      w ≠ [] ∧ ∀ r ∈ w, IsLetter U r = true ∨ IsDigit U r = true ∨ r = '_' ∨ r = '-' := by
  unfold isValidTagWord
  by_cases h : w = []
  · subst h; simp [byteLen]
  · have h0 : byteLen w ≠ 0 := fun h0 => h ((byteLen_eq_zero_iff w).1 h0)
    rw [if_neg h0]
    simp [h, List.all_eq_true, or_assoc]

theorem validateTag_ok_iff (U : UnicodeTables) (sigil : Char) (hs : sigil.toNat < 128)
    (m1 m2 m3 : Str) (tag : Str) :
    (if !HasPrefix tag [sigil] then Except.error m1
      else if byteLen tag < 2 then Except.error m2
      else if !isValidTagWord U (tag.drop 1) then Except.error m3
      else Except.ok ()) = Except.ok () ↔ IsTag U sigil tag := by
  cases tag with
  | nil => simp [HasPrefix, IsTag]
  | cons c w =>
    by_cases hc : c = sigil
    · subst hc
      have h1 : byteLen (c :: w) < 2 ↔ w = [] := by
        rw [byteLen_cons, utf8Size_of_lt c hs, ← byteLen_eq_zero_iff]; omega
      by_cases hw : w = []
      · subst hw
        simp [HasPrefix, IsTag, byteLen_cons, utf8Size_of_lt c hs, byteLen]
      · have h2 : ¬ byteLen (c :: w) < 2 := fun h => hw (h1.1 h)
        simp only [HasPrefix, List.isPrefixOf, beq_self_eq_true, Bool.true_and, Bool.not_true,
          Bool.false_eq_true, if_false, h2, List.drop_succ_cons, List.drop_zero]
        by_cases hv : isValidTagWord U w = true
        · simp only [hv, Bool.not_true, Bool.false_eq_true, if_false, true_iff]
          exact ⟨w, rfl, (isValidTagWord_iff U w).1 hv⟩
        · have := (isValidTagWord_iff U w).not.1 hv
          simp only [Bool.not_eq_true] at hv
          simp only [hv, Bool.not_false, if_true, IsTag, reduceCtorEq, false_iff]
          rintro ⟨w', hw', h3, h4⟩
          cases hw'
          exact this ⟨h3, h4⟩
    · have : HasPrefix (c :: w) [sigil] = false := by
        simp [HasPrefix, List.isPrefixOf, Ne.symm hc]
      simp only [this, Bool.not_false, if_true, reduceCtorEq, false_iff]
      rintro ⟨w', hw', -⟩
      cases hw'
      exact hc rfl

theorem ValidateContextTag_ok_iff (U : UnicodeTables) (tag : Str) :
    ValidateContextTag U tag = .ok () ↔ IsTag U '@' tag :=
  validateTag_ok_iff U '@' (by decide) _ _ _ tag

theorem ValidateProjectTag_ok_iff (U : UnicodeTables) (tag : Str) :
    ValidateProjectTag U tag = .ok () ↔ IsTag U '+' tag :=
  validateTag_ok_iff U '+' (by decide) _ _ _ tag

theorem validateTags_ok_iff (check : Str → Except Str Unit) (label : Str) (tags : List Str) :
    validateTags check label tags = .ok () ↔ ∀ tag ∈ tags, check tag = .ok () := by
  induction tags with
  | nil => simp [validateTags]
  | cons tag rest ih =>
    unfold validateTags
    cases h : check tag with
    | error e => simp [h]
    | ok u => simp [h, ih]

theorem priority_check_iff (p : Str) (hp : p ≠ []) :
    (byteLen p = 1 ∧ 65 ≤ firstByte p ∧ firstByte p ≤ 90) ↔ ∃ c, p = [c] ∧ reUpper c = true := by
  cases p with
  | nil => exact absurd rfl hp
  | cons c w =>
    constructor
    · rintro ⟨h1, h2, h3⟩
      have hw : w = [] := by
        have := Char.utf8Size_pos c
        rw [byteLen_cons] at h1
        exact (byteLen_eq_zero_iff w).1 (by omega)
      subst hw
      refine ⟨c, rfl, ?_⟩
      simp only [firstByte] at h2 h3
      simp only [reUpper, Bool.and_eq_true, decide_eq_true_eq]
      split_ifs at h2 h3 <;> omega
    · rintro ⟨c', hc', hu⟩
      cases hc'
      simp only [reUpper, Bool.and_eq_true, decide_eq_true_eq] at hu
      have hlt : c.toNat < 128 := by omega
      refine ⟨by rw [byteLen_cons, utf8Size_of_lt c hlt]; rfl, ?_⟩
      simp only [firstByte, hlt, if_true]
      omega

theorem Validate_ok_iff (U : UnicodeTables) (t : Task) :
    Validate U t = .ok () ↔
      (t.Priority = [] ∨ ∃ c, t.Priority = [c] ∧ reUpper c = true) ∧
      ¬ (t.Completed = true ∧ t.CompletionDate = Date.zero) ∧
      TrimSpace t.Description ≠ [] ∧
      (∀ c ∈ t.Contexts, IsTag U '@' c) ∧
      (∀ p ∈ t.Projects, IsTag U '+' p) := by
  have hprio : (t.Priority = [] ∨ ∃ c, t.Priority = [c] ∧ reUpper c = true) ↔
      ¬ (t.Priority ≠ [] ∧ byteLen t.Priority ≠ 1) ∧
      ¬ (t.Priority ≠ [] ∧ (firstByte t.Priority < 65 ∨ 90 < firstByte t.Priority)) := by
    by_cases hp : t.Priority = []
    · simp [hp]
    · rw [← priority_check_iff _ hp]
      simp only [hp, false_or, ne_eq, not_false_eq_true, true_and]
      omega
  have hzero : t.CompletionDate.IsZero = true ↔ t.CompletionDate = Date.zero := by
    simp [Date.IsZero]
  have hctx := validateTags_ok_iff (ValidateContextTag U) "invalid context ".toList t.Contexts
  have hprj := validateTags_ok_iff (ValidateProjectTag U) "invalid project ".toList t.Projects
  simp only [ValidateContextTag_ok_iff] at hctx
  simp only [ValidateProjectTag_ok_iff] at hprj
  rw [hprio, ← hzero, ← hctx, ← hprj]
  unfold Validate
  split_ifs with h1 h2 h3 h4
  · simp [h1]
  · simp [h2]
  · simp [h3]
  · simp [h4]
  · cases hc : validateTags (ValidateContextTag U) "invalid context ".toList t.Contexts with
    | error e => simp
    | ok u => simp [h1, h2, h3, h4]

/-- C10: `Validate` returns an error if and only if the priority is non-empty
and not exactly one character in A-Z, or the task is completed with a zero
completion date, or the description is blank after trimming, or some context
is not `@` followed by a non-empty word of letters, digits, `_` and `-`, or
some project is not `+` followed by such a word; otherwise it returns nil. -/
theorem Validate_error_iff (U : UnicodeTables) (t : Task) :
    ((∃ e, Validate U t = .error e) ↔
      (t.Priority ≠ [] ∧ ¬ ∃ c, t.Priority = [c] ∧ reUpper c = true) ∨
      (t.Completed = true ∧ t.CompletionDate = Date.zero) ∨
      TrimSpace t.Description = [] ∨
      (∃ c ∈ t.Contexts, ¬ IsTag U '@' c) ∨
      (∃ p ∈ t.Projects, ¬ IsTag U '+' p)) ∧
    ((¬ ∃ e, Validate U t = .error e) ↔ Validate U t = .ok ()) := by
  have hok : (¬ ∃ e, Validate U t = .error e) ↔ Validate U t = .ok () := by
    cases h : Validate U t with
    | error e => simp
    | ok u => simp
  refine ⟨?_, hok⟩
  rw [← not_iff_not, hok, Validate_ok_iff]
  push_neg
  tauto

/-! ## Theorems: trimmed text and date texts -/

theorem TrimSpace_eq_rdropWhile (s : Str) :
    TrimSpace s = (s.dropWhile isSpace).rdropWhile isSpace := rfl

theorem TrimSpace_of_head_last (s : Str) (hne : s ≠ [])
    (h1 : isSpace (s.head hne) = false) (h2 : isSpace (s.getLast hne) = false) :
    TrimSpace s = s := by
  have hd : s.dropWhile isSpace = s := by
    cases s with
    | nil => exact absurd rfl hne
    | cons c cs =>
      simp only [List.head_cons] at h1
      simp [List.dropWhile, h1]
  rw [TrimSpace_eq_rdropWhile, hd, List.rdropWhile_eq_self_iff]
  intro hl
  simp [h2]

theorem trimmed_head_last (s : Str) (hne : s ≠ []) (h : TrimSpace s = s) :
    isSpace (s.head hne) = false ∧ isSpace (s.getLast hne) = false := by
  have hlen1 : ((s.dropWhile isSpace).rdropWhile isSpace).length ≤ (s.dropWhile isSpace).length :=
    (List.rdropWhile_prefix isSpace _).length_le
  have hsuf : s.dropWhile isSpace <:+ s := List.dropWhile_suffix isSpace
  have hlen2 := hsuf.length_le
  rw [TrimSpace_eq_rdropWhile] at h
  have hd : s.dropWhile isSpace = s := by
    apply hsuf.eq_of_length
    rw [h] at hlen1
    omega
  rw [hd] at h
  constructor
  · cases s with
    | nil => exact absurd rfl hne
    | cons c cs =>
      simp only [List.head_cons]
      cases hc : isSpace c
      · rfl
      · exfalso
        have := List.dropWhile_suffix (l := cs) isSpace
        have h3 := this.length_le
        have h4 : (List.dropWhile isSpace (c :: cs)).length = (c :: cs).length := by rw [hd]
        simp [List.dropWhile, hc] at h4
        omega
  · have := (List.rdropWhile_eq_self_iff.1 h) hne
    simpa using this

theorem TrimSpace_cons_append (a : Char) (p d : Str) (ha : isSpace a = false)
    (hne : d ≠ []) (h : TrimSpace d = d) : TrimSpace (a :: (p ++ d)) = a :: (p ++ d) := by
  apply TrimSpace_of_head_last _ (by simp)
  · simpa using ha
  · have := (trimmed_head_last d hne h).2
    rw [List.getLast_cons (by simp [hne]), List.getLast_append_of_ne_nil hne]
    exact this

theorem TrimSpace_append_cons (a : Str) (x : Char) (b : Str) (ha : a ≠ [])
    (hh : isSpace (a.head ha) = false) (hne : b ≠ []) (h : TrimSpace b = b) :
    TrimSpace (a ++ x :: b) = a ++ x :: b := by
  cases a with
  | nil => exact absurd rfl ha
  | cons a0 as =>
    have := TrimSpace_cons_append a0 (as ++ [x]) b (by simpa using hh) hne h
    simpa using this

theorem digitChar_toNat (n : Nat) : (digitChar n).toNat = 48 + n % 10 := by
  have h : ∀ k, k < 10 → (Char.ofNat (48 + k)).toNat = 48 + k := by decide
  exact h _ (Nat.mod_lt _ (by decide))

theorem digitChar_reDigit (n : Nat) : reDigit (digitChar n) = true := by
  have := Nat.mod_lt n (show 10 > 0 by decide)
  simp only [reDigit, digitChar_toNat, Bool.and_eq_true, decide_eq_true_eq]
  omega

theorem digitChar_digitVal (n : Nat) : digitVal (digitChar n) = n % 10 := by
  simp [digitVal, digitChar_toNat]

theorem digitChar_not_isSpace (n : Nat) : isSpace (digitChar n) = false := by
  have := Nat.mod_lt n (show 10 > 0 by decide)
  simp only [isSpace, digitChar_toNat, Bool.or_eq_false_iff, Bool.and_eq_false_iff,
    decide_eq_false_iff_not]
  omega

theorem reSpace_isSpace (c : Char) (h : reSpace c = true) : isSpace c = true := by
  simp only [reSpace, Bool.or_eq_true, decide_eq_true_eq] at h
  simp only [isSpace, Bool.or_eq_true, decide_eq_true_eq, Bool.and_eq_true]
  omega

theorem not_reSpace_of_not_isSpace (c : Char) (h : isSpace c = false) : reSpace c = false := by
  cases hc : reSpace c
  · rfl
  · rw [reSpace_isSpace c hc] at h
    exact absurd h (by decide)

theorem Format_eq (d : Date) (h : d.year ≤ 9999) :
    d.Format = [digitChar (d.year / 1000), digitChar (d.year / 100), digitChar (d.year / 10),
      digitChar d.year, '-', digitChar (d.month / 10), digitChar d.month, '-',
      digitChar (d.day / 10), digitChar d.day] := by
  have : d.year < 10000 := by omega
  simp [Date.Format, pad4, pad2, this]

theorem daysIn_le (m y : Nat) : daysIn m y ≤ 31 := by
  unfold daysIn
  split_ifs <;> omega

theorem timeParse_Format (d : Date) (h : d.valid) : timeParse d.Format = some d := by
  obtain ⟨hy, hm1, hm2, hd1, hd2⟩ := h
  have hd3 := daysIn_le d.month d.year
  rw [Format_eq d hy]
  simp only [timeParse, digitChar_reDigit, digitChar_digitVal, Bool.and_self, decide_True,
    Bool.true_and, if_true]
  have e1 : d.year / 1000 % 10 * 1000 + d.year / 100 % 10 * 100 + d.year / 10 % 10 * 10 +
      d.year % 10 = d.year := by omega
  have e2 : d.month / 10 % 10 * 10 + d.month % 10 = d.month := by omega
  have e3 : d.day / 10 % 10 * 10 + d.day % 10 = d.day := by omega
  rw [e1, e2, e3, if_neg (by omega), if_neg (by omega)]
theorem Format_ne_nil (d : Date) (hy : d.year ≤ 9999) : d.Format ≠ [] := by
  rw [Format_eq d hy]; simp

theorem ParseTodoDate_Format (d : Date) (h : d.valid) : ParseTodoDate d.Format = .ok d := by
  rw [ParseTodoDate, if_neg (Format_ne_nil d h.1), timeParse_Format d h]

theorem dateRe_Format (d : Date) (hy : d.year ≤ 9999) (c : Char) (cs : Str)
    (hc : reSpace c = false) :
    dateRe (d.Format ++ ' ' :: c :: cs) = some (d.Format ++ [' '], d.Format) := by
  have hsp : reSpace ' ' = true := by decide
  rw [Format_eq d hy]
  simp [dateRe, digitChar_reDigit, List.takeWhile, hc, hsp]

theorem drop_length_append_single (a : Str) (x : Char) (b : Str) :
    (a ++ x :: b).drop (a ++ [x]).length = b := by
  have : a ++ x :: b = (a ++ [x]) ++ b := by simp
  rw [this, List.drop_left]

theorem parseCreation_Format (d : Date) (h : d.valid) (desc : Str) (hne : desc ≠ [])
    (htrim : TrimSpace desc = desc) :
    parseCreation (d.Format ++ ' ' :: desc) = (d, desc) := by
  cases desc with
  | nil => exact absurd rfl hne
  | cons c cs =>
    have hc : reSpace c = false :=
      not_reSpace_of_not_isSpace c (by simpa using (trimmed_head_last _ hne htrim).1)
    unfold parseCreation
    rw [dateRe_Format d h.1 c cs hc]
    simp only [ParseTodoDate_Format d h, drop_length_append_single, htrim]

theorem parseCompleted_Format (d : Date) (h : d.valid) (rest : Str) (hne : rest ≠ [])
    (htrim : TrimSpace rest = rest) :
    parseCompleted ('x' :: ' ' :: (d.Format ++ ' ' :: rest)) = (true, d, rest) := by
  cases rest with
  | nil => exact absurd rfl hne
  | cons c cs =>
    have hc : reSpace c = false :=
      not_reSpace_of_not_isSpace c (by simpa using (trimmed_head_last _ hne htrim).1)
    have h1 : TrimSpace (d.Format ++ ' ' :: c :: cs) = d.Format ++ ' ' :: c :: cs := by
      apply TrimSpace_append_cons _ _ _ (Format_ne_nil d h.1) _ hne htrim
      simp only [Format_eq d h.1, List.head_cons, digitChar_not_isSpace]
    unfold parseCompleted
    rw [if_pos (by simp [HasPrefix])]
    simp only [List.drop_succ_cons, List.drop_zero, h1, dateRe_Format d h.1 c cs hc,
      ParseTodoDate_Format d h, drop_length_append_single, htrim]

theorem parsePriority_token (p : Char) (hp : reUpper p = true) (rest : Str) (hne : rest ≠ [])
    (htrim : TrimSpace rest = rest) :
    parsePriority false ('(' :: p :: ')' :: ' ' :: rest) = ([p], rest) := by
  cases rest with
  | nil => exact absurd rfl hne
  | cons c cs =>
    have hc : reSpace c = false :=
      not_reSpace_of_not_isSpace c (by simpa using (trimmed_head_last _ hne htrim).1)
    have hsp : reSpace ' ' = true := by decide
    simp [parsePriority, priorityRe, hp, List.takeWhile, hc, hsp, htrim]
theorem TrimSpace_Format_append (D : Date) (hy : D.year ≤ 9999) (d : Str) (hne : d ≠ [])
    (htrim : TrimSpace d = d) :
    TrimSpace (D.Format ++ ' ' :: d) = D.Format ++ ' ' :: d := by
  apply TrimSpace_append_cons _ _ _ (Format_ne_nil D hy) _ hne htrim
  simp only [Format_eq D hy, List.head_cons, digitChar_not_isSpace]

theorem HasPrefix_marker_cons (c : Char) (s : Str) (h : c ≠ 'x') :
    HasPrefix (c :: s) "x ".toList = false := by
  simp [HasPrefix, List.isPrefixOf, Ne.symm h]

/-! ## Theorems: the structured prefix of a line -/

/-- C4: for an uppercase letter `P`, a valid calendar date `D` and a non-empty
description `d` without leading or trailing white space, the line `(P) D d`
parses to an open task with priority `P`, creation date `D` and description
`d`; and the full-format example line has exactly the context `@store`, the
project `+household` and the metadata `due: 2026-02-15`. -/
theorem ParseLine_priority_date_description :
    (∀ (p : Char) (D : Date) (d : Str) (n : Int),
      reUpper p = true → D.valid → d ≠ [] → TrimSpace d = d →
      ∃ t, ParseLine ("(".toList ++ [p] ++ ") ".toList ++ D.Format ++ " ".toList ++ d) n = .ok t ∧
        t.Completed = false ∧ t.Priority = [p] ∧ t.CreationDate = D ∧ t.Description = d) ∧
    (∃ t, ParseLine
        "(A) 2026-02-02 Buy groceries @store +household due:2026-02-15".toList 1 = .ok t ∧
      t.Completed = false ∧ t.Priority = "A".toList ∧ t.CreationDate = ⟨2026, 2, 2⟩ ∧
      t.Description = "Buy groceries @store +household due:2026-02-15".toList ∧
      t.Contexts = ["@store".toList] ∧ t.Projects = ["+household".toList] ∧
      t.Metadata = [("due".toList, "2026-02-15".toList)]) := by
  refine ⟨?_, _, rfl, by decide, by decide, by decide, by decide, by decide, by decide,
    by decide⟩
  intro p D d n hp hD hne htrim
  have hline : "(".toList ++ [p] ++ ") ".toList ++ D.Format ++ " ".toList ++ d =
      '(' :: p :: ')' :: ' ' :: (D.Format ++ ' ' :: d) := by simp
  have hrest := TrimSpace_Format_append D hD.1 d hne htrim
  have hrne : D.Format ++ ' ' :: d ≠ [] := by simp
  have htl : TrimSpace ('(' :: p :: ')' :: ' ' :: (D.Format ++ ' ' :: d)) =
      '(' :: p :: ')' :: ' ' :: (D.Format ++ ' ' :: d) :=
    TrimSpace_cons_append '(' [p, ')', ' '] _ (by decide) hrne hrest
  rw [hline]
  refine ⟨_, ParseLine_of_ne_nil _ n (by simp), ?_, ?_, ?_, ?_⟩ <;>
    simp only [htl, parseCompleted_of_no_marker _ (HasPrefix_marker_cons '(' _ (by decide)),
      parsePriority_token p hp _ hrne hrest, parseCreation_Format D hD d hne htrim]

/-- C4 at a concrete line, with a leap day as creation date. -/
theorem ParseLine_priority_date_description_witness :
    ∃ t, ParseLine ("(".toList ++ ['B'] ++ ") ".toList ++ Date.Format ⟨2024, 2, 29⟩ ++
        " ".toList ++ "Call mom".toList) 3 = .ok t ∧
      t.Completed = false ∧ t.Priority = ['B'] ∧ t.CreationDate = ⟨2024, 2, 29⟩ ∧
      t.Description = "Call mom".toList :=
  ParseLine_priority_date_description.1 'B' ⟨2024, 2, 29⟩ "Call mom".toList 3
    (by decide) (by decide) (by decide) (by decide)

/-- C5: for valid calendar dates `D1` and `D2` and a non-empty description `d`
without leading or trailing white space, the line `x D1 D2 d` parses to a
completed task with completion date `D1`, creation date `D2` and description
`d`. -/
theorem ParseLine_completed_two_dates (D1 D2 : Date) (d : Str) (n : Int)
    (h1 : D1.valid) (h2 : D2.valid) (hne : d ≠ []) (htrim : TrimSpace d = d) :
    ∃ t, ParseLine ("x ".toList ++ D1.Format ++ " ".toList ++ D2.Format ++ " ".toList ++ d) n
        = .ok t ∧
      t.Completed = true ∧ t.CompletionDate = D1 ∧ t.CreationDate = D2 ∧ t.Description = d := by
  have hline : "x ".toList ++ D1.Format ++ " ".toList ++ D2.Format ++ " ".toList ++ d =
      'x' :: ' ' :: (D1.Format ++ ' ' :: (D2.Format ++ ' ' :: d)) := by simp
  have hrest := TrimSpace_Format_append D2 h2.1 d hne htrim
  have hrne : D2.Format ++ ' ' :: d ≠ [] := by simp
  have hmid := TrimSpace_Format_append D1 h1.1 _ hrne hrest
  have htl : TrimSpace ('x' :: ' ' :: (D1.Format ++ ' ' :: (D2.Format ++ ' ' :: d))) =
      'x' :: ' ' :: (D1.Format ++ ' ' :: (D2.Format ++ ' ' :: d)) :=
    TrimSpace_cons_append 'x' [' '] _ (by decide) (by simp) hmid
  rw [hline]
  refine ⟨_, ParseLine_of_ne_nil _ n (by simp), ?_, ?_, ?_, ?_⟩ <;>
    simp only [htl, parseCompleted_Format D1 h1 _ hrne hrest, parsePriority_completed,
      parseCreation_Format D2 h2 d hne htrim]

/-- C5 at the line `x 2026-02-14 2026-02-02 Old task`. -/
theorem ParseLine_completed_two_dates_witness :
    ∃ t, ParseLine ("x ".toList ++ Date.Format ⟨2026, 2, 14⟩ ++ " ".toList ++
        Date.Format ⟨2026, 2, 2⟩ ++ " ".toList ++ "Old task".toList) 1 = .ok t ∧
      t.Completed = true ∧ t.CompletionDate = ⟨2026, 2, 14⟩ ∧ t.CreationDate = ⟨2026, 2, 2⟩ ∧
      t.Description = "Old task".toList :=
  ParseLine_completed_two_dates ⟨2026, 2, 14⟩ ⟨2026, 2, 2⟩ "Old task".toList 1
    (by decide) (by decide) (by decide) (by decide)

/-! ## Theorems: round trip -/

theorem parseCreation_of_not_date (d : Str) (h : startsWithDate d = false) :
    parseCreation d = (Date.zero, d) := by
  unfold startsWithDate at h
  unfold parseCreation
  cases hd : dateRe d with
  | none => rfl
  | some wd =>
    obtain ⟨w, dt⟩ := wd
    rw [hd] at h
    simp only at h ⊢
    cases hp : ParseTodoDate dt with
    | error e => rfl
    | ok date => rw [hp] at h; simp at h

theorem priorityRe_cons_ne (c : Char) (s : Str) (h : c ≠ '(') : priorityRe (c :: s) = none := by
  unfold priorityRe
  split
  · rename_i c0 p c2 rest heq
    cases heq
    rw [if_neg]
    rintro ⟨h0, -⟩
    exact h h0
  · rfl

theorem parsePriority_none (r : Str) (h : priorityRe r = none) :
    parsePriority false r = ([], r) := by
  simp [parsePriority, h]

theorem digitChar_ne (n : Nat) (c : Char) (hc : c.toNat < 48 ∨ 57 < c.toNat) :
    digitChar n ≠ c := by
  intro h
  have h1 := digitChar_toNat n
  have := Nat.mod_lt n (show 10 > 0 by decide)
  rw [h] at h1
  omega

theorem Format_head (D : Date) (hy : D.year ≤ 9999) :
    ∃ rest, D.Format = digitChar (D.year / 1000) :: rest := ⟨_, Format_eq D hy⟩

theorem Serialize_cases (t : Task) :
    Serialize t =
      if t.Completed = true then
        if t.CompletionDate = Date.zero then
          if t.CreationDate = Date.zero then 'x' :: ' ' :: t.Description
          else 'x' :: ' ' :: (t.CreationDate.Format ++ ' ' :: t.Description)
        else if t.CreationDate = Date.zero then
          'x' :: ' ' :: (t.CompletionDate.Format ++ ' ' :: t.Description)
        else 'x' :: ' ' :: (t.CompletionDate.Format ++ ' ' ::
          (t.CreationDate.Format ++ ' ' :: t.Description))
      else if t.Priority = [] then
        if t.CreationDate = Date.zero then t.Description
        else t.CreationDate.Format ++ ' ' :: t.Description
      else if t.CreationDate = Date.zero then '(' :: (t.Priority ++ ')' :: ' ' :: t.Description)
      else '(' :: (t.Priority ++ ')' :: ' ' :: (t.CreationDate.Format ++ ' ' :: t.Description)) := by
  rw [Serialize, String_eq_Join_parts]
  unfold serializeParts
  cases hc : t.Completed <;> by_cases hp : t.Priority = [] <;>
    by_cases h1 : t.CompletionDate = Date.zero <;>
    by_cases h2 : t.CreationDate = Date.zero <;> simp [hc, hp, h1, h2, Join]

theorem ParseLine_fields (line : Str) (n : Int) (hne : line ≠ []) (htrim : TrimSpace line = line)
    (c : Bool) (dc : Date) (r1 : Str) (h1 : parseCompleted line = (c, dc, r1))
    (p r2 : Str) (h2 : parsePriority c r1 = (p, r2))
    (dr : Date) (r3 : Str) (h3 : parseCreation r2 = (dr, r3)) :
    ∃ t, ParseLine line n = .ok t ∧ t.Priority = p ∧ t.CreationDate = dr ∧
      t.CompletionDate = dc ∧ t.Completed = c ∧ t.Description = r3 := by
  refine ⟨_, ParseLine_of_ne_nil line n hne, ?_, ?_, ?_, ?_, ?_⟩ <;>
    simp only [htrim, h1, h2, h3]

theorem HasPrefix_marker_Format (D : Date) (hy : D.year ≤ 9999) (s : Str) :
    HasPrefix (D.Format ++ s) "x ".toList = false := by
  obtain ⟨rest, hr⟩ := Format_head D hy
  rw [hr]
  exact HasPrefix_marker_cons _ _ (digitChar_ne _ 'x' (by decide))

theorem priorityRe_Format (D : Date) (hy : D.year ≤ 9999) (s : Str) :
    priorityRe (D.Format ++ s) = none := by
  obtain ⟨rest, hr⟩ := Format_head D hy
  rw [hr]
  exact priorityRe_cons_ne _ _ (digitChar_ne _ '(' (by decide))

theorem parseCompleted_marker (r : Str) (h : HasPrefix r "x ".toList = true) :
    parseCompleted r =
      (true, (parseCreation (TrimSpace (r.drop 2))).1, (parseCreation (TrimSpace (r.drop 2))).2)
      := by
  unfold parseCompleted parseCreation
  rw [if_pos h]
  dsimp only
  split
  · split <;> rfl
  · rfl

theorem parseCompleted_marker_no_date (d : Str) (htrim : TrimSpace d = d)
    (h : startsWithDate d = false) :
    parseCompleted ('x' :: ' ' :: d) = (true, Date.zero, d) := by
  rw [parseCompleted_marker _ (by simp [HasPrefix])]
  simp only [List.drop_succ_cons, List.drop_zero, htrim, parseCreation_of_not_date d h]

/-- The round trip: `ParseLine` reads the serialized task back with the same
priority, dates, completed flag and description. -/
theorem round_trip_core (t : Task) (n : Int) (h : Reparsable t) :
    ∃ t', ParseLine (Serialize t) n = .ok t' ∧ t'.Priority = t.Priority ∧
      t'.CreationDate = t.CreationDate ∧ t'.CompletionDate = t.CompletionDate ∧
      t'.Completed = t.Completed ∧ t'.Description = t.Description := by
  unfold Reparsable ReparsableFields at h
  obtain ⟨hP, hPC, hCd1, hCd2, hv1, hv2, hne, htrim, hdate, hplain⟩ := h
  rw [Serialize_cases]
  have hd := TrimSpace_Format_append t.CreationDate hv1.1 _ hne htrim
  have hdne : t.CreationDate.Format ++ ' ' :: t.Description ≠ [] := by simp
  by_cases hc : t.Completed = true
  · have hp : t.Priority = [] := hPC hc
    rw [if_pos hc, hp, hc]
    by_cases hdc : t.CompletionDate = Date.zero
    · have hz : t.CreationDate = Date.zero := hCd2 hc hdc
      rw [if_pos hdc, if_pos hz, hdc]
      conv => enter [1, t', 2, 2, 1, 2]; rw [hz]
      exact ParseLine_fields _ n (by simp)
        (TrimSpace_cons_append 'x' [' '] _ (by decide) hne htrim)
        true _ _ (parseCompleted_marker_no_date _ htrim (hdate hz))
        _ _ (parsePriority_completed _) _ _ (parseCreation_of_not_date _ (hdate hz))
    · rw [if_neg hdc]
      by_cases hz : t.CreationDate = Date.zero
      · rw [if_pos hz]
        conv => enter [1, t', 2, 2, 1, 2]; rw [hz]
        exact ParseLine_fields _ n (by simp)
          (TrimSpace_cons_append 'x' [' '] _ (by decide) (by simp)
            (TrimSpace_Format_append _ hv2.1 _ hne htrim))
          true _ _ (parseCompleted_Format _ hv2 _ hne htrim)
          _ _ (parsePriority_completed _) _ _ (parseCreation_of_not_date _ (hdate hz))
      · rw [if_neg hz]
        exact ParseLine_fields _ n (by simp)
          (TrimSpace_cons_append 'x' [' '] _ (by decide) (by simp)
            (TrimSpace_Format_append _ hv2.1 _ hdne hd))
          true _ _ (parseCompleted_Format _ hv2 _ hdne hd)
          _ _ (parsePriority_completed _) _ _ (parseCreation_Format _ hv1 _ hne htrim)
  · have hcf : t.Completed = false := by simpa using hc
    have hdc : t.CompletionDate = Date.zero := hCd1 hcf
    rw [if_neg hc, hdc, hcf]
    rcases hP with hp | ⟨p, hup, hp⟩
    · rw [if_pos hp, hp]
      by_cases hz : t.CreationDate = Date.zero
      · rw [if_pos hz]
        conv => enter [1, t', 2, 2, 1, 2]; rw [hz]
        obtain ⟨hm, hpr⟩ := hplain hz hcf hp
        exact ParseLine_fields _ n hne htrim false _ _ (parseCompleted_of_no_marker _ hm)
          _ _ (parsePriority_none _ hpr) _ _ (parseCreation_of_not_date _ (hdate hz))
      · rw [if_neg hz]
        exact ParseLine_fields _ n hdne hd false _ _
          (parseCompleted_of_no_marker _ (HasPrefix_marker_Format _ hv1.1 _))
          _ _ (parsePriority_none _ (priorityRe_Format _ hv1.1 _))
          _ _ (parseCreation_Format _ hv1 _ hne htrim)
    · have hpne : t.Priority ≠ [] := by rw [hp]; simp
      rw [if_neg hpne, hp]
      by_cases hz : t.CreationDate = Date.zero
      · rw [if_pos hz]
        conv => enter [1, t', 2, 2, 1, 2]; rw [hz]
        exact ParseLine_fields _ n (by simp)
          (TrimSpace_cons_append '(' [p, ')', ' '] _ (by decide) hne htrim)
          false _ _ (parseCompleted_of_no_marker _ (HasPrefix_marker_cons '(' _ (by decide)))
          _ _ (parsePriority_token p hup _ hne htrim)
          _ _ (parseCreation_of_not_date _ (hdate hz))
      · rw [if_neg hz]
        exact ParseLine_fields _ n (by simp)
          (TrimSpace_cons_append '(' [p, ')', ' '] _ (by decide) hdne hd)
          false _ _ (parseCompleted_of_no_marker _ (HasPrefix_marker_cons '(' _ (by decide)))
          _ _ (parsePriority_token p hup _ hdne hd)
          _ _ (parseCreation_Format _ hv1 _ hne htrim)

/-- C1, as stated, fails.  An open task without priority whose description is
`x marks the spot` is written as that text and read back as a completed task
with the description `marks the spot`; a completed task with priority `A` is
written without the priority and read back with none; and a text that begins
with a date is read back with that date as creation date. -/
theorem round_trip_fails :
    (markerTask.Completed = false ∧
      TrimSpace markerTask.Description = markerTask.Description ∧
      ∃ t', ParseLine (Serialize markerTask) 1 = .ok t' ∧ t'.Completed = true ∧
        t'.Description = "marks the spot".toList) ∧
    (doneTask.Completed = true ∧ doneTask.Priority = "A".toList ∧
      ∃ t', ParseLine (Serialize doneTask) 1 = .ok t' ∧ t'.Priority = []) ∧
    (∃ t', ParseLine (Serialize { markerTask with Description := "2026-02-02 report".toList }) 1
        = .ok t' ∧ t'.CreationDate = ⟨2026, 2, 2⟩ ∧ t'.Description = "report".toList) := by
  refine ⟨⟨by decide, by decide, _, rfl, by decide, by decide⟩,
    ⟨by decide, by decide, _, rfl, by decide⟩, ⟨_, rfl, by decide, by decide⟩⟩

/-- C1, amended: for a task whose priority is empty or one letter A-Z and
empty when the task is completed, whose dates are valid calendar dates, whose
completion date is non-zero exactly when it is completed, and whose
description is non-empty and trimmed and, when the creation date is zero, does
not begin with a date token (nor, when the task is moreover open and without
priority, with the marker `x ` or a priority token), `ParseLine` of the
serialized task succeeds and yields the same priority, creation date,
completion date, completed flag and description. -/
theorem ParseLine_Serialize_round_trip (t : Task) (n : Int)
    (hP : t.Priority = [] ∨ ∃ p, reUpper p = true ∧ t.Priority = [p])
    (hPC : t.Completed = true → t.Priority = [])
    (hCd : t.Completed = true ↔ t.CompletionDate ≠ Date.zero)
    (hv1 : t.CreationDate.valid) (hv2 : t.CompletionDate.valid)
    (hne : t.Description ≠ []) (htrim : TrimSpace t.Description = t.Description)
    (hdate : t.CreationDate = Date.zero → startsWithDate t.Description = false)
    (hplain : t.CreationDate = Date.zero → t.Completed = false → t.Priority = [] →
      HasPrefix t.Description "x ".toList = false ∧ priorityRe t.Description = none) :
    ∃ t', ParseLine (Serialize t) n = .ok t' ∧ t'.Priority = t.Priority ∧
      t'.CreationDate = t.CreationDate ∧ t'.CompletionDate = t.CompletionDate ∧
      t'.Completed = t.Completed ∧ t'.Description = t.Description :=
  round_trip_core t n (by
    unfold Reparsable ReparsableFields
    refine ⟨hP, hPC, ?_, fun hc hdc => absurd hdc (hCd.1 hc), hv1, hv2, hne, htrim, hdate,
      hplain⟩
    intro hcf
    by_contra h
    rw [hCd.2 h] at hcf
    cases hcf)

/-- C1, amended, at two concrete tasks: an open task with priority and
creation date, and a plain task whose line is its description. -/
theorem ParseLine_Serialize_round_trip_witness :
    (∃ t', ParseLine (Serialize openTask) 1 = .ok t' ∧ t'.Priority = openTask.Priority ∧
      t'.CreationDate = openTask.CreationDate ∧ t'.CompletionDate = openTask.CompletionDate ∧
      t'.Completed = openTask.Completed ∧ t'.Description = openTask.Description) ∧
    (∃ t', ParseLine (Serialize { markerTask with Description := "Buy milk".toList }) 1 = .ok t' ∧
      t'.Priority = [] ∧ t'.CreationDate = Date.zero ∧ t'.CompletionDate = Date.zero ∧
      t'.Completed = false ∧ t'.Description = "Buy milk".toList) :=
  ⟨ParseLine_Serialize_round_trip openTask 1 (Or.inr ⟨'A', by decide, rfl⟩) (by decide)
      (by decide) (by decide) (by decide) (by decide) (by decide) (by decide) (by decide),
    ParseLine_Serialize_round_trip { markerTask with Description := "Buy milk".toList } 1
      (Or.inl rfl) (by decide) (by decide) (by decide) (by decide) (by decide) (by decide)
      (by decide) (by decide)⟩

/-! ## Theorems: contexts, projects and metadata -/

theorem mem_foldl_setInsert (l acc : List Str) (x : Str) :
    x ∈ l.foldl setInsert acc ↔ x ∈ acc ∨ x ∈ l := by
  induction l generalizing acc with
  | nil => simp
  | cons a l ih =>
    rw [List.foldl_cons, ih]
    unfold setInsert
    by_cases h : a ∈ acc
    · rw [if_pos h]
      constructor
      · rintro (h1 | h1)
        · exact Or.inl h1
        · exact Or.inr (List.mem_cons_of_mem _ h1)
      · rintro (h1 | h1)
        · exact Or.inl h1
        · rcases List.mem_cons.1 h1 with rfl | h2
          · exact Or.inl h
          · exact Or.inr h2
    · rw [if_neg h]
      simp only [List.mem_append, List.mem_singleton, List.mem_cons]
      tauto

theorem findAllFrom_forall {α : Type} (m : Str → Option (Nat × α)) (P : α → Prop)
    (hm : ∀ s len a, m s = some (len, a) → P a) (s : Str) :
    ∀ skip, ∀ a ∈ findAllFrom m skip s, P a := by
  induction s with
  | nil => intro skip a ha; simp [findAllFrom] at ha
  | cons c cs ih =>
    intro skip a ha
    cases skip with
    | succ k => exact ih k a (by simpa [findAllFrom] using ha)
    | zero =>
      unfold findAllFrom at ha
      cases hmc : m (c :: cs) with
      | none =>
        rw [hmc] at ha
        exact ih 0 a ha
      | some la =>
        obtain ⟨len, a0⟩ := la
        rw [hmc] at ha
        rcases List.mem_cons.1 ha with rfl | h2
        · exact hm _ _ _ hmc
        · exact ih _ a h2

theorem tagAt_shape (sigil : Char) (s : Str) (len : Nat) (a : Str)
    (h : tagAt sigil s = some (len, a)) :
    ∃ w, a = sigil :: w ∧ w ≠ [] ∧ ∀ r ∈ w, reSpace r = false := by
  cases s with
  | nil => simp [tagAt] at h
  | cons c cs =>
    unfold tagAt at h
    simp only at h
    split_ifs at h with hc
    obtain ⟨hc1, hc2⟩ := hc
    simp only [Option.some.injEq, Prod.mk.injEq] at h
    refine ⟨cs.takeWhile reNonSpace, by rw [← h.2, hc1], hc2, ?_⟩
    intro r hr
    have := List.mem_takeWhile_imp hr
    simpa [reNonSpace] using this

/-- C6, as stated, fails: in `Call me@example.com` the parser extracts the
context `@example.com`, and in `2+2=4 homework` the project `+2=4`; neither is
the sigil followed by a word, and the validators reject both. -/
theorem ParseLine_extracts_invalid_tags :
    (∃ t, ParseLine "Call me@example.com".toList 1 = .ok t ∧
      "@example.com".toList ∈ t.Contexts) ∧
    (¬ ∃ U, ValidateContextTag U "@example.com".toList = .ok ()) ∧
    (∃ t, ParseLine "2+2=4 homework".toList 1 = .ok t ∧ "+2=4".toList ∈ t.Projects) ∧
    (¬ ∃ U, ValidateProjectTag U "+2=4".toList = .ok ()) := by
  refine ⟨⟨_, rfl, by decide⟩, ?_, ⟨_, rfl, by decide⟩, ?_⟩
  · rintro ⟨U, hU⟩
    obtain ⟨w, hw, -, hall⟩ := (ValidateContextTag_ok_iff U _).1 hU
    cases hw
    have := hall '.' (by decide)
    simp [IsLetter, IsDigit, latin1Letter] at this
  · rintro ⟨U, hU⟩
    obtain ⟨w, hw, -, hall⟩ := (ValidateProjectTag_ok_iff U _).1 hU
    cases hw
    have := hall '=' (by decide)
    simp [IsLetter, IsDigit, latin1Letter] at this

/-- C6, amended: for every line that `ParseLine` accepts, every element of
the contexts is `@` followed by a non-empty run of characters none of which
is white space of the pattern class, and every element of the projects is `+`
followed by such a run. -/
theorem ParseLine_tags_shape (line : Str) (n : Int) (t : Task)
    (h : ParseLine line n = .ok t) :
    (∀ c ∈ t.Contexts, ∃ w, c = '@' :: w ∧ w ≠ [] ∧ ∀ r ∈ w, reSpace r = false) ∧
    (∀ p ∈ t.Projects, ∃ w, p = '+' :: w ∧ w ≠ [] ∧ ∀ r ∈ w, reSpace r = false) := by
  have hne : line ≠ [] := by
    rintro rfl
    simp [ParseLine] at h
  rw [ParseLine_of_ne_nil line n hne] at h
  simp only [Except.ok.injEq] at h
  subst h
  constructor
  · intro c hc
    have hc' := (mem_foldl_setInsert _ _ _).1 hc
    simp only [List.not_mem_nil, false_or] at hc'
    exact findAllFrom_forall _ _ (tagAt_shape '@') _ 0 c hc'
  · intro p hp
    have hp' := (mem_foldl_setInsert _ _ _).1 hp
    simp only [List.not_mem_nil, false_or] at hp'
    exact findAllFrom_forall _ _ (tagAt_shape '+') _ 0 p hp'

/-- C6, amended, at the line `Call me@example.com`. -/
theorem ParseLine_tags_shape_witness :
    (∀ c ∈ ["@example.com".toList],
      ∃ w, c = '@' :: w ∧ w ≠ [] ∧ ∀ r ∈ w, reSpace r = false) ∧
    (∀ p ∈ ([] : List Str), ∃ w, p = '+' :: w ∧ w ≠ [] ∧ ∀ r ∈ w, reSpace r = false) :=
  ParseLine_tags_shape "Call me@example.com".toList 1 _ rfl

theorem parseLines_eq (lines : List Str) (k : Nat) :
    parseLines lines k = (lines.enumFrom k).filterMap taskOfLine := by
  induction lines generalizing k with
  | nil => rfl
  | cons l rest ih =>
    have hk : ((k : Int) + 1) = ((k + 1 : Nat) : Int) := by push_cast; rfl
    rw [parseLines, hk, ih (k + 1), List.enumFrom_cons]
    by_cases hb : TrimSpace l = []
    · simp [hb, taskOfLine]
    · rw [if_neg hb]
      cases hp : ParseLine l k with
      | error e => simp [taskOfLine, hb, hp]
      | ok t => simp [List.filterMap_cons, taskOfLine, hb, hp]

theorem splitNewlines_ne_nil (text : Str) : splitNewlines text ≠ [] := by
  cases text with
  | nil => simp [splitNewlines]
  | cons c cs =>
    unfold splitNewlines
    split_ifs
    · simp
    · split <;> simp

theorem scanPieces_of_short (pieces : List Str) (hne : pieces ≠ [])
    (h : ∀ l ∈ pieces, byteLen l < MaxScanTokenSize) :
    scanPieces pieces =
      ((if pieces.getLast? = some [] then pieces.dropLast else pieces).map dropCR, false) := by
  induction pieces with
  | nil => exact absurd rfl hne
  | cons l rest ih =>
    cases rest with
    | nil =>
      have hl := h l (List.mem_cons_self _ _)
      by_cases he : l = []
      · subst he
        simp [scanPieces]
      · simp [scanPieces, he, Nat.not_le.2 hl]
    | cons m rest =>
      have hl := h l (List.mem_cons_self _ _)
      have ih' := ih (by simp) (fun x hx => h x (List.mem_cons_of_mem _ hx))
      rw [scanPieces, if_neg (Nat.not_le.2 hl), ih']
      by_cases hlast : (m :: rest).getLast? = some []
      · simp [hlast, List.getLast?_cons_cons]
      · simp [hlast, List.getLast?_cons_cons]

theorem splitNewlines_replicate (n : Nat) :
    splitNewlines (List.replicate n 'a') = [List.replicate n 'a'] := by
  induction n with
  | zero => rfl
  | succ k ih =>
    rw [List.replicate_succ, splitNewlines, if_neg (by decide), ih]

theorem byteLen_replicate (n : Nat) : byteLen (List.replicate n 'a') = n := by
  induction n with
  | zero => rfl
  | succ k ih =>
    rw [List.replicate_succ, byteLen_cons, ih, utf8Size_of_lt 'a' (by decide)]
    omega

theorem taskOfLine_of_not_blank (k : Nat) (l : Str) (h : TrimSpace l ≠ []) :
    ∃ t, taskOfLine (k, l) = some t ∧ ParseLine l k = .ok t := by
  have hne : l ≠ [] := by
    rintro rfl
    exact h rfl
  refine ⟨_, ?_, ParseLine_of_ne_nil l k hne⟩
  simp only [taskOfLine, h, if_false, ParseLine_of_ne_nil l k hne]

theorem ParseFile_replicate_error (n : Nat) (h : MaxScanTokenSize ≤ n) :
    ParseFile (List.replicate n 'a') =
      .error "error reading file: bufio.Scanner: token too long".toList := by
  have hne : List.replicate n 'a' ≠ [] := by
    cases n with
    | zero => exact absurd h (by decide)
    | succ k => rw [List.replicate_succ]; simp
  have hlen : MaxScanTokenSize ≤ byteLen (List.replicate n 'a') := by
    rw [byteLen_replicate]; exact h
  unfold ParseFile
  rw [splitNewlines_replicate]
  simp only [scanPieces, hne, if_false, hlen, if_true]

/-- C8, as stated, fails: on the in-memory text that is one line of 65536
letters the scanner stops with a token that is too long and `ParseFile`
returns an error. -/
theorem ParseFile_fails_on_long_line :
    ParseFile (List.replicate 65536 'a') =
      .error "error reading file: bufio.Scanner: token too long".toList :=
  ParseFile_replicate_error 65536 (by decide)

theorem scanPieces_short_of_ok (pieces : List Str) (h : (scanPieces pieces).2 = false) :
    ∀ l ∈ pieces, byteLen l < MaxScanTokenSize := by
  induction pieces with
  | nil => intro l hl; simp at hl
  | cons p rest ih =>
    cases rest with
    | nil =>
      intro l hl
      rw [List.mem_singleton] at hl
      subst hl
      by_cases he : l = []
      · subst he; decide
      · by_cases hlong : MaxScanTokenSize ≤ byteLen l
        · simp [scanPieces, he, hlong] at h
        · omega
    | cons m rest =>
      by_cases hlong : MaxScanTokenSize ≤ byteLen p
      · simp [scanPieces, hlong] at h
      · have h' : (scanPieces (m :: rest)).2 = false := by
          simpa [scanPieces, hlong] using h
        intro l hl
        rw [List.mem_cons] at hl
        rcases hl with rfl | hl
        · omega
        · exact ih h' l hl

theorem ParseFile_long_iff (text : Str) :
    (scanPieces (splitNewlines text)).2 = true ↔
      ∃ l ∈ splitNewlines text, MaxScanTokenSize ≤ byteLen l := by
  constructor
  · intro hf
    by_contra hno
    have hshort : ∀ l ∈ splitNewlines text, byteLen l < MaxScanTokenSize := by
      intro l hl
      by_contra hlt
      exact hno ⟨l, hl, by omega⟩
    rw [scanPieces_of_short _ (splitNewlines_ne_nil text) hshort] at hf
    cases hf
  · rintro ⟨l, hl, hlong⟩
    by_contra hf
    have := scanPieces_short_of_ok _ (by simpa using hf) l hl
    omega

theorem ParseFile_error_of_long (text : Str)
    (h : ∃ l ∈ splitNewlines text, MaxScanTokenSize ≤ byteLen l) :
    ParseFile text = .error "error reading file: bufio.Scanner: token too long".toList := by
  have hf := (ParseFile_long_iff text).2 h
  show (if (scanPieces (splitNewlines text)).2 = true then _ else _) = _
  rw [if_pos hf]

theorem ParseFile_error_iff (text : Str) :
    (∃ e, ParseFile text = .error e) ↔
      ∃ l ∈ splitNewlines text, MaxScanTokenSize ≤ byteLen l := by
  constructor
  · rintro ⟨e, he⟩
    rw [← ParseFile_long_iff]
    by_contra hf
    have he' : (if (scanPieces (splitNewlines text)).2 = true then _ else _) = _ := he
    rw [if_neg hf] at he'
    cases he'
  · intro h
    exact ⟨_, ParseFile_error_of_long text h⟩

theorem splitNewlines_replicate_append (n : Nat) (rest l : Str) (ls : List Str)
    (h : splitNewlines rest = l :: ls) :
    splitNewlines (List.replicate n 'a' ++ rest) = (List.replicate n 'a' ++ l) :: ls := by
  induction n with
  | zero => simpa using h
  | succ k ih =>
    rw [List.replicate_succ, List.cons_append, splitNewlines, if_neg (by decide), ih]
    rfl

theorem byteLen_replicate_append (n : Nat) (l : Str) :
    byteLen (List.replicate n 'a' ++ l) = n + byteLen l := by
  induction n with
  | zero => simp
  | succ k ih =>
    rw [List.replicate_succ, List.cons_append, byteLen_cons, ih, utf8Size_of_lt 'a' (by decide)]
    omega

/-- C8, amended: on a text whose lines, each counted up to its newline
character and with the carriage return before it, are shorter than 65536
bytes (the scanner's buffer), `ParseFile` does not fail and returns, in file
order, the task `ParseLine(l, k)` of every physical line `l` that has a
character other than white space, `k` being the 1-indexed physical line
number; each such line yields a task.  `ParseFile` fails exactly on the
other texts: a line of 65535 letters that ends in a carriage return and a
newline is too long, the same line with a newline only is not.
`Valid task\n\nAnother` yields two tasks, with line numbers 1 and 3, and the
empty text yields none. -/
theorem ParseFile_eq_tasksOfLines :
    (∀ text : Str, (∀ l ∈ splitNewlines text, byteLen l < MaxScanTokenSize) →
      ParseFile text = .ok (tasksOfLines (physicalLines text))) ∧
    (∀ (k : Nat) (l : Str), TrimSpace l ≠ [] →
      ∃ t, taskOfLine (k, l) = some t ∧ ParseLine l k = .ok t) ∧
    (∃ t1 t2, ParseFile "Valid task\n\nAnother".toList = .ok [t1, t2] ∧
      t1.LineNumber = 1 ∧ t1.Description = "Valid task".toList ∧
      t2.LineNumber = 3 ∧ t2.Description = "Another".toList) ∧
    ParseFile [] = .ok [] ∧
    (∀ text : Str, (∃ e, ParseFile text = .error e) ↔
      ∃ l ∈ splitNewlines text, MaxScanTokenSize ≤ byteLen l) ∧
    (∀ text : Str, (∃ l ∈ splitNewlines text, MaxScanTokenSize ≤ byteLen l) →
      ParseFile text = .error "error reading file: bufio.Scanner: token too long".toList) ∧
    splitNewlines "a\r\nb\n".toList = ["a\r".toList, "b".toList, []] ∧
    ParseFile (List.replicate 65535 'a' ++ "\r\n".toList) =
      .error "error reading file: bufio.Scanner: token too long".toList ∧
    (∃ tasks, ParseFile (List.replicate 65535 'a' ++ "\n".toList) = .ok tasks) := by
  have hfirst : ∀ text : Str, (∀ l ∈ splitNewlines text, byteLen l < MaxScanTokenSize) →
      ParseFile text = .ok (tasksOfLines (physicalLines text)) := by
    intro text h
    unfold ParseFile
    simp only [scanPieces_of_short _ (splitNewlines_ne_nil text) h, Bool.false_eq_true, if_false]
    rw [show ((1 : Int) = ((1 : Nat) : Int)) from rfl, parseLines_eq]
    rfl
  refine ⟨hfirst, taskOfLine_of_not_blank,
    ⟨_, _, rfl, by decide, by decide, by decide, by decide⟩, by decide, ParseFile_error_iff,
    ParseFile_error_of_long, by decide, ?_, ?_⟩
  · apply ParseFile_error_of_long
    refine ⟨List.replicate 65535 'a' ++ "\r".toList, ?_, ?_⟩
    · rw [splitNewlines_replicate_append 65535 "\r\n".toList "\r".toList [[]] (by decide)]
      exact List.mem_cons_self _ _
    · rw [byteLen_replicate_append]
      decide
  · have hs : splitNewlines (List.replicate 65535 'a' ++ "\n".toList) =
        [List.replicate 65535 'a', []] := by
      rw [splitNewlines_replicate_append 65535 "\n".toList [] [[]] (by decide),
        List.append_nil]
    have hshort : ∀ l ∈ splitNewlines (List.replicate 65535 'a' ++ "\n".toList),
        byteLen l < MaxScanTokenSize := by
      intro l hl
      rw [hs] at hl
      simp only [List.mem_cons, List.mem_singleton, List.not_mem_nil, or_false] at hl
      rcases hl with rfl | rfl
      · rw [byteLen_replicate]
        decide
      · decide
    exact ⟨_, hfirst _ hshort⟩

/-- C8, amended, at a text with a carriage return, a blank line, a line of
blanks and a final newline. -/
theorem ParseFile_eq_tasksOfLines_witness :
    ParseFile "a\r\n\n  \nb\n".toList = .ok (tasksOfLines ["a".toList, [], "  ".toList, "b".toList]) :=
  ParseFile_eq_tasksOfLines.1 "a\r\n\n  \nb\n".toList (by decide)

/-! ## Theorems: the `Task` mutators -/

theorem SetPriority_result (t : Task) (p : Str) :
    ((t.SetPriority p).1 = none ↔ (p = [] ∨ ∃ c, p = [c] ∧ reUpper c = true)) ∧
    ((t.SetPriority p).1 = none →
      (t.SetPriority p).2 = { t with Priority := p, Modified := true }) ∧
    ((t.SetPriority p).1 ≠ none → (t.SetPriority p).2 = t) := by
  by_cases hp : p = []
  · subst hp
    simp [Task.SetPriority]
  · have hchk := priority_check_iff p hp
    by_cases hok : byteLen p = 1 ∧ 65 ≤ firstByte p ∧ firstByte p ≤ 90
    · have h1 : ¬ byteLen p ≠ 1 := by omega
      have h2 : ¬ (firstByte p < 65 ∨ 90 < firstByte p) := by omega
      simp only [Task.SetPriority, if_neg hp, if_neg h1, if_neg h2, true_iff, ne_eq,
        not_true_eq_false, false_implies, and_true, true_implies]
      exact Or.inr (hchk.1 hok)
    · have hno : ¬ (p = [] ∨ ∃ c, p = [c] ∧ reUpper c = true) := by
        rintro (h | h)
        · exact hp h
        · exact hok (hchk.2 h)
      have hno' : ∀ x, p = [x] → reUpper x = false := by
        intro x hx
        cases h : reUpper x
        · rfl
        · exact absurd (Or.inr ⟨x, hx, h⟩) hno
      by_cases h1 : byteLen p ≠ 1
      · simp [Task.SetPriority, hp, h1]
        exact hno'
      · have h2 : firstByte p < 65 ∨ 90 < firstByte p := by omega
        simp [Task.SetPriority, hp, h1, h2]
        exact hno'

/-- C11: `SetPriority(p)` succeeds if and only if `p` is empty or exactly one
character in `A`..`Z`; on success the task gets `Priority = p` and
`Modified = true` and keeps every other field; on failure, as for a lowercase
letter, a digit or two characters, the task is left unchanged. -/
theorem SetPriority_spec (t : Task) (p : Str) :
    ((t.SetPriority p).1 = none ↔ (p = [] ∨ ∃ c, p = [c] ∧ reUpper c = true)) ∧
    ((t.SetPriority p).1 = none →
      (t.SetPriority p).2 = { t with Priority := p, Modified := true }) ∧
    ((t.SetPriority p).1 ≠ none → (t.SetPriority p).2 = t) ∧
    (t.SetPriority "a".toList).1 ≠ none ∧ (t.SetPriority "1".toList).1 ≠ none ∧
    (t.SetPriority "AB".toList).1 ≠ none := by
  obtain ⟨h1, h2, h3⟩ := SetPriority_result t p
  refine ⟨h1, h2, h3, ?_, ?_, ?_⟩
  · rw [ne_eq, (SetPriority_result t "a".toList).1]
    rintro (h | ⟨c, hc, hu⟩)
    · exact absurd h (by decide)
    · obtain rfl : 'a' = c := by simpa using hc
      exact absurd hu (by decide)
  · rw [ne_eq, (SetPriority_result t "1".toList).1]
    rintro (h | ⟨c, hc, hu⟩)
    · exact absurd h (by decide)
    · obtain rfl : '1' = c := by simpa using hc
      exact absurd hu (by decide)
  · rw [ne_eq, (SetPriority_result t "AB".toList).1]
    rintro (h | ⟨c, hc, -⟩)
    · exact absurd h (by decide)
    · simp at hc

/-- C12, as stated, fails: removing a context that the task does not have,
and adding one that it already has, both return without error and leave
`Modified` false. -/
theorem mutators_may_leave_Modified_false :
    workTask.Modified = false ∧
    (workTask.RemoveContext "@missing".toList).Modified = false ∧
    (workTask.AddContext "@work".toList).1 = none ∧
    (workTask.AddContext "@work".toList).2.Modified = false ∧
    (workTask.RemoveProject "+missing".toList).Modified = false ∧
    (workTask.AddProject "+office".toList).1 = none ∧
    (workTask.AddProject "+office".toList).2.Modified = false := by
  refine ⟨by decide, by decide, by decide, by decide, by decide, by decide, by decide⟩

/-- C12, amended: `Modified` is true after a `SetPriority` that returns
without error, after `Complete` and after `Uncomplete`; after an `AddContext`
or `AddProject` that returns without error when the tag was not yet in the
set; and after a `RemoveContext` or `RemoveProject` of a tag that was in the
set.  Adding a tag that is present, or removing one that is absent, leaves
the task, and so `Modified`, as it was. -/
theorem mutators_set_Modified (t : Task) (now d : Date) (s : Str) :
    ((t.SetPriority s).1 = none → (t.SetPriority s).2.Modified = true) ∧
    (Task.Complete now t d).Modified = true ∧
    t.Uncomplete.Modified = true ∧
    ((t.AddContext s).1 = none → s ∉ t.Contexts → (t.AddContext s).2.Modified = true) ∧
    ((t.AddProject s).1 = none → s ∉ t.Projects → (t.AddProject s).2.Modified = true) ∧
    (s ∈ t.Contexts → (t.RemoveContext s).Modified = true) ∧
    (s ∈ t.Projects → (t.RemoveProject s).Modified = true) ∧
    (s ∈ t.Contexts → (t.AddContext s).2 = t) ∧
    (s ∈ t.Projects → (t.AddProject s).2 = t) ∧
    (s ∉ t.Contexts → t.RemoveContext s = t) ∧
    (s ∉ t.Projects → t.RemoveProject s = t) := by
  refine ⟨?_, rfl, rfl, ?_, ?_, ?_, ?_, ?_, ?_, ?_, ?_⟩
  · intro h
    rw [(SetPriority_result t s).2.1 h]
  · intro h hs
    unfold Task.AddContext at h ⊢
    by_cases h1 : (!HasPrefix s "@".toList) = true
    · rw [if_pos h1] at h
      simp at h
    · rw [if_neg h1, if_neg hs]
  · intro h hs
    unfold Task.AddProject at h ⊢
    by_cases h1 : (!HasPrefix s "+".toList) = true
    · rw [if_pos h1] at h
      simp at h
    · rw [if_neg h1, if_neg hs]
  · intro hs
    simp [Task.RemoveContext, hs]
  · intro hs
    simp [Task.RemoveProject, hs]
  · intro hs
    unfold Task.AddContext
    by_cases h1 : (!HasPrefix s "@".toList) = true
    · rw [if_pos h1]
    · rw [if_neg h1, if_pos hs]
  · intro hs
    unfold Task.AddProject
    by_cases h1 : (!HasPrefix s "+".toList) = true
    · rw [if_pos h1]
    · rw [if_neg h1, if_pos hs]
  · intro hs
    simp [Task.RemoveContext, hs]
  · intro hs
    simp [Task.RemoveProject, hs]

/-- C13: removing a context (project) that the task does not have leaves the
task as it was, `Modified` included; removing one that it has removes exactly
that tag, keeps every other tag, sets `Modified` and changes no other field. -/
theorem RemoveContext_RemoveProject_spec (t : Task) (s : Str) :
    (s ∉ t.Contexts → t.RemoveContext s = t) ∧
    (s ∈ t.Contexts →
      (∀ x, x ∈ (t.RemoveContext s).Contexts ↔ x ∈ t.Contexts ∧ x ≠ s) ∧
      (t.RemoveContext s).Modified = true ∧
      { t.RemoveContext s with Contexts := t.Contexts, Modified := t.Modified } = t) ∧
    (s ∉ t.Projects → t.RemoveProject s = t) ∧
    (s ∈ t.Projects →
      (∀ x, x ∈ (t.RemoveProject s).Projects ↔ x ∈ t.Projects ∧ x ≠ s) ∧
      (t.RemoveProject s).Modified = true ∧
      { t.RemoveProject s with Projects := t.Projects, Modified := t.Modified } = t) := by
  refine ⟨?_, ?_, ?_, ?_⟩
  · intro hs
    rw [Task.RemoveContext, if_neg hs]
  · intro hs
    rw [Task.RemoveContext, if_pos hs]
    exact ⟨fun x => by simp [List.mem_filter], rfl, rfl⟩
  · intro hs
    rw [Task.RemoveProject, if_neg hs]
  · intro hs
    rw [Task.RemoveProject, if_pos hs]
    exact ⟨fun x => by simp [List.mem_filter], rfl, rfl⟩

/-- C13 on the test's task: `@work` is removed and `@home` stays. -/
theorem RemoveContext_RemoveProject_spec_witness :
    (∀ x, x ∈ ({ workTask with Contexts := ["@work".toList, "@home".toList] }.RemoveContext
        "@work".toList).Contexts ↔
      x ∈ ["@work".toList, "@home".toList] ∧ x ≠ "@work".toList) ∧
    ({ workTask with Contexts := ["@work".toList, "@home".toList] }.RemoveContext
      "@work".toList).Contexts = ["@home".toList] :=
  ⟨((RemoveContext_RemoveProject_spec
      { workTask with Contexts := ["@work".toList, "@home".toList] } "@work".toList).2.1
      (by decide)).1, by decide⟩

theorem mem_setInsert (m : List Str) (k x : Str) : x ∈ setInsert m k ↔ x ∈ m ∨ x = k := by
  unfold setInsert
  by_cases h : k ∈ m
  · rw [if_pos h]
    constructor
    · exact Or.inl
    · rintro (h1 | rfl)
      · exact h1
      · exact h
  · rw [if_neg h]
    simp

theorem HasPrefix_single (s : Str) (c : Char) :
    HasPrefix s [c] = true ↔ ∃ w, s = c :: w := by
  cases s with
  | nil => simp [HasPrefix]
  | cons a w =>
    simp only [HasPrefix, List.isPrefixOf, Bool.and_true, beq_iff_eq, List.cons.injEq]
    constructor
    · rintro rfl
      exact ⟨w, rfl, rfl⟩
    · rintro ⟨w', h, -⟩
      exact h.symm

theorem addTag_spec (sigil : Char) (s : Str) (tags : List Str) (e : Str) (t t' : Task)
    (r : Option Str × Task)
    (hr : r = if !HasPrefix s [sigil] then (some e, t)
      else if s ∈ tags then (none, t) else (none, t')) :
    (r.1 ≠ none ↔ ¬ ∃ w, s = sigil :: w) ∧ (r.1 ≠ none → r.2 = t) ∧
    (r.1 = none → s ∈ tags → r.2 = t) ∧ (r.1 = none → s ∉ tags → r.2 = t') := by
  rw [← HasPrefix_single]
  subst hr
  by_cases h1 : HasPrefix s [sigil] = true
  · by_cases h2 : s ∈ tags <;> simp [h1, h2]
  · simp [h1]

/-- C14: `AddContext(c)` fails if and only if `c` does not start with `@`
(`AddProject(p)` if and only if `p` does not start with `+`) and then leaves
the task unchanged; on success the members of the set are the previous
members and the tag, a second call changes nothing, and a set without
duplicates stays so.  `HasContext` and `HasProject` are true exactly for the
members. -/
theorem AddContext_AddProject_spec (t : Task) (s : Str) :
    ((t.AddContext s).1 ≠ none ↔ ¬ ∃ w, s = '@' :: w) ∧
    ((t.AddContext s).1 ≠ none → (t.AddContext s).2 = t) ∧
    ((t.AddContext s).1 = none →
      (∀ x, x ∈ (t.AddContext s).2.Contexts ↔ x ∈ t.Contexts ∨ x = s) ∧
      ((t.AddContext s).2.AddContext s) = (none, (t.AddContext s).2) ∧
      (t.Contexts.Nodup → (t.AddContext s).2.Contexts.Nodup)) ∧
    ((t.AddProject s).1 ≠ none ↔ ¬ ∃ w, s = '+' :: w) ∧
    ((t.AddProject s).1 ≠ none → (t.AddProject s).2 = t) ∧
    ((t.AddProject s).1 = none →
      (∀ x, x ∈ (t.AddProject s).2.Projects ↔ x ∈ t.Projects ∨ x = s) ∧
      ((t.AddProject s).2.AddProject s) = (none, (t.AddProject s).2) ∧
      (t.Projects.Nodup → (t.AddProject s).2.Projects.Nodup)) ∧
    (t.HasContext s = true ↔ s ∈ t.Contexts) ∧
    (t.HasProject s = true ↔ s ∈ t.Projects) := by
  obtain ⟨c1, c2, c3, c4⟩ := addTag_spec '@' s t.Contexts _ t _ (t.AddContext s) rfl
  obtain ⟨p1, p2, p3, p4⟩ := addTag_spec '+' s t.Projects _ t _ (t.AddProject s) rfl
  refine ⟨c1, c2, ?_, p1, p2, ?_, by simp [Task.HasContext], by simp [Task.HasProject]⟩
  · intro hok
    have hpre : (!HasPrefix s "@".toList) = false := by
      have := (not_iff_not.2 c1).1 (by simpa using hok)
      rw [not_not, ← HasPrefix_single] at this
      simpa using this
    by_cases h2 : s ∈ t.Contexts
    · rw [c3 hok h2]
      refine ⟨fun x => ⟨Or.inl, ?_⟩, ?_, id⟩
      · rintro (h | rfl)
        · exact h
        · exact h2
      · rw [Task.AddContext, hpre, if_neg (by decide), if_pos h2]
    · rw [c4 hok h2]
      have hin : s ∈ setInsert t.Contexts s := (mem_setInsert _ _ _).2 (Or.inr rfl)
      refine ⟨fun x => mem_setInsert _ _ _, ?_, ?_⟩
      · rw [Task.AddContext, hpre, if_neg (by decide), if_pos hin]
      · intro hnd
        simp only [setInsert, h2, if_false]
        exact List.Nodup.append hnd (List.nodup_singleton s) (by simpa using h2)
  · intro hok
    have hpre : (!HasPrefix s "+".toList) = false := by
      have := (not_iff_not.2 p1).1 (by simpa using hok)
      rw [not_not, ← HasPrefix_single] at this
      simpa using this
    by_cases h2 : s ∈ t.Projects
    · rw [p3 hok h2]
      refine ⟨fun x => ⟨Or.inl, ?_⟩, ?_, id⟩
      · rintro (h | rfl)
        · exact h
        · exact h2
      · rw [Task.AddProject, hpre, if_neg (by decide), if_pos h2]
    · rw [p4 hok h2]
      have hin : s ∈ setInsert t.Projects s := (mem_setInsert _ _ _).2 (Or.inr rfl)
      refine ⟨fun x => mem_setInsert _ _ _, ?_, ?_⟩
      · rw [Task.AddProject, hpre, if_neg (by decide), if_pos hin]
      · intro hnd
        simp only [setInsert, h2, if_false]
        exact List.Nodup.append hnd (List.nodup_singleton s) (by simpa using h2)

/-! ## Theorems: invariants of parsed tasks -/

theorem parseCompleted_date_of_open (r : Str) (h : (parseCompleted r).1 = false) :
    (parseCompleted r).2.1 = Date.zero := by
  by_cases hm : HasPrefix r "x ".toList = true
  · rw [parseCompleted_of_marker r hm] at h
    exact absurd h (by decide)
  · rw [parseCompleted_of_no_marker r (by simpa using hm)]

theorem priorityRe_letter (r whole letter : Str) (h : priorityRe r = some (whole, letter)) :
    ∃ c, letter = [c] ∧ reUpper c = true := by
  unfold priorityRe at h
  split at h
  · rename_i c0 p c2 rest
    split_ifs at h with hc
    simp only [Option.some.injEq, Prod.mk.injEq] at h
    exact ⟨p, h.2.symm, hc.2.1⟩
  · exact absurd h (by simp)

theorem parsePriority_letter (c : Bool) (r : Str) :
    (parsePriority c r).1 = [] ∨ ∃ p, (parsePriority c r).1 = [p] ∧ reUpper p = true := by
  unfold parsePriority
  cases c with
  | true => exact Or.inl rfl
  | false =>
    simp only [Bool.not_false, if_true]
    cases hp : priorityRe r with
    | none => exact Or.inl rfl
    | some wl =>
      obtain ⟨whole, letter⟩ := wl
      exact Or.inr (priorityRe_letter r whole letter hp)

/-- C15, as stated, fails: `x Buy milk` parses to a completed task whose
completion date is zero. -/
theorem ParseLine_completed_without_date :
    ∃ t, ParseLine "x Buy milk".toList 1 = .ok t ∧ t.Completed = true ∧
      t.CompletionDate = Date.zero ∧ t.Description = "Buy milk".toList := by
  refine ⟨_, rfl, by decide, by decide, by decide⟩

/-- C15, amended: every task returned by `ParseLine` has a priority that is
empty or exactly one character in A-Z, has no priority when it is completed,
and has a non-zero completion date only when it is completed.  A completed
task may have a zero completion date, as for a marker that no date follows. -/
theorem ParseLine_invariants (line : Str) (n : Int) (t : Task)
    (h : ParseLine line n = .ok t) :
    (t.Priority = [] ∨ ∃ c, t.Priority = [c] ∧ reUpper c = true) ∧
    (t.Completed = true → t.Priority = []) ∧
    (t.CompletionDate ≠ Date.zero → t.Completed = true) := by
  have hne : line ≠ [] := by
    rintro rfl
    simp [ParseLine] at h
  rw [ParseLine_of_ne_nil line n hne] at h
  simp only [Except.ok.injEq] at h
  subst h
  refine ⟨parsePriority_letter _ _, ?_, ?_⟩
  · intro hc
    simp only at hc ⊢
    rw [hc, parsePriority_completed]
  · intro hd
    simp only at hd ⊢
    by_contra hc
    exact hd (parseCompleted_date_of_open _ (by simpa using hc))

/-- C15, amended, at the line `x 2026-02-14 (A) Task`. -/
theorem ParseLine_invariants_witness :
    ∃ t, ParseLine "x 2026-02-14 (A) Task".toList 1 = .ok t ∧
      (t.Priority = [] ∨ ∃ c, t.Priority = [c] ∧ reUpper c = true) ∧
      (t.Completed = true → t.Priority = []) ∧
      (t.CompletionDate ≠ Date.zero → t.Completed = true) :=
  ⟨_, rfl, ParseLine_invariants "x 2026-02-14 (A) Task".toList 1 _ rfl⟩

/-! ## Theorems: the filter engine -/

theorem collectInto_eq {α : Type} (keep : α → Bool) (l result : List α) :
    collectInto keep l result = result ++ l.filter keep := by
  induction l generalizing result with
  | nil => simp [collectInto]
  | cons x rest ih =>
    rw [collectInto, ih]
    by_cases h : keep x = true
    · simp [h]
    · simp [h]

theorem matchesAll_eq (cs : List FilterCriteria) (t : Task) :
    matchesAll cs t = cs.all (fun c => c.Matches t) := by
  induction cs with
  | nil => rfl
  | cons c rest ih =>
    rw [matchesAll, ih]
    cases h : c.Matches t <;> simp [h]

theorem matchesAny_eq (cs : List FilterCriteria) (t : Task) :
    matchesAny cs t = cs.any (fun c => c.Matches t) := by
  induction cs with
  | nil => rfl
  | cons c rest ih =>
    rw [matchesAny, ih]
    cases h : c.Matches t <;> simp [h]

theorem Apply_of_enabled (tasks : List Task) (criteria : List FilterCriteria)
    (logic : FilterLogic) (h : criteria.filter (fun c => c.Enabled) ≠ []) :
    Apply tasks criteria logic =
      if logic = FilterAnd then
        tasks.filter (fun t => (criteria.filter (fun c => c.Enabled)).all (fun c => c.Matches t))
      else
        tasks.filter (fun t => (criteria.filter (fun c => c.Enabled)).any (fun c => c.Matches t))
      := by
  have hne : criteria ≠ [] := by
    rintro rfl
    exact h rfl
  unfold Apply
  simp only [collectInto_eq, List.nil_append, List.length_eq_zero, hne, h, if_false]
  congr 1 <;> congr 1 <;> funext t
  · exact matchesAll_eq _ t
  · exact matchesAny_eq _ t

theorem Apply_of_none_enabled (tasks : List Task) (criteria : List FilterCriteria)
    (logic : FilterLogic) (h : criteria.filter (fun c => c.Enabled) = []) :
    Apply tasks criteria logic = tasks := by
  unfold Apply
  simp only [collectInto_eq, List.nil_append, List.length_eq_zero, h, if_true]
  split_ifs <;> rfl

theorem all_enabled_filter (criteria : List FilterCriteria) (t : Task) :
    (criteria.filter (fun c => c.Enabled)).all (fun c => c.Matches t) =
      criteria.all (fun c => !c.Enabled || c.Matches t) := by
  induction criteria with
  | nil => rfl
  | cons c rest ih =>
    cases he : c.Enabled <;> simp [List.filter, he, ih]

theorem any_enabled_filter (criteria : List FilterCriteria) (t : Task) :
    (criteria.filter (fun c => c.Enabled)).any (fun c => c.Matches t) =
      criteria.any (fun c => c.Enabled && c.Matches t) := by
  induction criteria with
  | nil => rfl
  | cons c rest ih =>
    cases he : c.Enabled <;> simp [List.filter, he, ih]

theorem enabled_filter_ne_nil (criteria : List FilterCriteria)
    (h : ∃ c ∈ criteria, c.Enabled = true) : criteria.filter (fun c => c.Enabled) ≠ [] := by
  obtain ⟨c, hc, he⟩ := h
  intro hnil
  have : c ∈ criteria.filter (fun c => c.Enabled) := List.mem_filter.2 ⟨hc, he⟩
  rw [hnil] at this
  exact absurd this (List.not_mem_nil _)

/-- C16: when at least one criterion is enabled, `Apply` is the filter of the
tasks, in their order, by "every enabled criterion matches" under AND logic
and by "some enabled criterion matches" under OR logic (any logic other than
AND); the result is a subsequence of the tasks. -/
theorem Apply_is_stable_filter (tasks : List Task) (criteria : List FilterCriteria)
    (logic : FilterLogic) (h : ∃ c ∈ criteria, c.Enabled = true) :
    (logic = FilterAnd → Apply tasks criteria logic =
      tasks.filter (fun t => criteria.all (fun c => !c.Enabled || c.Matches t))) ∧
    (logic ≠ FilterAnd → Apply tasks criteria logic =
      tasks.filter (fun t => criteria.any (fun c => c.Enabled && c.Matches t))) ∧
    (Apply tasks criteria logic).Sublist tasks := by
  have hne := enabled_filter_ne_nil criteria h
  rw [Apply_of_enabled tasks criteria logic hne]
  refine ⟨?_, ?_, ?_⟩
  · intro hl
    rw [if_pos hl]
    congr 1
    funext t
    exact all_enabled_filter criteria t
  · intro hl
    rw [if_neg hl]
    congr 1
    funext t
    exact any_enabled_filter criteria t
  · split_ifs <;> exact List.filter_sublist _

/-- C16 on three tasks and the sample criteria. -/
theorem Apply_is_stable_filter_witness :
    Apply [workTask, openTask, { workTask with Priority := "A".toList }] sampleCriteria FilterAnd =
      [workTask, openTask, { workTask with Priority := "A".toList }].filter
        (fun t => sampleCriteria.all (fun c => !c.Enabled || c.Matches t)) ∧
    Apply [workTask, openTask, { workTask with Priority := "A".toList }] sampleCriteria FilterAnd =
      [{ workTask with Priority := "A".toList }] ∧
    Apply [workTask, openTask, { workTask with Priority := "A".toList }] sampleCriteria FilterOr =
      [workTask, openTask, { workTask with Priority := "A".toList }] :=
  ⟨(Apply_is_stable_filter _ sampleCriteria FilterAnd
      ⟨⟨FilterContext, "@work".toList, true, FilterAnd⟩, by decide, rfl⟩).1 rfl, by decide,
    by decide⟩

/-- C17: for every task list and criteria list, `Apply` under AND logic is a
subsequence of `Apply` under OR logic, so each of its tasks occurs in the
latter. -/
theorem Apply_and_sublist_or (tasks : List Task) (criteria : List FilterCriteria) :
    (Apply tasks criteria FilterAnd).Sublist (Apply tasks criteria FilterOr) ∧
    ∀ t ∈ Apply tasks criteria FilterAnd, t ∈ Apply tasks criteria FilterOr := by
  have hsub : (Apply tasks criteria FilterAnd).Sublist (Apply tasks criteria FilterOr) := by
    by_cases h : criteria.filter (fun c => c.Enabled) = []
    · rw [Apply_of_none_enabled _ _ _ h, Apply_of_none_enabled _ _ _ h]
    · rw [Apply_of_enabled _ _ _ h, Apply_of_enabled _ _ _ h, if_pos rfl,
        if_neg (by decide)]
      apply List.monotone_filter_right
      intro t ht
      obtain ⟨c, cs, hcs⟩ := List.exists_cons_of_ne_nil h
      rw [hcs] at ht ⊢
      simp only [List.all_cons, Bool.and_eq_true] at ht
      simp only [List.any_cons, Bool.or_eq_true]
      exact Or.inl ht.1
  exact ⟨hsub, fun t ht => hsub.subset ht⟩

/-- C18: `Apply` ignores disabled criteria under every logic: it gives the
same result on the criteria list and on its sublist of enabled criteria, and
it returns the input list when the criteria list is empty or has no enabled
criterion. -/
theorem Apply_ignores_disabled (tasks : List Task) (criteria : List FilterCriteria)
    (logic : FilterLogic) :
    Apply tasks criteria logic = Apply tasks (criteria.filter (fun c => c.Enabled)) logic ∧
    Apply tasks [] logic = tasks ∧
    ((∀ c ∈ criteria, c.Enabled = false) → Apply tasks criteria logic = tasks) := by
  have hidem : (criteria.filter (fun c => c.Enabled)).filter (fun c => c.Enabled) =
      criteria.filter (fun c => c.Enabled) := by
    rw [List.filter_filter]
    simp
  refine ⟨?_, Apply_of_none_enabled _ _ _ rfl, ?_⟩
  · by_cases h : criteria.filter (fun c => c.Enabled) = []
    · rw [Apply_of_none_enabled _ _ _ h, h, Apply_of_none_enabled tasks [] logic rfl]
    · rw [Apply_of_enabled _ _ _ h, Apply_of_enabled _ _ _ (by rw [hidem]; exact h), hidem]
  · intro hall
    apply Apply_of_none_enabled
    rw [List.filter_eq_nil_iff]
    intro c hc
    simp [hall c hc]

/-- C19: `Matches` agrees with its reference definition on every task: a
disabled criterion matches every task, and an enabled one matches every task
for the kind none, the tasks whose priority equals the value for the kind
priority, the tasks that have the value among their contexts (projects) for
the kind context (project), the completed tasks for the kind completion with
the value `true` and the open tasks with the value `false`, and no task for
an unknown kind.  The task is an argument that is only read. -/
theorem Matches_spec (fc : FilterCriteria) (task : Task) :
    (fc.Matches task = true ↔ matchesSpec fc task) ∧
    (fc.Enabled = false → fc.Matches task = true) ∧
    (fc.Enabled = true → fc.Kind = FilterNone → fc.Matches task = true) ∧
    (fc.Enabled = true → fc.Kind = FilterPriority →
      (fc.Matches task = true ↔ task.Priority = fc.Value)) ∧
    (fc.Enabled = true → fc.Kind = FilterContext →
      (fc.Matches task = true ↔ fc.Value ∈ task.Contexts)) ∧
    (fc.Enabled = true → fc.Kind = FilterProject →
      (fc.Matches task = true ↔ fc.Value ∈ task.Projects)) ∧
    (fc.Enabled = true → fc.Kind = FilterCompleted → fc.Value = "true".toList →
      (fc.Matches task = true ↔ task.Completed = true)) ∧
    (fc.Enabled = true → fc.Kind = FilterCompleted → fc.Value = "false".toList →
      (fc.Matches task = true ↔ task.Completed = false)) ∧
    (fc.Enabled = true → (fc.Kind < 0 ∨ 5 < fc.Kind) → fc.Matches task = false) := by
  obtain ⟨kind, value, enabled, logic⟩ := fc
  refine ⟨?_, ?_, ?_, ?_, ?_, ?_, ?_, ?_, ?_⟩
  · cases enabled
    · simp [FilterCriteria.Matches, matchesSpec]
    · by_cases h0 : kind = FilterNone
      · simp [FilterCriteria.Matches, matchesSpec, h0]
      by_cases h1 : kind = FilterPriority
      · subst h1
        simp [FilterCriteria.Matches, matchesSpec, FilterNone, FilterPriority, FilterContext,
          FilterProject, FilterSearch, FilterCompleted]
      by_cases h2 : kind = FilterContext
      · subst h2
        simp [FilterCriteria.Matches, matchesSpec, FilterNone, FilterPriority, FilterContext,
          FilterProject, FilterSearch, FilterCompleted, Task.HasContext]
      by_cases h3 : kind = FilterProject
      · subst h3
        simp [FilterCriteria.Matches, matchesSpec, FilterNone, FilterPriority, FilterContext,
          FilterProject, FilterSearch, FilterCompleted, Task.HasProject]
      by_cases h4 : kind = FilterSearch
      · subst h4
        simp [FilterCriteria.Matches, matchesSpec, FilterNone, FilterPriority, FilterContext,
          FilterProject, FilterSearch, FilterCompleted]
      by_cases h5 : kind = FilterCompleted
      · subst h5
        by_cases hv : value = "true".toList
        · simp [FilterCriteria.Matches, matchesSpec, FilterNone, FilterPriority, FilterContext,
            FilterProject, FilterSearch, FilterCompleted, Task.IsComplete, hv]
        · have hv' : ¬ value = ['t', 'r', 'u', 'e'] := hv
          simp [FilterCriteria.Matches, matchesSpec, FilterNone, FilterPriority, FilterContext,
            FilterProject, FilterSearch, FilterCompleted, Task.IsComplete, hv']
      · simp [FilterCriteria.Matches, matchesSpec, h0, h1, h2, h3, h4, h5]
  · intro he
    simp only at he
    simp [FilterCriteria.Matches, he]
  · intro he hk
    simp only at he hk
    simp [FilterCriteria.Matches, he, hk]
  · intro he hk
    simp only at he hk
    subst he hk
    simp [FilterCriteria.Matches, FilterNone, FilterPriority]
  · intro he hk
    simp only at he hk
    subst he hk
    simp [FilterCriteria.Matches, FilterNone, FilterPriority, FilterContext, Task.HasContext]
  · intro he hk
    simp only at he hk
    subst he hk
    simp [FilterCriteria.Matches, FilterNone, FilterPriority, FilterContext, FilterProject,
      Task.HasProject]
  · intro he hk hv
    simp only at he hk hv
    subst he hk hv
    simp [FilterCriteria.Matches, FilterNone, FilterPriority, FilterContext, FilterProject,
      FilterSearch, FilterCompleted, Task.IsComplete]
  · intro he hk hv
    simp only at he hk hv
    subst he hk hv
    simp [FilterCriteria.Matches, FilterNone, FilterPriority, FilterContext, FilterProject,
      FilterSearch, FilterCompleted, Task.IsComplete]
  · intro he hk
    simp only at he hk
    subst he
    have h0 : kind ≠ FilterNone := by rintro rfl; exact absurd hk (by decide)
    have h1 : kind ≠ FilterPriority := by rintro rfl; exact absurd hk (by decide)
    have h2 : kind ≠ FilterContext := by rintro rfl; exact absurd hk (by decide)
    have h3 : kind ≠ FilterProject := by rintro rfl; exact absurd hk (by decide)
    have h4 : kind ≠ FilterSearch := by rintro rfl; exact absurd hk (by decide)
    have h5 : kind ≠ FilterCompleted := by rintro rfl; exact absurd hk (by decide)
    simp [FilterCriteria.Matches, h0, h1, h2, h3, h4, h5]

/-! ## Theorems: the search criterion -/

theorem containsLoop_iff (s substr : Bytes) (n i0 : Nat) :
    containsLoop s substr n i0 = true ↔
      ∃ i, i0 ≤ i ∧ i < i0 + n ∧ (s.drop i).take substr.length = substr := by
  induction n generalizing i0 with
  | zero =>
    simp only [containsLoop, Bool.false_eq_true, false_iff]
    rintro ⟨i, h1, h2, -⟩
    omega
  | succ n ih =>
    rw [containsLoop]
    by_cases h : (s.drop i0).take substr.length = substr
    · rw [if_pos h]
      simp only [true_iff]
      exact ⟨i0, Nat.le_refl _, by omega, h⟩
    · rw [if_neg h, ih]
      constructor
      · rintro ⟨i, h1, h2, h3⟩
        exact ⟨i, by omega, by omega, h3⟩
      · rintro ⟨i, h1, h2, h3⟩
        have hne : i ≠ i0 := by
          rintro rfl
          exact h h3
        exact ⟨i, by omega, by omega, h3⟩

theorem contains_iff (s substr : Bytes) :
    contains s substr = true ↔
      ∃ i, i + substr.length ≤ s.length ∧ (s.drop i).take substr.length = substr := by
  unfold contains
  by_cases h0 : substr.length = 0
  · rw [if_pos h0]
    simp only [true_iff]
    refine ⟨0, by omega, ?_⟩
    rw [h0, List.take_zero]
    exact (List.length_eq_zero.1 h0).symm
  · rw [if_neg h0]
    by_cases h1 : substr.length > s.length
    · rw [if_pos h1]
      simp only [Bool.false_eq_true, false_iff]
      rintro ⟨i, hi, -⟩
      omega
    · rw [if_neg h1, containsLoop_iff]
      constructor
      · rintro ⟨i, -, h2, h3⟩
        exact ⟨i, by omega, h3⟩
      · rintro ⟨i, h2, h3⟩
        exact ⟨i, Nat.zero_le _, by omega, h3⟩

theorem take_drop_eq_iff (s substr : Bytes) (i : Nat) :
    (s.drop i).take substr.length = substr ↔ ∀ k, k < substr.length → s[i + k]? = substr[k]? := by
  constructor
  · intro heq k hk
    rw [← List.getElem?_drop, ← List.getElem?_take_of_lt hk, heq]
  · intro hall
    apply List.ext_getElem?
    intro k
    by_cases hk : k < substr.length
    · rw [List.getElem?_take_of_lt hk, List.getElem?_drop, hall k hk]
    · rw [List.getElem?_take_eq_none (by omega), List.getElem?_eq_none (by omega)]

theorem lowerByte_eq_asciiFold (b : Nat) : lowerByte b = asciiFold b := by
  by_cases h : b ≤ 90
  · interval_cases b <;> rfl
  · have hn : asciiLetters.find? (fun p => p.1.toNat = b) = none := by
      rw [List.find?_eq_none]
      intro p hp
      have hle : p.1.toNat ≤ 90 := by
        revert p
        decide
      simp only [decide_eq_true_eq]
      omega
    unfold asciiFold lowerByte
    rw [hn, if_neg (by omega)]

theorem asciiFold_eq_iff (a b : Nat) :
    asciiFold a = asciiFold b ↔
      a = b ∨ (65 ≤ a ∧ a ≤ 90 ∧ b = a + 32) ∨ (65 ≤ b ∧ b ≤ 90 ∧ a = b + 32) := by
  rw [← lowerByte_eq_asciiFold, ← lowerByte_eq_asciiFold]
  unfold lowerByte
  split_ifs <;> omega

/-- C20: `containsIgnoreCase(s, q)` is true if and only if at some offset `i`
with `i + len(q) <= len(s)` every byte `q[k]` equals the byte `s[i+k]` after
both are mapped from `A`..`Z` to `a`..`z`, that is, when the two bytes are
equal or one is an ASCII capital letter and the other its small letter; the
empty query matches every text; and the result does not change when the
arguments are replaced by byte strings that differ from them only in the
case of ASCII letters.  `milk` is found in `Buy MILK today` and `MILK` in
`buy milk`, `silk` is not, and a letter outside ASCII is not folded. -/
theorem containsIgnoreCase_spec (s q : Bytes) :
    (containsIgnoreCaseBytes s q = true ↔
      ∃ i, i + q.length ≤ s.length ∧
        ∀ k, k < q.length → (s[i + k]?).map asciiFold = (q[k]?).map asciiFold) ∧
    (containsIgnoreCaseBytes s q = true ↔
      ∃ i, i + q.length ≤ s.length ∧
        ∀ k, k < q.length → ∃ a b, s[i + k]? = some a ∧ q[k]? = some b ∧
          (a = b ∨ (65 ≤ a ∧ a ≤ 90 ∧ b = a + 32) ∨ (65 ≤ b ∧ b ≤ 90 ∧ a = b + 32))) ∧
    containsIgnoreCaseBytes s [] = true ∧
    (∀ d : Str, containsIgnoreCase d [] = true) ∧
    (∀ s' q' : Bytes, List.Forall₂ (fun a b => asciiFold a = asciiFold b) s s' →
      List.Forall₂ (fun a b => asciiFold a = asciiFold b) q q' →
      containsIgnoreCaseBytes s' q' = containsIgnoreCaseBytes s q) ∧
    (asciiFold 65 = 97 ∧ asciiFold 90 = 122 ∧ asciiFold 64 = 64 ∧ asciiFold 91 = 91 ∧
      asciiFold 97 = 97) ∧
    containsIgnoreCase "Buy MILK today".toList "milk".toList = true ∧
    containsIgnoreCase "buy milk".toList "MILK".toList = true ∧
    containsIgnoreCase "buy milk".toList "silk".toList = false ∧
    containsIgnoreCase "CAFÉ".toList "café".toList = false ∧
    containsIgnoreCase "CAFé".toList "café".toList = true := by
  have hfold : asciiFold = lowerByte := by
    funext b
    exact (lowerByte_eq_asciiFold b).symm
  have hmain : containsIgnoreCaseBytes s q = true ↔
      ∃ i, i + q.length ≤ s.length ∧
        ∀ k, k < q.length → (s[i + k]?).map lowerByte = (q[k]?).map lowerByte := by
    unfold containsIgnoreCaseBytes toLower
    rw [contains_iff]
    simp only [List.length_map]
    constructor
    · rintro ⟨i, hi, heq⟩
      refine ⟨i, hi, fun k hk => ?_⟩
      have := (take_drop_eq_iff (s.map lowerByte) (q.map lowerByte) i).1
        (by simpa using heq) k (by simpa using hk)
      simpa using this
    · rintro ⟨i, hi, hall⟩
      refine ⟨i, hi, ?_⟩
      have := (take_drop_eq_iff (s.map lowerByte) (q.map lowerByte) i).2 (fun k hk => by
          simpa using hall k (by simpa using hk))
      simpa using this
  have hlow : ∀ a b : Bytes, List.Forall₂ (fun x y => lowerByte x = lowerByte y) a b →
      toLower a = toLower b := by
    intro a b hab
    induction hab with
    | nil => rfl
    | cons hxy _ ih =>
      simp only [toLower, List.map_cons, List.cons.injEq] at ih ⊢
      exact ⟨hxy, ih⟩
  rw [hfold]
  refine ⟨hmain, ?_, by simp [containsIgnoreCaseBytes, toLower, contains], ?_, ?_,
    by decide, by decide, by decide, by decide, by decide, by decide⟩
  · rw [hmain]
    constructor
    · rintro ⟨i, hi, hall⟩
      refine ⟨i, hi, fun k hk => ?_⟩
      have hk1 : i + k < s.length := by omega
      refine ⟨s[i + k], q[k], List.getElem?_eq_getElem hk1, List.getElem?_eq_getElem hk, ?_⟩
      have := hall k hk
      rw [List.getElem?_eq_getElem hk1, List.getElem?_eq_getElem hk] at this
      simp only [Option.map_some', Option.some.injEq] at this
      rw [← hfold] at this
      exact (asciiFold_eq_iff _ _).1 this
    · rintro ⟨i, hi, hall⟩
      refine ⟨i, hi, fun k hk => ?_⟩
      obtain ⟨a, b, ha, hb, hab⟩ := hall k hk
      rw [ha, hb]
      simp only [Option.map_some', Option.some.injEq]
      rw [← hfold]
      exact (asciiFold_eq_iff _ _).2 hab
  · intro d
    simp [containsIgnoreCase, containsIgnoreCaseBytes, toLower, contains, utf8]
  · intro s' q' hs hq
    unfold containsIgnoreCaseBytes
    rw [hlow s s' hs, hlow q q' hq]

/-! ## Theorems: the index -/

theorem posGet_posAppend (m : PosMap) (k : Str) (i : Nat) (k' : Str) :
    posGet (posAppend m k i) k' = if k = k' then posGet m k ++ [i] else posGet m k' := by
  induction m with
  | nil =>
    by_cases h : k = k' <;> simp [posAppend, posGet, h]
  | cons kv rest ih =>
    obtain ⟨k0, l⟩ := kv
    unfold posAppend
    by_cases h0 : k0 = k
    · subst h0
      by_cases h1 : k0 = k' <;> simp [posGet, h1]
    · rw [if_neg h0]
      by_cases h1 : k0 = k'
      · subst h1
        simp [posGet, Ne.symm h0]
      · simp only [posGet, h1, if_false, ih, h0]

theorem posGet_foldl_posAppend (ks : List Str) (hks : ks.Nodup) (m : PosMap) (i : Nat)
    (k : Str) :
    posGet (ks.foldl (fun m c => posAppend m c i) m) k =
      if k ∈ ks then posGet m k ++ [i] else posGet m k := by
  induction ks generalizing m with
  | nil => simp
  | cons c cs ih =>
    rw [List.nodup_cons] at hks
    rw [List.foldl_cons, ih hks.2, posGet_posAppend]
    by_cases hc : c = k
    · subst hc
      simp [hks.1]
    · have hc' : ¬ k = c := fun h => hc h.symm
      simp [hc, hc']

theorem mem_posGet_foldl (ks : List Str) (m : PosMap) (i j : Nat) (k : Str) :
    j ∈ posGet (ks.foldl (fun m c => posAppend m c i) m) k ↔
      j ∈ posGet m k ∨ (j = i ∧ k ∈ ks) := by
  induction ks generalizing m with
  | nil => simp
  | cons c cs ih =>
    rw [List.foldl_cons, ih, posGet_posAppend]
    by_cases h : c = k
    · subst h
      simp only [if_true, List.mem_append, List.mem_singleton, List.mem_cons, true_or, and_true]
      tauto
    · simp only [h, if_false, List.mem_cons]
      have : ¬ k = c := fun e => h e.symm
      tauto

theorem buildStep_context (idx : Index) (i : Nat) (t : Task) (j : Nat) (k : Str) :
    j ∈ posGet (idx.buildStep i t).ContextIndex k ↔
      j ∈ posGet idx.ContextIndex k ∨ (j = i ∧ k ∈ t.Contexts) := by
  have h := mem_posGet_foldl t.Contexts.dedup idx.ContextIndex i j k
  rw [List.mem_dedup] at h
  unfold Index.buildStep
  by_cases hp : t.Priority ≠ [] <;> cases hc : t.IsComplete <;> simpa [hp, hc] using h

theorem buildStep_project (idx : Index) (i : Nat) (t : Task) (j : Nat) (k : Str) :
    j ∈ posGet (idx.buildStep i t).ProjectIndex k ↔
      j ∈ posGet idx.ProjectIndex k ∨ (j = i ∧ k ∈ t.Projects) := by
  have h := mem_posGet_foldl t.Projects.dedup idx.ProjectIndex i j k
  rw [List.mem_dedup] at h
  unfold Index.buildStep
  by_cases hp : t.Priority ≠ [] <;> cases hc : t.IsComplete <;> simpa [hp, hc] using h

theorem buildStep_priority (idx : Index) (i : Nat) (t : Task) (j : Nat) (k : Str) :
    j ∈ posGet (idx.buildStep i t).PriorityIndex k ↔
      j ∈ posGet idx.PriorityIndex k ∨ (j = i ∧ t.Priority ≠ [] ∧ k = t.Priority) := by
  unfold Index.buildStep
  by_cases hp : t.Priority = [] <;> cases hc : t.IsComplete
  · simp [hp, hc]
  · simp [hp, hc]
  · simp only [ne_eq, hp, not_false_eq_true, if_true, hc, Bool.false_eq_true, if_false,
      posGet_posAppend, true_and]
    by_cases hk : t.Priority = k
    · subst hk; simp
    · have : ¬ k = t.Priority := fun e => hk e.symm
      simp [hk, this]
  · simp only [ne_eq, hp, not_false_eq_true, if_true, hc, posGet_posAppend, true_and]
    by_cases hk : t.Priority = k
    · subst hk; simp
    · have : ¬ k = t.Priority := fun e => hk e.symm
      simp [hk, this]

theorem buildStep_completed (idx : Index) (i : Nat) (t : Task) (j : Nat) :
    j ∈ (idx.buildStep i t).CompletedIdx ↔
      j ∈ idx.CompletedIdx ∨ (j = i ∧ t.Completed = true) := by
  unfold Index.buildStep
  by_cases hp : t.Priority ≠ [] <;> cases hc : t.Completed <;>
    simp [hp, hc, Task.IsComplete]

theorem buildStep_active (idx : Index) (i : Nat) (t : Task) (j : Nat) :
    j ∈ (idx.buildStep i t).ActiveIdx ↔
      j ∈ idx.ActiveIdx ∨ (j = i ∧ t.Completed = false) := by
  unfold Index.buildStep
  by_cases hp : t.Priority ≠ [] <;> cases hc : t.Completed <;>
    simp [hp, hc, Task.IsComplete]

/-- What the loop of `Build` adds to a structure of the index, when a step
adds the position of a task exactly if the task has the property `P`. -/
theorem buildLoop_mem (sel : Index → List Nat) (P : Task → Prop)
    (hstep : ∀ idx i t j, j ∈ sel (Index.buildStep idx i t) ↔ j ∈ sel idx ∨ (j = i ∧ P t))
    (tasks : List Task) (s : Nat) (idx : Index) (j : Nat) :
    j ∈ sel (Index.buildLoop tasks s idx) ↔
      j ∈ sel idx ∨ ∃ n t, tasks[n]? = some t ∧ j = s + n ∧ P t := by
  induction tasks generalizing s idx with
  | nil => simp [Index.buildLoop]
  | cons t rest ih =>
    rw [Index.buildLoop, ih, hstep]
    constructor
    · rintro ((h | ⟨rfl, hp⟩) | ⟨n, t', hn, rfl, hp⟩)
      · exact Or.inl h
      · exact Or.inr ⟨0, t, by simp, rfl, hp⟩
      · exact Or.inr ⟨n + 1, t', by simpa using hn, by omega, hp⟩
    · rintro (h | ⟨n, t', hn, rfl, hp⟩)
      · exact Or.inl (Or.inl h)
      · cases n with
        | zero =>
          simp only [List.getElem?_cons_zero, Option.some.injEq] at hn
          subst hn
          exact Or.inl (Or.inr ⟨rfl, hp⟩)
        | succ n =>
          exact Or.inr ⟨n, t', by simpa using hn, by omega, hp⟩

theorem exists_index_eq (tasks : List Task) (j : Nat) (P : Task → Prop) :
    (∃ n t, tasks[n]? = some t ∧ j = 0 + n ∧ P t) ↔ ∃ t, tasks[j]? = some t ∧ P t := by
  constructor
  · rintro ⟨n, t, hn, rfl, hp⟩
    exact ⟨t, by simpa using hn, hp⟩
  · rintro ⟨t, ht, hp⟩
    exact ⟨j, t, ht, by omega, hp⟩

theorem Build_mem (idx0 : Index) (tasks : List Task) (j : Nat) :
    (∀ k, j ∈ posGet (idx0.Build tasks).PriorityIndex k ↔
      ∃ t, tasks[j]? = some t ∧ t.Priority ≠ [] ∧ k = t.Priority) ∧
    (∀ k, j ∈ posGet (idx0.Build tasks).ContextIndex k ↔
      ∃ t, tasks[j]? = some t ∧ k ∈ t.Contexts) ∧
    (∀ k, j ∈ posGet (idx0.Build tasks).ProjectIndex k ↔
      ∃ t, tasks[j]? = some t ∧ k ∈ t.Projects) ∧
    (j ∈ (idx0.Build tasks).CompletedIdx ↔ ∃ t, tasks[j]? = some t ∧ t.Completed = true) ∧
    (j ∈ (idx0.Build tasks).ActiveIdx ↔ ∃ t, tasks[j]? = some t ∧ t.Completed = false) := by
  unfold Index.Build
  refine ⟨fun k => ?_, fun k => ?_, fun k => ?_, ?_, ?_⟩
  · rw [buildLoop_mem (fun idx => posGet idx.PriorityIndex k)
      (fun t => t.Priority ≠ [] ∧ k = t.Priority)
      (fun idx i t j => buildStep_priority idx i t j k)]
    simp only [posGet, List.not_mem_nil, false_or]
    exact exists_index_eq tasks j _
  · rw [buildLoop_mem (fun idx => posGet idx.ContextIndex k) (fun t => k ∈ t.Contexts)
      (fun idx i t j => buildStep_context idx i t j k)]
    simp only [posGet, List.not_mem_nil, false_or]
    exact exists_index_eq tasks j _
  · rw [buildLoop_mem (fun idx => posGet idx.ProjectIndex k) (fun t => k ∈ t.Projects)
      (fun idx i t j => buildStep_project idx i t j k)]
    simp only [posGet, List.not_mem_nil, false_or]
    exact exists_index_eq tasks j _
  · rw [buildLoop_mem (fun idx => idx.CompletedIdx) (fun t => t.Completed = true)
      buildStep_completed]
    simp only [List.not_mem_nil, false_or]
    exact exists_index_eq tasks j _
  · rw [buildLoop_mem (fun idx => idx.ActiveIdx) (fun t => t.Completed = false)
      buildStep_active]
    simp only [List.not_mem_nil, false_or]
    exact exists_index_eq tasks j _

/-- C21: after `Build(tasks)`, for every position `i` and task `t = tasks[i]`,
`i` is in `CompletedIdx` if `t` is completed and in `ActiveIdx` otherwise, `i`
is in `ContextIndex[c]` for every context `c` of `t` and in `ProjectIndex[p]`
for every project `p` of `t`, and `i` is in `PriorityIndex[t.Priority]` when
the priority is not empty. -/
theorem Build_complete (idx0 : Index) (tasks : List Task) (i : Nat) (t : Task)
    (h : tasks[i]? = some t) :
    (t.Completed = true → i ∈ (idx0.Build tasks).GetCompleted) ∧
    (t.Completed = false → i ∈ (idx0.Build tasks).GetActive) ∧
    (∀ c ∈ t.Contexts, i ∈ (idx0.Build tasks).GetByContext c) ∧
    (∀ p ∈ t.Projects, i ∈ (idx0.Build tasks).GetByProject p) ∧
    (t.Priority ≠ [] → i ∈ (idx0.Build tasks).GetByPriority t.Priority) := by
  obtain ⟨h1, h2, h3, h4, h5⟩ := Build_mem idx0 tasks i
  refine ⟨fun hc => h4.2 ⟨t, h, hc⟩, fun hc => h5.2 ⟨t, h, hc⟩,
    fun c hc => (h2 c).2 ⟨t, h, hc⟩, fun p hp => (h3 p).2 ⟨t, h, hp⟩,
    fun hp => (h1 _).2 ⟨t, h, hp, rfl⟩⟩

/-- C21 at position 1 of three tasks. -/
theorem Build_complete_witness :
    (openTask.Completed = true → 1 ∈ (NewIndex.Build [workTask, openTask, doneTask]).GetCompleted) ∧
    (openTask.Completed = false → 1 ∈ (NewIndex.Build [workTask, openTask, doneTask]).GetActive) ∧
    (∀ c ∈ openTask.Contexts, 1 ∈ (NewIndex.Build [workTask, openTask, doneTask]).GetByContext c) ∧
    (∀ p ∈ openTask.Projects, 1 ∈ (NewIndex.Build [workTask, openTask, doneTask]).GetByProject p) ∧
    (openTask.Priority ≠ [] →
      1 ∈ (NewIndex.Build [workTask, openTask, doneTask]).GetByPriority openTask.Priority) :=
  Build_complete NewIndex [workTask, openTask, doneTask] 1 openTask rfl

/-- C22: the index that `Build(tasks)` produces depends only on the tasks: it
is the same from any two previous indexes, so building twice in a row, or
after building from any other list, gives the five structures that one build
on a fresh index gives. -/
theorem Build_history_free (idx idx' : Index) (tasks others : List Task) :
    idx.Build tasks = idx'.Build tasks ∧
    (idx.Build tasks).Build tasks = NewIndex.Build tasks ∧
    (idx.Build others).Build tasks = NewIndex.Build tasks ∧
    (idx.Build tasks).Build tasks = idx.Build tasks :=
  ⟨rfl, rfl, rfl, rfl⟩

/-! ## Theorems: the loops of `sort` -/

theorem selectPass_length (should : Task → Task → Bool) (cur : Task) (rest : List Task) :
    (selectPass should cur rest).2.length = rest.length := by
  induction rest generalizing cur with
  | nil => rfl
  | cons y ys ih =>
    unfold selectPass
    split_ifs <;> simp [ih]

theorem sortInner_eq (should : Task → Task → Bool) (pre : List Task) (todo : List Task) :
    ∀ (cur : Task) (done : List Task),
      sortInner should pre.length todo.length (pre.length + 1 + done.length)
        (pre ++ cur :: (done ++ todo)) =
      pre ++ (selectPass should cur todo).1 :: (done ++ (selectPass should cur todo).2) := by
  induction todo with
  | nil => intro cur done; simp [sortInner, selectPass]
  | cons y ys ih =>
    intro cur done
    have hi : (pre ++ cur :: (done ++ y :: ys))[pre.length]? = some cur := by
      rw [List.getElem?_append_right (Nat.le_refl _), Nat.sub_self, List.getElem?_cons_zero]
    have hj : (pre ++ cur :: (done ++ y :: ys))[pre.length + 1 + done.length]? = some y := by
      rw [List.getElem?_append_right (by omega)]
      have : pre.length + 1 + done.length - pre.length = done.length + 1 := by omega
      rw [this, List.getElem?_cons_succ, List.getElem?_append_right (Nat.le_refl _)]
      simp
    rw [List.length_cons, sortInner, hi, hj]
    simp only
    by_cases hs : should cur y = true
    · have hset : ((pre ++ cur :: (done ++ y :: ys)).set pre.length y).set
          (pre.length + 1 + done.length) cur = pre ++ y :: ((done ++ [cur]) ++ ys) := by
        rw [List.set_append_right _ _ (Nat.le_refl _), Nat.sub_self, List.set_cons_zero,
          List.set_append_right _ _ (by omega)]
        have : pre.length + 1 + done.length - pre.length = done.length + 1 := by omega
        rw [this, List.set_cons_succ, List.set_append_right _ _ (Nat.le_refl _), Nat.sub_self,
          List.set_cons_zero]
        simp
      rw [if_pos hs, hset]
      have := ih y (done ++ [cur])
      rw [List.length_append, List.length_singleton, ← Nat.add_assoc] at this
      rw [this, selectPass, if_pos hs]
      simp
    · rw [if_neg hs]
      have hv : pre ++ cur :: (done ++ y :: ys) = pre ++ cur :: ((done ++ [y]) ++ ys) := by simp
      rw [hv]
      have := ih cur (done ++ [y])
      rw [List.length_append, List.length_singleton, ← Nat.add_assoc] at this
      rw [this, selectPass, if_neg hs]
      simp

theorem sortInner_zero (should : Task → Task → Bool) (i j : Nat) (v : List Task) :
    sortInner should i 0 j v = v := rfl

theorem sortOuter_of_ge (should : Task → Task → Bool) (n i : Nat) (v : List Task)
    (h : v.length ≤ i + 1) : sortOuter should n i v = v := by
  induction n generalizing i with
  | zero => rfl
  | succ n ih =>
    have h0 : v.length - (i + 1) = 0 := by omega
    rw [sortOuter, h0, sortInner_zero]
    exact ih (i + 1) (by omega)

theorem selectSort_of_short (should : Task → Task → Bool) (n : Nat) (l : List Task)
    (h : l.length ≤ 1) : selectSort should n l = l := by
  induction n generalizing l with
  | zero => rfl
  | succ n ih =>
    match l, h with
    | [], _ => rfl
    | [x], _ =>
      rw [selectSort]
      simp only [selectPass]
      rw [ih [] (by simp)]
    | _ :: _ :: _, h => simp at h

theorem sortOuter_eq (should : Task → Task → Bool) (n : Nat) :
    ∀ (pre l : List Task),
      sortOuter should n pre.length (pre ++ l) = pre ++ selectSort should n l := by
  induction n with
  | zero => intro pre l; rfl
  | succ n ih =>
    intro pre l
    cases l with
    | nil =>
      rw [List.append_nil, sortOuter_of_ge _ _ _ _ (by omega), selectSort, List.append_nil]
    | cons x rest =>
      have hlen : (pre ++ x :: rest).length - (pre.length + 1) = rest.length := by
        rw [List.length_append, List.length_cons]
        omega
      have hin := sortInner_eq should pre rest x []
      simp only [List.length_nil, Nat.add_zero, List.nil_append] at hin
      rw [sortOuter, hlen, hin]
      have := ih (pre ++ [(selectPass should x rest).1]) (selectPass should x rest).2
      simp only [List.length_append, List.length_singleton, List.append_assoc,
        List.singleton_append] at this
      rw [this, selectSort]

/-- The two loops of `sort` compute `selectSort`. -/
theorem sortSlice_eq (should : Task → Task → Bool) (v : List Task) :
    sortSlice should v = selectSort should (v.length - 1) v := by
  have := sortOuter_eq should (v.length - 1) [] v
  simpa [sortSlice] using this

theorem selectPass_perm (should : Task → Task → Bool) (cur : Task) (rest : List Task) :
    ((selectPass should cur rest).1 :: (selectPass should cur rest).2).Perm (cur :: rest) := by
  induction rest generalizing cur with
  | nil => exact List.Perm.refl _
  | cons y ys ih =>
    unfold selectPass
    split_ifs
    · exact (List.Perm.swap _ _ _).trans ((ih y).cons cur)
    · exact ((List.Perm.swap _ _ _).trans ((ih cur).cons y)).trans (List.Perm.swap _ _ _)

theorem selectSort_perm (should : Task → Task → Bool) (n : Nat) (l : List Task) :
    (selectSort should n l).Perm l := by
  induction n generalizing l with
  | zero => exact List.Perm.refl _
  | succ n ih =>
    cases l with
    | nil => exact List.Perm.refl _
    | cons x rest =>
      rw [selectSort]
      exact ((ih _).cons _).trans (selectPass_perm should x rest)

theorem selectPass_min (should : Task → Task → Bool) (h : StrictWeak should) (cur : Task)
    (rest : List Task) :
    should (selectPass should cur rest).1 cur = false ∧
    ∀ z ∈ (selectPass should cur rest).2, should (selectPass should cur rest).1 z = false := by
  have hrefl : ∀ a, should a a = false := by
    intro a
    cases hs : should a a
    · rfl
    · have := h.1 a a hs
      rw [hs] at this
      exact absurd this (by decide)
  induction rest generalizing cur with
  | nil => exact ⟨hrefl cur, by simp [selectPass]⟩
  | cons y ys ih =>
    unfold selectPass
    by_cases hs : should cur y = true
    · rw [if_pos hs]
      obtain ⟨h1, h2⟩ := ih y
      have hc : should (selectPass should y ys).1 cur = false :=
        h.2 _ y cur h1 (h.1 cur y hs)
      refine ⟨hc, ?_⟩
      intro z hz
      rcases List.mem_cons.1 hz with rfl | hz
      · exact hc
      · exact h2 z hz
    · rw [if_neg hs]
      obtain ⟨h1, h2⟩ := ih cur
      refine ⟨h1, ?_⟩
      intro z hz
      rcases List.mem_cons.1 hz with rfl | hz
      · exact h.2 _ cur z h1 (by simpa using hs)
      · exact h2 z hz

theorem selectSort_sorted (should : Task → Task → Bool) (h : StrictWeak should) (n : Nat) :
    ∀ l : List Task, l.length ≤ n + 1 →
      (selectSort should n l).Pairwise (fun a b => should a b = false) := by
  induction n with
  | zero =>
    intro l hl
    match l, hl with
    | [], _ => exact List.Pairwise.nil
    | [x], _ => exact List.pairwise_singleton _ _
    | _ :: _ :: _, hl => simp at hl
  | succ n ih =>
    intro l hl
    cases l with
    | nil => exact List.Pairwise.nil
    | cons x rest =>
      rw [selectSort]
      refine List.Pairwise.cons ?_ (ih _ ?_)
      · intro z hz
        exact (selectPass_min should h x rest).2 z ((selectSort_perm should n _).subset hz)
      · rw [selectPass_length]
        simpa using hl

theorem sortSlice_perm (should : Task → Task → Bool) (v : List Task) :
    (sortSlice should v).Perm v := by
  rw [sortSlice_eq]
  exact selectSort_perm should _ v

theorem sortSlice_sorted (should : Task → Task → Bool) (h : StrictWeak should) (v : List Task) :
    (sortSlice should v).Pairwise (fun a b => should a b = false) := by
  rw [sortSlice_eq]
  exact selectSort_sorted should h _ v (by omega)

/-! ## Theorems: the comparators of `shouldSwap` -/

theorem bytesLess_asymm (a : Bytes) : ∀ b, bytesLess a b = true → bytesLess b a = false := by
  induction a with
  | nil =>
    intro b h
    cases b <;> simp [bytesLess] at h ⊢
  | cons x xs ih =>
    intro b h
    cases b with
    | nil => simp [bytesLess] at h
    | cons y ys =>
      unfold bytesLess at h ⊢
      split_ifs at h ⊢
      all_goals first
        | omega
        | rfl
        | exact ih ys h

theorem bytesLess_negtrans (a : Bytes) :
    ∀ b c, bytesLess a b = false → bytesLess b c = false → bytesLess a c = false := by
  induction a with
  | nil =>
    intro b c h1 h2
    cases b with
    | nil => exact h2
    | cons y ys => simp [bytesLess] at h1
  | cons x xs ih =>
    intro b c h1 h2
    cases c with
    | nil => simp [bytesLess]
    | cons z zs =>
      cases b with
      | nil => simp [bytesLess] at h2
      | cons y ys =>
        unfold bytesLess at h1 h2 ⊢
        split_ifs at h1 h2 ⊢ with p1 p2 p3 p4 p5 p6
        all_goals first
          | omega
          | rfl
          | exact ih ys zs h1 h2

theorem bytesLess_strictWeak : StrictWeak bytesLess :=
  ⟨bytesLess_asymm, bytesLess_negtrans⟩

theorem StrictWeak.comap {α β : Type} {lt : β → β → Bool} (h : StrictWeak lt) (f : α → β) :
    StrictWeak (fun a b => lt (f a) (f b)) :=
  ⟨fun a b => h.1 (f a) (f b), fun a b c => h.2 (f a) (f b) (f c)⟩

theorem StrictWeak.flip {α : Type} {lt : α → α → Bool} (h : StrictWeak lt) :
    StrictWeak (fun a b => lt b a) :=
  ⟨fun a b => h.1 b a, fun a b c h1 h2 => h.2 c b a h2 h1⟩

theorem StrictWeak.irrefl {α : Type} {lt : α → α → Bool} (h : StrictWeak lt) (a : α) :
    lt a a = false := by
  cases hs : lt a a
  · rfl
  · have := h.1 a a hs
    rw [hs] at this
    exact absurd this (by decide)

theorem Before_strictWeak : StrictWeak Date.Before := by
  constructor
  · intro a b h
    simp only [Date.Before, decide_eq_true_eq, decide_eq_false_iff_not] at h ⊢
    omega
  · intro a b c h1 h2
    simp only [Date.Before, decide_eq_false_iff_not] at h1 h2 ⊢
    omega

theorem strLess_strictWeak : StrictWeak strLess := bytesLess_strictWeak.comap utf8

theorem priorityBefore_strictWeak :
    StrictWeak (fun p q : Str => decide ((p ≠ [] ∧ q = []) ∨
      (p ≠ [] ∧ q ≠ [] ∧ strLess p q = true))) := by
  constructor
  · intro a b h
    simp only [decide_eq_true_eq, decide_eq_false_iff_not] at h ⊢
    rintro (⟨hb, ha⟩ | ⟨hb, ha, hlt⟩)
    · rcases h with ⟨h1, h2⟩ | ⟨h1, h2, -⟩
      · exact hb h2
      · exact h1 ha
    · rcases h with ⟨h1, h2⟩ | ⟨h1, h2, h3⟩
      · exact hb h2
      · have := strLess_strictWeak.1 a b h3
        rw [hlt] at this
        exact absurd this (by decide)
  · intro a b c h1 h2
    simp only [decide_eq_false_iff_not] at h1 h2 ⊢
    rintro (⟨ha, hc⟩ | ⟨ha, hc, hlt⟩)
    · by_cases hb : b = []
      · exact h1 (Or.inl ⟨ha, hb⟩)
      · exact h2 (Or.inl ⟨hb, hc⟩)
    · by_cases hb : b = []
      · exact h1 (Or.inl ⟨ha, hb⟩)
      · have hab : strLess a b = false := by
          cases h : strLess a b
          · rfl
          · exact absurd (Or.inr ⟨ha, hb, h⟩) h1
        have hbc : strLess b c = false := by
          cases h : strLess b c
          · rfl
          · exact absurd (Or.inr ⟨hb, hc, h⟩) h2
        have := strLess_strictWeak.2 a b c hab hbc
        rw [hlt] at this
        exact absurd this (by decide)

theorem comesBefore_strictWeak (field : SortCriteria) : StrictWeak (comesBefore field) := by
  unfold comesBefore
  by_cases h1 : field = SortPriority
  · simp only [h1, if_true]
    exact priorityBefore_strictWeak.comap (fun t : Task => t.Priority)
  by_cases h2 : field = SortCreationDate
  · simp only [h1, h2, if_true, if_false]
    exact Before_strictWeak.comap (fun t : Task => t.CreationDate)
  by_cases h3 : field = SortCompletionDate
  · simp only [h1, h2, h3, if_true, if_false]
    exact Before_strictWeak.comap (fun t : Task => t.CompletionDate)
  by_cases h4 : field = SortDescription
  · simp only [h1, h2, h3, h4, if_true, if_false]
    exact strLess_strictWeak.comap (fun t : Task => t.Description)
  · simp only [h1, h2, h3, h4, if_false]
    exact ⟨fun _ _ _ => rfl, fun _ _ _ _ _ => rfl⟩

theorem cmp_sign (lt gt : Bool) (desc : Prop) [Decidable desc] (h : lt = true → gt = false) :
    decide ((if desc then -(if lt = true then (-1 : Int) else if gt = true then 1 else 0)
      else (if lt = true then (-1 : Int) else if gt = true then 1 else 0)) > 0) =
    if desc then lt else gt := by
  cases lt <;> cases gt <;> by_cases hd : desc <;> simp [hd] at h ⊢

theorem shouldSwap_eq (tl : TaskList) (a b : Task) :
    tl.shouldSwap a b =
      if tl.SortOrder = SortDescending then comesBefore tl.SortBy a b
      else comesBefore tl.SortBy b a := by
  unfold TaskList.shouldSwap comesBefore
  by_cases h1 : tl.SortBy = SortPriority
  · simp only [h1, if_true]
    have hnil : strLess [] [] = false := by decide
    have hasym := strLess_strictWeak.1 a.Priority b.Priority
    have hasym' := strLess_strictWeak.1 b.Priority a.Priority
    by_cases ha : a.Priority = [] <;> by_cases hb : b.Priority = [] <;>
      by_cases hd : tl.SortOrder = SortDescending <;>
      cases hab : strLess a.Priority b.Priority <;>
      cases hba : strLess b.Priority a.Priority <;>
      simp [ha, hb, hd, hab, hba, hnil] at hasym hasym' ⊢ <;>
      simp_all
  by_cases h2 : tl.SortBy = SortCreationDate
  · simp only [h1, h2, if_true, if_false, Date.After]
    exact cmp_sign _ _ _ (Before_strictWeak.1 _ _)
  by_cases h3 : tl.SortBy = SortCompletionDate
  · simp only [h1, h2, h3, if_true, if_false, Date.After]
    exact cmp_sign _ _ _ (Before_strictWeak.1 _ _)
  by_cases h4 : tl.SortBy = SortDescription
  · simp only [h1, h2, h3, h4, if_true, if_false]
    exact cmp_sign _ _ _ (strLess_strictWeak.1 _ _)
  · simp [h1, h2, h3, h4]

theorem shouldSwap_strictWeak (tl : TaskList) : StrictWeak tl.shouldSwap := by
  have h := comesBefore_strictWeak tl.SortBy
  have e : tl.shouldSwap = fun a b =>
      if tl.SortOrder = SortDescending then comesBefore tl.SortBy a b
      else comesBefore tl.SortBy b a := by
    funext a b
    exact shouldSwap_eq tl a b
  rw [e]
  by_cases hd : tl.SortOrder = SortDescending
  · simp only [hd, if_true]
    exact h
  · simp only [hd, if_false]
    exact h.flip

/-! ## Theorems: the task view -/

theorem adjustScrollOffset_eq (tl : TaskList) :
    tl.adjustScrollOffset =
      { tl with ScrollOffset :=
          adjustedOffset tl.SelectedIndex tl.ScrollOffset tl.ViewportSize } := by
  unfold TaskList.adjustScrollOffset adjustedOffset
  split_ifs <;> first | rfl | simp [*]

theorem sort_eq (tl : TaskList) :
    tl.sort = if tl.SortBy = SortNone then tl else
      { tl with
        VisibleTasks := sortSlice tl.shouldSwap tl.VisibleTasks
        AllTasks := if tl.shared then sortSlice tl.shouldSwap tl.VisibleTasks
          else tl.AllTasks } := rfl

/-- C27: `SetSort(SortNone, direction)` leaves `VisibleTasks`, and every
field other than the two sort settings, as it was, for every direction. -/
theorem SetSort_none (tl : TaskList) (order : TodoTxt.SortOrder) :
    (tl.SetSort SortNone order).VisibleTasks = tl.VisibleTasks ∧
    tl.SetSort SortNone order = { tl with SortBy := SortNone, SortOrder := order } := by
  constructor <;> simp [TaskList.SetSort, TaskList.sort]

/-- C25: the code at the failing input.  Sorting the three tasks by priority
moves the task `two` in front of the task `one`, although both have the
priority `B` and `one` came first. -/
theorem sort_is_not_stable :
    threeTasks.map (fun t => t.Description) = ["one".toList, "two".toList, "three".toList] ∧
    ((NewTaskList threeTasks).SetSort SortPriority SortAscending).VisibleTasks.map
      (fun t => t.Description) = ["three".toList, "two".toList, "one".toList] ∧
    (NewTaskList threeTasks).shouldSwap (plainTask "B".toList "one".toList)
      (plainTask "B".toList "two".toList) = false ∧
    (NewTaskList threeTasks).shouldSwap (plainTask "B".toList "two".toList)
      (plainTask "B".toList "one".toList) = false := by
  refine ⟨by decide, by decide, by decide, by decide⟩

/-- C23: the code at the failing input.  After a filter that hides the only
task has been added and the filters have been cleared, the visible subset has
one task and `SelectedIndex` is -1. -/
theorem selection_stays_negative :
    Reachable (((NewTaskList [plainTask [] "one".toList]).AddFilter priorityZ).ClearFilters) ∧
    (((NewTaskList [plainTask [] "one".toList]).AddFilter priorityZ).ClearFilters).VisibleTasks =
      [plainTask [] "one".toList] ∧
    (((NewTaskList [plainTask [] "one".toList]).AddFilter priorityZ).ClearFilters).VisibleCount
      = 1 ∧
    (((NewTaskList [plainTask [] "one".toList]).AddFilter priorityZ).ClearFilters).SelectedIndex
      = -1 := by
  refine ⟨Reachable.clearFilters (Reachable.addFilter _ (Reachable.newTaskList _ (by decide))),
    by decide, by decide, by decide⟩

theorem ApplyFilters_fields (tl : TaskList) :
    (tl.ApplyFilters).VisibleTasks =
      (if tl.SortBy = SortNone then Apply tl.AllTasks tl.ActiveFilters tl.FilterLogic
       else sortSlice tl.shouldSwap (Apply tl.AllTasks tl.ActiveFilters tl.FilterLogic)) ∧
    (tl.ApplyFilters).AllTasks =
      (if tl.SortBy = SortNone then tl.AllTasks
       else if applyReturnsInput tl.ActiveFilters = true then
         sortSlice tl.shouldSwap (Apply tl.AllTasks tl.ActiveFilters tl.FilterLogic)
       else tl.AllTasks) ∧
    (tl.ApplyFilters).ActiveFilters = tl.ActiveFilters ∧
    (tl.ApplyFilters).FilterLogic = tl.FilterLogic ∧
    (tl.ApplyFilters).SortBy = tl.SortBy ∧
    (tl.ApplyFilters).SortOrder = tl.SortOrder ∧
    (tl.ApplyFilters).VisibleCount =
      ((Apply tl.AllTasks tl.ActiveFilters tl.FilterLogic).length : Int) ∧
    (tl.ApplyFilters).TotalCount = tl.TotalCount ∧
    (tl.ApplyFilters).ViewportSize = tl.ViewportSize ∧
    (tl.ApplyFilters).index = tl.index ∧
    (tl.ApplyFilters).shared = applyReturnsInput tl.ActiveFilters := by
  unfold TaskList.ApplyFilters
  simp only [adjustScrollOffset_eq, sort_eq]
  by_cases hs : tl.SortBy = SortNone
  · simp only [hs, if_true]
    split_ifs <;> simp
  · simp only [hs, if_false]
    split_ifs <;> simp_all <;> rfl

theorem applyReturnsInput_iff (criteria : List FilterCriteria) :
    applyReturnsInput criteria = true ↔ criteria.filter (fun c => c.Enabled) = [] := by
  unfold applyReturnsInput
  rw [collectInto_eq]
  simp only [List.nil_append, List.length_eq_zero, Bool.or_eq_true, decide_eq_true_eq]
  constructor
  · rintro (h | h)
    · rw [h]; rfl
    · exact h
  · intro h
    exact Or.inr h

theorem sortSlice_length (should : Task → Task → Bool) (v : List Task) :
    (sortSlice should v).length = v.length :=
  (sortSlice_perm should v).length_eq

theorem ApplyFilters_consistent (tl : TaskList) : ViewConsistent tl.ApplyFilters := by
  obtain ⟨hv, ha, hf, hl, hs, -, hc, -⟩ := ApplyFilters_fields tl
  unfold ViewConsistent
  rw [hv, ha, hf, hl, hs, hc]
  by_cases hn : tl.SortBy = SortNone
  · rw [if_pos hn, if_pos hn]
    exact ⟨List.Perm.refl _, fun _ => rfl, rfl⟩
  · simp only [if_neg hn]
    refine ⟨?_, fun h => absurd h hn, by rw [sortSlice_length]⟩
    by_cases hr : applyReturnsInput tl.ActiveFilters = true
    · have hnone := (applyReturnsInput_iff _).1 hr
      simp only [hr, if_true]
      rw [Apply_of_none_enabled _ _ _ hnone, Apply_of_none_enabled _ _ _ hnone]
    · simp only [hr, if_false]
      exact sortSlice_perm _ _

/-- C24: after `ApplyFilters`, and so after `AddFilter`, `RemoveFilter`,
`ClearFilters` and `Refresh`, `VisibleTasks` is a permutation of
`Apply(AllTasks, ActiveFilters, FilterLogic)`, is that list itself when the
sort field is `SortNone`, and `VisibleCount` is its length; after `Refresh`
`TotalCount` is the length of `AllTasks`; `AddFilter` appends its argument to
the filter list, `RemoveFilter` removes every filter of the given kind, and
`ClearFilters` empties the list. -/
theorem view_is_filtered_collection (tl : TaskList) (f : FilterCriteria) (k : FilterType) :
    ViewConsistent tl.ApplyFilters ∧
    ViewConsistent (tl.AddFilter f) ∧
    ViewConsistent (tl.RemoveFilter k) ∧
    ViewConsistent tl.ClearFilters ∧
    ViewConsistent tl.Refresh ∧
    (tl.Refresh).TotalCount = ((tl.Refresh).AllTasks.length : Int) ∧
    (tl.AddFilter f).ActiveFilters = tl.ActiveFilters ++ [f] ∧
    (tl.RemoveFilter k).ActiveFilters = tl.ActiveFilters.filter (fun c => decide (c.Kind ≠ k)) ∧
    (tl.ClearFilters).ActiveFilters = [] := by
  refine ⟨ApplyFilters_consistent _, ApplyFilters_consistent _, ApplyFilters_consistent _,
    ApplyFilters_consistent _, ApplyFilters_consistent _, ?_, ?_, ?_, ?_⟩
  · unfold TaskList.Refresh
    obtain ⟨-, ha, -, -, -, -, -, ht, -⟩ := ApplyFilters_fields
      { tl with TotalCount := tl.AllTasks.length,
                index := tl.index.Build tl.AllTasks }
    simp only at ha ht ⊢
    rw [ha, ht]
    split_ifs with h1 h2
    · rfl
    · rw [sortSlice_length, Apply_of_none_enabled _ _ _ ((applyReturnsInput_iff _).1 h2)]
    · rfl
  · exact (ApplyFilters_fields _).2.2.1
  · rw [TaskList.RemoveFilter, (ApplyFilters_fields _).2.2.1, collectInto_eq]
    rfl
  · exact (ApplyFilters_fields _).2.2.1

theorem wrapInt_of_IsInt64 (x : Int) (h : IsInt64 x) : wrapInt x = x := by
  unfold IsInt64 at h
  unfold wrapInt
  omega

theorem SetSort_VisibleTasks (tl : TaskList) (field : SortCriteria)
    (order : TodoTxt.SortOrder) (hf : field ≠ SortNone) :
    (tl.SetSort field order).VisibleTasks =
      sortSlice (fun a b => if order = SortDescending then comesBefore field a b
        else comesBefore field b a) tl.VisibleTasks := by
  unfold TaskList.SetSort
  rw [sort_eq, if_neg hf]
  show sortSlice _ tl.VisibleTasks = _
  congr 1
  funext a b
  exact shouldSwap_eq _ a b

/-- C26 (amended): for a sort field other than `SortNone`, `SetSort` leaves
`VisibleTasks` a permutation of what it was, in which no task comes strictly
before a task that stands earlier in the list (for the descending direction:
strictly after), for adjacent pairs and for all pairs.  The comparator is the
one of the field: for priority, a task with a priority before one without,
two priorities in byte order; for the dates, chronological order, where the
zero date is 0001-01-01 and no date from the year 1 on is before it; for the
description, byte order. -/
theorem SetSort_sorts (tl : TaskList) (field : SortCriteria) (order : TodoTxt.SortOrder)
    (hf : field ≠ SortNone) :
    (tl.SetSort field order).VisibleTasks.Perm tl.VisibleTasks ∧
    (tl.SetSort field order).VisibleTasks.Pairwise
      (fun a b => (if order = SortDescending then comesBefore field a b
        else comesBefore field b a) = false) ∧
    (tl.SetSort field order).VisibleTasks.Chain'
      (fun a b => (if order = SortDescending then comesBefore field a b
        else comesBefore field b a) = false) ∧
    (∀ d : Date, 1 ≤ d.year → 1 ≤ d.month → 1 ≤ d.day → d.Before Date.zero = false) := by
  have hsw : StrictWeak (fun a b => if order = SortDescending then comesBefore field a b
      else comesBefore field b a) := by
    by_cases ho : order = SortDescending
    · simp only [if_pos ho]
      exact comesBefore_strictWeak field
    · simp only [if_neg ho]
      exact (comesBefore_strictWeak field).flip
  rw [SetSort_VisibleTasks tl field order hf]
  have hp := sortSlice_sorted _ hsw tl.VisibleTasks
  refine ⟨sortSlice_perm _ _, hp, List.Pairwise.chain' hp, ?_⟩
  intro d hy hm hd
  simp only [Date.Before, Date.zero, decide_eq_false_iff_not]
  omega

/-- C26 at the three tasks, sorted by priority, ascending. -/
theorem SetSort_sorts_witness :
    ((NewTaskList threeTasks).SetSort SortPriority SortAscending).VisibleTasks.Perm
      (NewTaskList threeTasks).VisibleTasks ∧
    ((NewTaskList threeTasks).SetSort SortPriority SortAscending).VisibleTasks.Pairwise
      (fun a b => (if SortAscending = SortDescending then comesBefore SortPriority a b
        else comesBefore SortPriority b a) = false) ∧
    ((NewTaskList threeTasks).SetSort SortPriority SortAscending).VisibleTasks.Chain'
      (fun a b => (if SortAscending = SortDescending then comesBefore SortPriority a b
        else comesBefore SortPriority b a) = false) ∧
    (∀ d : Date, 1 ≤ d.year → 1 ≤ d.month → 1 ≤ d.day → d.Before Date.zero = false) :=
  SetSort_sorts (NewTaskList threeTasks) SortPriority SortAscending (by decide)

/-- C26, counterexample: the line `0000-06-01 Old` parses to a task whose
creation date is in the year 0; sorted by creation date, ascending, it comes
before a task whose creation date is the zero date, which is therefore not
the earliest. -/
theorem zero_date_not_earliest :
    ParseLine "0000-06-01 Old".toList 2 = .ok yearZeroTask ∧
    ParseLine "Undated".toList 1 = .ok undatedTask ∧
    undatedTask.CreationDate = Date.zero ∧
    yearZeroTask.CreationDate.Before undatedTask.CreationDate = true ∧
    ((NewTaskList [undatedTask, yearZeroTask]).SetSort SortCreationDate
      SortAscending).VisibleTasks = [yearZeroTask, undatedTask] := by
  refine ⟨by decide, by decide, by decide, by decide, by decide⟩

theorem tmod_small (a n : Int) (h0 : 0 ≤ a) (h1 : a < n) : Int.tmod a n = a := by
  rw [Int.tmod_eq_emod h0 (by omega)]
  exact Int.emod_eq_of_lt h0 h1

theorem tmod_self_pos (n : Int) (h : 0 < n) : Int.tmod n n = 0 := by
  rw [Int.tmod_eq_emod (by omega) (by omega)]
  exact Int.emod_self

theorem adjustScrollOffset_SelectedIndex (tl : TaskList) :
    (tl.adjustScrollOffset).SelectedIndex = tl.SelectedIndex := by
  rw [adjustScrollOffset_eq]

theorem adjustScrollOffset_VisibleCount (tl : TaskList) :
    (tl.adjustScrollOffset).VisibleCount = tl.VisibleCount := by
  rw [adjustScrollOffset_eq]

theorem SelectNext_SelectedIndex (tl : TaskList) (hn : 0 < tl.VisibleCount)
    (hmax : tl.VisibleCount ≤ 9223372036854775807)
    (h0 : 0 ≤ tl.SelectedIndex) (h1 : tl.SelectedIndex ≤ tl.VisibleCount - 1) :
    (tl.SelectNext).SelectedIndex =
      (if tl.SelectedIndex + 1 = tl.VisibleCount then 0 else tl.SelectedIndex + 1) ∧
    (tl.SelectNext).VisibleCount = tl.VisibleCount := by
  unfold TaskList.SelectNext
  rw [if_neg (by omega), adjustScrollOffset_SelectedIndex, adjustScrollOffset_VisibleCount]
  refine ⟨?_, rfl⟩
  show Int.tmod (wrapInt (tl.SelectedIndex + 1)) tl.VisibleCount = _
  rw [wrapInt_of_IsInt64 _ (by unfold IsInt64; omega)]
  split_ifs with h
  · rw [h]
    exact tmod_self_pos _ hn
  · exact tmod_small _ _ (by omega) (by omega)

theorem SelectPrev_SelectedIndex (tl : TaskList) (hn : 0 < tl.VisibleCount)
    (hmax : tl.VisibleCount ≤ 9223372036854775807)
    (h0 : 0 ≤ tl.SelectedIndex) (h1 : tl.SelectedIndex ≤ tl.VisibleCount - 1) :
    (tl.SelectPrev).SelectedIndex =
      (if tl.SelectedIndex = 0 then tl.VisibleCount - 1 else tl.SelectedIndex - 1) := by
  unfold TaskList.SelectPrev
  rw [if_neg (by omega)]
  simp only [adjustScrollOffset_SelectedIndex]
  rw [wrapInt_of_IsInt64 (tl.SelectedIndex - 1) (by unfold IsInt64; omega)]
  by_cases h : tl.SelectedIndex = 0
  · rw [if_pos h, if_pos (by omega)]
    exact wrapInt_of_IsInt64 _ (by unfold IsInt64; omega)
  · rw [if_neg h, if_neg (by omega)]

/-- C28: with `n > 0` visible tasks and the selection at `i`, `0 ≤ i ≤ n-1`,
`SelectNext` sets the selection to `(i+1) mod n` and `SelectPrev` to
`(i-1+n) mod n`, so that `SelectPrev` after `SelectNext` gives `i` again and
`SelectNext` from `n-1` gives 0; `SelectFirst` sets it to 0 and `SelectLast`
to `n-1`.  With no visible task `SelectNext` and `SelectPrev` set the
selection to -1. -/
theorem selection_wraps (tl : TaskList) (hn : 0 < tl.VisibleCount)
    (hmax : tl.VisibleCount ≤ 9223372036854775807)
    (h0 : 0 ≤ tl.SelectedIndex) (h1 : tl.SelectedIndex ≤ tl.VisibleCount - 1) :
    (tl.SelectNext).SelectedIndex = (tl.SelectedIndex + 1) % tl.VisibleCount ∧
    (tl.SelectPrev).SelectedIndex =
      (tl.SelectedIndex - 1 + tl.VisibleCount) % tl.VisibleCount ∧
    (tl.SelectNext.SelectPrev).SelectedIndex = tl.SelectedIndex ∧
    (tl.SelectedIndex = tl.VisibleCount - 1 → (tl.SelectNext).SelectedIndex = 0) ∧
    (tl.SelectFirst).SelectedIndex = 0 ∧
    (tl.SelectLast).SelectedIndex = tl.VisibleCount - 1 ∧
    (∀ e : TaskList, e.VisibleCount = 0 →
      (e.SelectNext).SelectedIndex = -1 ∧ (e.SelectPrev).SelectedIndex = -1) := by
  obtain ⟨hnext, hcount⟩ := SelectNext_SelectedIndex tl hn hmax h0 h1
  have hprev := SelectPrev_SelectedIndex tl hn hmax h0 h1
  refine ⟨?_, ?_, ?_, ?_, ?_, ?_, ?_⟩
  · rw [hnext]
    split_ifs with h
    · rw [h, Int.emod_self]
    · exact (Int.emod_eq_of_lt (by omega) (by omega)).symm
  · rw [hprev]
    split_ifs with h
    · rw [h, show (0 : Int) - 1 + tl.VisibleCount = tl.VisibleCount - 1 by omega]
      exact (Int.emod_eq_of_lt (by omega) (by omega)).symm
    · rw [Int.add_emod_self]
      exact (Int.emod_eq_of_lt (by omega) (by omega)).symm
  · have h0' : 0 ≤ (tl.SelectNext).SelectedIndex := by
      rw [hnext]; split_ifs <;> omega
    have h1' : (tl.SelectNext).SelectedIndex ≤ (tl.SelectNext).VisibleCount - 1 := by
      rw [hnext, hcount]; split_ifs <;> omega
    rw [SelectPrev_SelectedIndex tl.SelectNext (by rw [hcount]; exact hn)
      (by rw [hcount]; exact hmax) h0' h1', hnext, hcount]
    split_ifs <;> omega
  · intro h
    rw [hnext, if_pos (by omega)]
  · unfold TaskList.SelectFirst
    rw [if_pos hn, adjustScrollOffset_SelectedIndex]
  · unfold TaskList.SelectLast
    rw [if_pos hn, adjustScrollOffset_SelectedIndex]
    exact wrapInt_of_IsInt64 _ (by unfold IsInt64; omega)
  · intro e he
    unfold TaskList.SelectNext TaskList.SelectPrev
    rw [if_pos he, if_pos he]
    exact ⟨rfl, rfl⟩

/-- C28 at three tasks with the last one selected: `SelectNext` selects the
first. -/
theorem selection_wraps_witness :
    ((NewTaskList threeTasks).SelectLast.SelectNext).SelectedIndex =
      ((NewTaskList threeTasks).SelectLast.SelectedIndex + 1) %
        (NewTaskList threeTasks).SelectLast.VisibleCount ∧
    (NewTaskList threeTasks).SelectLast.SelectedIndex = 2 ∧
    ((NewTaskList threeTasks).SelectLast.SelectNext).SelectedIndex = 0 :=
  ⟨(selection_wraps (NewTaskList threeTasks).SelectLast (by decide) (by decide) (by decide)
    (by decide)).1, by decide, by decide⟩

theorem adjustedOffset_spec (sel off vs : Int) (hs : -1 ≤ sel)
    (hs' : sel ≤ 9223372036854775807) (ho : -1 ≤ off) (ho' : off ≤ 9223372036854775807)
    (hv : 1 ≤ vs) (hv' : vs ≤ 9223372036854775807) :
    -1 ≤ adjustedOffset sel off vs ∧ adjustedOffset sel off vs ≤ 9223372036854775807 ∧
    adjustedOffset sel off vs ≤ sel ∧ sel < adjustedOffset sel off vs + vs := by
  unfold adjustedOffset wrapInt
  split_ifs <;> omega

theorem adjustScrollOffset_wellFormed (tl : TaskList) (h : WellFormed tl) :
    WellFormed tl.adjustScrollOffset ∧ InViewport tl.adjustScrollOffset := by
  obtain ⟨h1, h2, h3, h4, h5, h6, h7, h8, h9⟩ := h
  have hs' : tl.SelectedIndex ≤ 9223372036854775807 := by omega
  obtain ⟨a, b, c, d⟩ := adjustedOffset_spec _ _ _ h4 hs' h6 h7 h8 h9
  rw [adjustScrollOffset_eq]
  exact ⟨⟨h1, h2, h3, h4, h5, a, b, h8, h9⟩, c, d⟩

theorem Apply_length_le (tasks : List Task) (criteria : List FilterCriteria)
    (logic : FilterLogic) : (Apply tasks criteria logic).length ≤ tasks.length := by
  by_cases h : criteria.filter (fun c => c.Enabled) = []
  · rw [Apply_of_none_enabled _ _ _ h]
  · rw [Apply_of_enabled _ _ _ h]
    split_ifs <;> exact List.length_filter_le _ _

theorem ApplyFilters_selection (tl : TaskList) :
    (tl.ApplyFilters).SelectedIndex =
      (if tl.SelectedIndex ≥ ((Apply tl.AllTasks tl.ActiveFilters tl.FilterLogic).length : Int)
       then
        if ((Apply tl.AllTasks tl.ActiveFilters tl.FilterLogic).length : Int) > 0 then
          wrapInt (((Apply tl.AllTasks tl.ActiveFilters tl.FilterLogic).length : Int) - 1)
        else -1
       else tl.SelectedIndex) ∧
    (tl.ApplyFilters).ScrollOffset =
      adjustedOffset (tl.ApplyFilters).SelectedIndex tl.ScrollOffset tl.ViewportSize := by
  unfold TaskList.ApplyFilters
  simp only [adjustScrollOffset_eq, sort_eq]
  by_cases hs : tl.SortBy = SortNone
  · simp only [hs, if_true]
    split_ifs <;> simp
  · simp only [hs, if_false]
    split_ifs <;> simp

theorem ApplyFilters_wellFormed (tl : TaskList) (h : WellFormed tl) :
    WellFormed tl.ApplyFilters ∧ InViewport tl.ApplyFilters := by
  obtain ⟨h1, h2, h3, h4, h5, h6, h7, h8, h9⟩ := h
  obtain ⟨hv, ha, -, -, -, -, hc, -, hvs, -⟩ := ApplyFilters_fields tl
  obtain ⟨hsel, hoff⟩ := ApplyFilters_selection tl
  have hle := Apply_length_le tl.AllTasks tl.ActiveFilters tl.FilterLogic
  have hlen : ((tl.ApplyFilters).VisibleTasks.length : Int) =
      ((Apply tl.AllTasks tl.ActiveFilters tl.FilterLogic).length : Int) := by
    rw [hv]
    split_ifs
    · rfl
    · rw [sortSlice_length]
  have hall : ((tl.ApplyFilters).AllTasks.length : Int) ≤ 9223372036854775807 := by
    rw [ha]
    split_ifs
    · exact h1
    · rw [sortSlice_length]; omega
    · exact h1
  have hs1 : -1 ≤ (tl.ApplyFilters).SelectedIndex := by
    rw [hsel]; unfold wrapInt; split_ifs <;> omega
  have hs2 : (tl.ApplyFilters).SelectedIndex ≤ 0 ∨
      (tl.ApplyFilters).SelectedIndex < (tl.ApplyFilters).VisibleCount := by
    rw [hsel, hc]; unfold wrapInt; split_ifs <;> omega
  have hs3 : (tl.ApplyFilters).SelectedIndex ≤ 9223372036854775807 := by
    rw [hc] at hs2; omega
  obtain ⟨a, b, c, d⟩ := adjustedOffset_spec _ _ _ hs1 hs3 h6 h7 h8 h9
  refine ⟨⟨hall, ?_, ?_, hs1, hs2, ?_, ?_, ?_, ?_⟩, ?_, ?_⟩
  · rw [hc, hlen]
  · rw [hc]; omega
  · rw [hoff]; exact a
  · rw [hoff]; exact b
  · rw [hvs]; exact h8
  · rw [hvs]; exact h9
  · rw [hoff]; exact c
  · rw [hoff, hvs]; exact d

theorem tmod_bounds (a n : Int) (h0 : 0 ≤ a) (hn : 0 < n) :
    0 ≤ Int.tmod a n ∧ Int.tmod a n < n := by
  rw [Int.tmod_eq_emod h0 (by omega)]
  exact ⟨Int.emod_nonneg _ (by omega), Int.emod_lt_of_pos _ hn⟩

theorem SelectNext_wellFormed (tl : TaskList) (h : WellFormed tl) :
    WellFormed tl.SelectNext ∧ (0 < tl.VisibleCount → InViewport tl.SelectNext) := by
  have h' := h
  obtain ⟨h1, h2, h3, h4, h5, h6, h7, h8, h9⟩ := h'
  unfold TaskList.SelectNext
  by_cases hz : tl.VisibleCount = 0
  · rw [if_pos hz]
    refine ⟨⟨h1, h2, h3, ?_, ?_, h6, h7, h8, h9⟩, fun hp => absurd hz (by omega)⟩
    · show (-1 : Int) ≤ -1
      omega
    · left
      show (-1 : Int) ≤ 0
      omega
  · rw [if_neg hz]
    have hpos : 0 < tl.VisibleCount := by omega
    have hw : wrapInt (tl.SelectedIndex + 1) = tl.SelectedIndex + 1 :=
      wrapInt_of_IsInt64 _ (by unfold IsInt64; omega)
    obtain ⟨b0, b1⟩ := tmod_bounds (tl.SelectedIndex + 1) tl.VisibleCount (by omega) hpos
    have := adjustScrollOffset_wellFormed
      { tl with SelectedIndex := Int.tmod (wrapInt (tl.SelectedIndex + 1)) tl.VisibleCount }
      ⟨h1, h2, h3, by rw [hw]; show (-1 : Int) ≤ Int.tmod _ _; omega,
        Or.inr (by rw [hw]; exact b1), h6, h7, h8, h9⟩
    exact ⟨this.1, fun _ => this.2⟩

theorem SelectPrev_wellFormed (tl : TaskList) (h : WellFormed tl) :
    WellFormed tl.SelectPrev ∧ (0 < tl.VisibleCount → InViewport tl.SelectPrev) := by
  have h' := h
  obtain ⟨h1, h2, h3, h4, h5, h6, h7, h8, h9⟩ := h'
  unfold TaskList.SelectPrev
  by_cases hz : tl.VisibleCount = 0
  · rw [if_pos hz]
    refine ⟨⟨h1, h2, h3, ?_, ?_, h6, h7, h8, h9⟩, fun hp => absurd hz (by omega)⟩
    · show (-1 : Int) ≤ -1
      omega
    · left
      show (-1 : Int) ≤ 0
      omega
  · rw [if_neg hz]
    have hpos : 0 < tl.VisibleCount := by omega
    have hw : wrapInt (tl.SelectedIndex - 1) = tl.SelectedIndex - 1 :=
      wrapInt_of_IsInt64 _ (by unfold IsInt64; omega)
    have hw2 : wrapInt (tl.VisibleCount - 1) = tl.VisibleCount - 1 :=
      wrapInt_of_IsInt64 _ (by unfold IsInt64; omega)
    simp only [hw, hw2]
    by_cases hneg : tl.SelectedIndex - 1 < 0
    · rw [if_pos hneg]
      have := adjustScrollOffset_wellFormed
        { tl with SelectedIndex := tl.VisibleCount - 1 }
        ⟨h1, h2, h3, by show (-1 : Int) ≤ tl.VisibleCount - 1; omega,
          Or.inr (by show tl.VisibleCount - 1 < tl.VisibleCount; omega), h6, h7, h8, h9⟩
      exact ⟨this.1, fun _ => this.2⟩
    · rw [if_neg hneg]
      have := adjustScrollOffset_wellFormed
        { tl with SelectedIndex := tl.SelectedIndex - 1 }
        ⟨h1, h2, h3, by show (-1 : Int) ≤ tl.SelectedIndex - 1; omega,
          Or.inr (by show tl.SelectedIndex - 1 < tl.VisibleCount; omega), h6, h7, h8, h9⟩
      exact ⟨this.1, fun _ => this.2⟩

theorem SelectFirst_wellFormed (tl : TaskList) (h : WellFormed tl) :
    WellFormed tl.SelectFirst ∧ (0 < tl.VisibleCount → InViewport tl.SelectFirst) := by
  have h' := h
  obtain ⟨h1, h2, h3, h4, h5, h6, h7, h8, h9⟩ := h'
  unfold TaskList.SelectFirst
  by_cases hp : tl.VisibleCount > 0
  · rw [if_pos hp]
    have := adjustScrollOffset_wellFormed { tl with SelectedIndex := 0 }
      ⟨h1, h2, h3, by show (-1 : Int) ≤ 0; omega, Or.inl (Int.le_refl 0), h6, h7, h8, h9⟩
    exact ⟨this.1, fun _ => this.2⟩
  · rw [if_neg hp]
    exact ⟨h, fun hp' => absurd hp' hp⟩

theorem SelectLast_wellFormed (tl : TaskList) (h : WellFormed tl) :
    WellFormed tl.SelectLast ∧ (0 < tl.VisibleCount → InViewport tl.SelectLast) := by
  have h' := h
  obtain ⟨h1, h2, h3, h4, h5, h6, h7, h8, h9⟩ := h'
  unfold TaskList.SelectLast
  by_cases hp : tl.VisibleCount > 0
  · rw [if_pos hp]
    have hw2 : wrapInt (tl.VisibleCount - 1) = tl.VisibleCount - 1 :=
      wrapInt_of_IsInt64 _ (by unfold IsInt64; omega)
    rw [hw2]
    have := adjustScrollOffset_wellFormed { tl with SelectedIndex := tl.VisibleCount - 1 }
      ⟨h1, h2, h3, by show (-1 : Int) ≤ tl.VisibleCount - 1; omega,
        Or.inr (by show tl.VisibleCount - 1 < tl.VisibleCount; omega), h6, h7, h8, h9⟩
    exact ⟨this.1, fun _ => this.2⟩
  · rw [if_neg hp]
    exact ⟨h, fun hp' => absurd hp' hp⟩

theorem SetViewportSize_wellFormed (tl : TaskList) (size : Int) (hs : IsInt64 size)
    (h : WellFormed tl) :
    WellFormed (tl.SetViewportSize size) ∧ (0 < size → InViewport (tl.SetViewportSize size)) := by
  have h' := h
  obtain ⟨h1, h2, h3, h4, h5, h6, h7, h8, h9⟩ := h'
  unfold TaskList.SetViewportSize
  by_cases hp : size > 0
  · rw [if_pos hp]
    have := adjustScrollOffset_wellFormed { tl with ViewportSize := size }
      ⟨h1, h2, h3, h4, h5, h6, h7, by show 1 ≤ size; omega, hs.2⟩
    exact ⟨this.1, fun _ => this.2⟩
  · rw [if_neg hp]
    exact ⟨h, fun hp' => absurd hp' hp⟩

theorem ScrollDown_eq (tl : TaskList) (h : WellFormed tl) :
    tl.ScrollDown = { tl with ScrollOffset :=
      if tl.ScrollOffset + 1 ≤ max 0 (tl.VisibleCount - tl.ViewportSize)
      then tl.ScrollOffset + 1 else tl.ScrollOffset } := by
  obtain ⟨h1, h2, h3, h4, h5, h6, h7, h8, h9⟩ := h
  have hc : 0 ≤ tl.VisibleCount := by omega
  unfold TaskList.ScrollDown
  have hw : wrapInt (tl.VisibleCount - tl.ViewportSize) = tl.VisibleCount - tl.ViewportSize :=
    wrapInt_of_IsInt64 _ (by unfold IsInt64; omega)
  simp only [hw]
  by_cases hneg : tl.VisibleCount - tl.ViewportSize < 0
  · have hm : max 0 (tl.VisibleCount - tl.ViewportSize) = 0 := by omega
    rw [if_pos hneg, hm]
    by_cases hlt : tl.ScrollOffset < 0
    · rw [if_pos hlt, if_pos (by omega), wrapInt_of_IsInt64 _ (by unfold IsInt64; omega)]
    · rw [if_neg hlt, if_neg (by omega)]
  · have hm : max 0 (tl.VisibleCount - tl.ViewportSize) = tl.VisibleCount - tl.ViewportSize := by
      omega
    rw [if_neg hneg, hm]
    by_cases hlt : tl.ScrollOffset < tl.VisibleCount - tl.ViewportSize
    · rw [if_pos hlt, if_pos (by omega), wrapInt_of_IsInt64 _ (by unfold IsInt64; omega)]
    · rw [if_neg hlt, if_neg (by omega)]

theorem ScrollUp_eq (tl : TaskList) (h : WellFormed tl) :
    tl.ScrollUp = { tl with ScrollOffset :=
      if 0 ≤ tl.ScrollOffset - 1 then tl.ScrollOffset - 1 else tl.ScrollOffset } := by
  obtain ⟨h1, h2, h3, h4, h5, h6, h7, h8, h9⟩ := h
  unfold TaskList.ScrollUp
  by_cases hp : tl.ScrollOffset > 0
  · rw [if_pos hp, if_pos (by omega), wrapInt_of_IsInt64 _ (by unfold IsInt64; omega)]
  · rw [if_neg hp, if_neg (by omega)]

theorem ScrollDown_wellFormed (tl : TaskList) (h : WellFormed tl) : WellFormed tl.ScrollDown := by
  rw [ScrollDown_eq tl h]
  obtain ⟨h1, h2, h3, h4, h5, h6, h7, h8, h9⟩ := h
  refine ⟨h1, h2, h3, h4, h5, ?_, ?_, h8, h9⟩
  · dsimp only
    split_ifs <;> omega
  · dsimp only
    split_ifs <;> omega

theorem ScrollUp_wellFormed (tl : TaskList) (h : WellFormed tl) : WellFormed tl.ScrollUp := by
  rw [ScrollUp_eq tl h]
  obtain ⟨h1, h2, h3, h4, h5, h6, h7, h8, h9⟩ := h
  refine ⟨h1, h2, h3, h4, h5, ?_, ?_, h8, h9⟩
  · dsimp only
    split_ifs <;> omega
  · dsimp only
    split_ifs <;> omega

theorem SetSort_wellFormed (tl : TaskList) (field : SortCriteria) (order : TodoTxt.SortOrder)
    (h : WellFormed tl) : WellFormed (tl.SetSort field order) := by
  obtain ⟨h1, h2, h3, h4, h5, h6, h7, h8, h9⟩ := h
  unfold TaskList.SetSort
  rw [sort_eq]
  by_cases hn : field = SortNone
  · rw [if_pos hn]
    exact ⟨h1, h2, h3, h4, h5, h6, h7, h8, h9⟩
  · rw [if_neg hn]
    refine ⟨?_, ?_, h3, h4, h5, h6, h7, h8, h9⟩
    · show ((if tl.shared = true then sortSlice _ tl.VisibleTasks else tl.AllTasks).length : Int)
        ≤ _
      split_ifs
      · rw [sortSlice_length]; omega
      · exact h1
    · show tl.VisibleCount = ((sortSlice _ tl.VisibleTasks).length : Int)
      rw [sortSlice_length]
      exact h2

theorem Reachable.wellFormed {tl : TaskList} (h : Reachable tl) : WellFormed tl := by
  induction h with
  | newTaskList tasks h =>
    refine ⟨h, rfl, h, ?_, ?_, ?_, ?_, ?_, ?_⟩ <;> simp [NewTaskList]
  | applyFilters _ ih => exact (ApplyFilters_wellFormed _ ih).1
  | addFilter f _ ih =>
    unfold TaskList.AddFilter
    refine (ApplyFilters_wellFormed _ ?_).1
    exact ih
  | removeFilter k _ ih =>
    unfold TaskList.RemoveFilter
    refine (ApplyFilters_wellFormed _ ?_).1
    exact ih
  | clearFilters _ ih =>
    unfold TaskList.ClearFilters
    refine (ApplyFilters_wellFormed _ ?_).1
    exact ih
  | setSort sortBy order _ ih => exact SetSort_wellFormed _ _ _ ih
  | selectNext _ ih => exact (SelectNext_wellFormed _ ih).1
  | selectPrev _ ih => exact (SelectPrev_wellFormed _ ih).1
  | selectFirst _ ih => exact (SelectFirst_wellFormed _ ih).1
  | selectLast _ ih => exact (SelectLast_wellFormed _ ih).1
  | scrollDown _ ih => exact ScrollDown_wellFormed _ ih
  | scrollUp _ ih => exact ScrollUp_wellFormed _ ih
  | setViewportSize size hs _ ih => exact (SetViewportSize_wellFormed _ size hs ih).1
  | refresh _ ih =>
    unfold TaskList.Refresh
    dsimp only
    refine (ApplyFilters_wellFormed _ ?_).1
    exact ih

/-- C30 (amended): in every reachable state `ScrollDown` adds 1 to
`ScrollOffset` exactly when the result is at most
`max(0, VisibleCount - ViewportSize)`, `ScrollUp` subtracts 1 exactly when the
result is at least 0, neither changes any other field, and a `ScrollOffset`
that lies in `[0, max(0, VisibleCount - ViewportSize)]` before the call lies
in it afterwards. -/
theorem scroll_by_one_row (tl : TaskList) (h : Reachable tl) :
    tl.ScrollDown = { tl with ScrollOffset :=
      if tl.ScrollOffset + 1 ≤ max 0 (tl.VisibleCount - tl.ViewportSize)
      then tl.ScrollOffset + 1 else tl.ScrollOffset } ∧
    tl.ScrollUp = { tl with ScrollOffset :=
      if 0 ≤ tl.ScrollOffset - 1 then tl.ScrollOffset - 1 else tl.ScrollOffset } ∧
    (0 ≤ tl.ScrollOffset ∧ tl.ScrollOffset ≤ max 0 (tl.VisibleCount - tl.ViewportSize) →
      (0 ≤ (tl.ScrollDown).ScrollOffset ∧
        (tl.ScrollDown).ScrollOffset ≤
          max 0 ((tl.ScrollDown).VisibleCount - (tl.ScrollDown).ViewportSize)) ∧
      (0 ≤ (tl.ScrollUp).ScrollOffset ∧
        (tl.ScrollUp).ScrollOffset ≤
          max 0 ((tl.ScrollUp).VisibleCount - (tl.ScrollUp).ViewportSize))) := by
  have hw := h.wellFormed
  refine ⟨ScrollDown_eq tl hw, ScrollUp_eq tl hw, ?_⟩
  rintro ⟨h0, h1⟩
  rw [ScrollDown_eq tl hw, ScrollUp_eq tl hw]
  dsimp only
  refine ⟨⟨?_, ?_⟩, ?_, ?_⟩ <;> split_ifs <;> omega

/-- C30 at three tasks in a viewport of one row: `ScrollDown` moves the
offset from 0 to 1. -/
theorem scroll_by_one_row_witness :
    oneRow.ScrollDown = { oneRow with ScrollOffset :=
      if oneRow.ScrollOffset + 1 ≤ max 0 (oneRow.VisibleCount - oneRow.ViewportSize)
      then oneRow.ScrollOffset + 1 else oneRow.ScrollOffset } ∧
    (oneRow.ScrollDown).ScrollOffset = 1 :=
  ⟨(scroll_by_one_row oneRow (Reachable.setViewportSize 1 ⟨by decide, by decide⟩
      (Reachable.newTaskList threeTasks (by decide)))).1, by decide⟩

/-- C30, counterexample: with three tasks, the last one selected in a
viewport of one row and the viewport then grown to ten rows, the offset is 2;
`ScrollUp` makes it 1 and `ScrollDown` leaves it at 2, both above
`max(0, VisibleCount - ViewportSize) = 0`. -/
theorem scroll_offset_above_maximum :
    Reachable grownViewport ∧
    grownViewport.ScrollOffset = 2 ∧
    (grownViewport.ScrollUp).ScrollOffset = 1 ∧
    (grownViewport.ScrollDown).ScrollOffset = 2 ∧
    max 0 ((grownViewport.ScrollUp).VisibleCount - (grownViewport.ScrollUp).ViewportSize) = 0 ∧
    max 0 ((grownViewport.ScrollDown).VisibleCount - (grownViewport.ScrollDown).ViewportSize)
      = 0 := by
  refine ⟨Reachable.setViewportSize 10 ⟨by decide, by decide⟩ (Reachable.selectLast
    (Reachable.setViewportSize 1 ⟨by decide, by decide⟩
      (Reachable.newTaskList threeTasks (by decide)))), by decide, by decide, by decide,
    by decide, by decide⟩

/-! ## Theorems: the viewport accessors -/

/-- C31: the code at the failing input.  One task and a filter that hides it
form a reachable state with no visible task and the offset -1, in which
`GetVisibleTasks` evaluates `VisibleTasks[-1:0]` and panics; `GetSelectedTask`
returns nil there. -/
theorem GetVisibleTasks_panics :
    Reachable hiddenAll ∧
    hiddenAll.VisibleTasks = [] ∧ hiddenAll.VisibleCount = 0 ∧
    hiddenAll.SelectedIndex = -1 ∧ hiddenAll.ScrollOffset = -1 ∧
    hiddenAll.GetVisibleTasks = .error "runtime error: slice bounds out of range".toList ∧
    hiddenAll.GetSelectedTask = .ok none := by
  refine ⟨Reachable.addFilter _ (Reachable.newTaskList _ (by decide)), by decide, by decide,
    by decide, by decide, by decide, by decide⟩

/-- C35: the code at the failing input.  In the state that `NewTaskList`
produces, `VisibleTasks` and `AllTasks` are one slice, and `SetSort` by
priority rearranges `AllTasks` as well: from `one, two, three` to
`three, two, one`. -/
theorem SetSort_reorders_AllTasks :
    (NewTaskList threeTasks).AllTasks.map (fun t => t.Description) =
      ["one".toList, "two".toList, "three".toList] ∧
    ((NewTaskList threeTasks).SetSort SortPriority SortAscending).AllTasks.map
      (fun t => t.Description) = ["three".toList, "two".toList, "one".toList] ∧
    ((NewTaskList threeTasks).SetSort SortPriority SortAscending).AllTasks ≠
      (NewTaskList threeTasks).AllTasks := by
  refine ⟨by decide, by decide, by decide⟩

/-! ## Theorems: the invariants of a task under the mutators -/

theorem TaskInvariant_of_fields (t u : Task) (h : TaskInvariant t)
    (hp : u.Priority = t.Priority) (hc : u.Completed = t.Completed)
    (hd : u.CompletionDate = t.CompletionDate) : TaskInvariant u := by
  unfold TaskInvariant at h ⊢
  rw [hp, hc, hd]
  exact h

theorem SetPriority_invariant (t : Task) (p : Str) (h : TaskInvariant t) :
    TaskInvariant (t.SetPriority p).2 := by
  obtain ⟨hiff, hok, herr⟩ := SetPriority_result t p
  by_cases he : (t.SetPriority p).1 = none
  · rw [hok he]
    exact ⟨hiff.1 he, h.2⟩
  · rw [herr he]
    exact h

/-- C36: a task whose priority is empty or one character in A-Z and that is
completed exactly when its completion date is not zero has both properties
after `SetPriority` (successful or not), `AddContext`, `RemoveContext`,
`AddProject`, `RemoveProject`, `Complete(d)` for any `d` (the current date,
which replaces a zero `d`, is not zero) and `Uncomplete`; `Complete(d)` with
`d` not zero sets the completion date to `d`, and `Uncomplete` clears the
completed flag and the completion date. -/
theorem mutators_preserve_invariants (t : Task) (now : Date) (h : TaskInvariant t)
    (hnow : now ≠ Date.zero) :
    (∀ p, TaskInvariant (t.SetPriority p).2) ∧
    (∀ c, TaskInvariant (t.AddContext c).2) ∧
    (∀ c, TaskInvariant (t.RemoveContext c)) ∧
    (∀ p, TaskInvariant (t.AddProject p).2) ∧
    (∀ p, TaskInvariant (t.RemoveProject p)) ∧
    (∀ d, TaskInvariant (Task.Complete now t d)) ∧
    TaskInvariant t.Uncomplete ∧
    (∀ d, d ≠ Date.zero →
      (Task.Complete now t d).Completed = true ∧ (Task.Complete now t d).CompletionDate = d) ∧
    (Task.Complete now t Date.zero).CompletionDate = now ∧
    t.Uncomplete.Completed = false ∧ t.Uncomplete.CompletionDate = Date.zero := by
  refine ⟨fun p => SetPriority_invariant t p h, ?_, ?_, ?_, ?_, ?_, ?_, ?_, ?_, rfl, rfl⟩
  · intro c
    refine TaskInvariant_of_fields t _ h ?_ ?_ ?_ <;>
      (unfold Task.AddContext; split_ifs <;> rfl)
  · intro c
    refine TaskInvariant_of_fields t _ h ?_ ?_ ?_ <;>
      (unfold Task.RemoveContext; split_ifs <;> rfl)
  · intro p
    refine TaskInvariant_of_fields t _ h ?_ ?_ ?_ <;>
      (unfold Task.AddProject; split_ifs <;> rfl)
  · intro p
    refine TaskInvariant_of_fields t _ h ?_ ?_ ?_ <;>
      (unfold Task.RemoveProject; split_ifs <;> rfl)
  · intro d
    refine ⟨h.1, ?_⟩
    by_cases hd : d = Date.zero
    · simp [Task.Complete, Date.IsZero, hd, hnow]
    · simp [Task.Complete, Date.IsZero, hd]
  · exact ⟨h.1, by simp [Task.Uncomplete]⟩
  · intro d hd
    simp [Task.Complete, Date.IsZero, hd]
  · simp [Task.Complete, Date.IsZero]

/-- C36 at an open task with a priority and at a completed task. -/
theorem mutators_preserve_invariants_witness :
    TaskInvariant (openTask.SetPriority "B".toList).2 ∧
    (openTask.SetPriority "B".toList).2.Priority = "B".toList ∧
    TaskInvariant (Task.Complete ⟨2026, 3, 1⟩ openTask Date.zero) ∧
    (Task.Complete ⟨2026, 3, 1⟩ openTask Date.zero).CompletionDate = ⟨2026, 3, 1⟩ ∧
    TaskInvariant doneTask.Uncomplete :=
  ⟨(mutators_preserve_invariants openTask ⟨2026, 3, 1⟩
      ⟨Or.inr ⟨'A', rfl, by decide⟩, by decide⟩ (by decide)).1 _,
    by decide,
    (mutators_preserve_invariants openTask ⟨2026, 3, 1⟩
      ⟨Or.inr ⟨'A', rfl, by decide⟩, by decide⟩ (by decide)).2.2.2.2.2.1 _,
    by decide,
    (mutators_preserve_invariants doneTask ⟨2026, 3, 1⟩
      ⟨Or.inr ⟨'A', rfl, by decide⟩, by decide⟩ (by decide)).2.2.2.2.2.2.1⟩

/-! ## Theorems: the dedicated filter helpers -/

theorem Apply_single (tasks : List Task) (c : FilterCriteria) (logic : FilterLogic)
    (he : c.Enabled = true) : Apply tasks [c] logic = tasks.filter (fun t => c.Matches t) := by
  unfold Apply
  simp only [collectInto_eq, List.nil_append, List.length_singleton, one_ne_zero, if_false,
    List.filter_cons, he, if_true, List.filter_nil]
  split_ifs
  · congr 1
    funext t
    cases h : c.Matches t <;> simp [matchesAll, h]
  · congr 1
    funext t
    cases h : c.Matches t <;> simp [matchesAny, h]

theorem containsIgnoreCase_nil (s : Str) : containsIgnoreCase s [] = true := by
  simp [containsIgnoreCase, containsIgnoreCaseBytes, contains, utf8, toLower]

/-- C38: for every task list and argument, `FilterByPriority`,
`FilterByContext`, `FilterByProject`, `FilterByCompletion` and `Search` return
the task sequence that `Apply` returns for the one enabled criterion of the
corresponding kind with the argument as value (`true` or `false` for the
completion flag), under the logic AND, under OR and under any other value of
the logic. -/
theorem helpers_agree_with_Apply (tasks : List Task) (logic own : FilterLogic)
    (p c pr q : Str) (b : Bool) :
    FilterByPriority tasks p = Apply tasks [⟨FilterPriority, p, true, own⟩] logic ∧
    FilterByContext tasks c = Apply tasks [⟨FilterContext, c, true, own⟩] logic ∧
    FilterByProject tasks pr = Apply tasks [⟨FilterProject, pr, true, own⟩] logic ∧
    FilterByCompletion tasks b =
      Apply tasks [⟨FilterCompleted, if b then "true".toList else "false".toList, true, own⟩]
        logic ∧
    Search tasks q = Apply tasks [⟨FilterSearch, q, true, own⟩] logic := by
  refine ⟨?_, ?_, ?_, ?_, ?_⟩
  · rw [Apply_single _ _ _ rfl, FilterByPriority, collectInto_eq, List.nil_append]
    congr 1
  · rw [Apply_single _ _ _ rfl, FilterByContext, collectInto_eq, List.nil_append]
    congr 1
  · rw [Apply_single _ _ _ rfl, FilterByProject, collectInto_eq, List.nil_append]
    congr 1
  · rw [Apply_single _ _ _ rfl, FilterByCompletion, collectInto_eq, List.nil_append]
    congr 1
    funext t
    cases b <;> cases h : t.Completed <;>
      simp [FilterCriteria.Matches, Task.IsComplete, h, FilterCompleted, FilterNone,
        FilterPriority, FilterContext, FilterProject, FilterSearch]
  · rw [Apply_single _ _ _ rfl, Search]
    by_cases hq : q = []
    · subst hq
      rw [if_pos rfl]
      symm
      rw [List.filter_eq_self]
      intro t _
      simp [FilterCriteria.Matches, FilterCompleted, FilterNone,
        FilterPriority, FilterContext, FilterProject, FilterSearch, containsIgnoreCase_nil]
    · rw [if_neg hq, collectInto_eq, List.nil_append]
      congr 1

/-! ## Theorems: the default key bindings -/

theorem tableGet_mem {κ ν : Type} [DecidableEq κ] (m : List (κ × ν)) (k : κ) (v : ν)
    (h : tableGet m k = some v) : (k, v) ∈ m := by
  induction m with
  | nil => simp [tableGet] at h
  | cons kv rest ih =>
    obtain ⟨k0, v0⟩ := kv
    unfold tableGet at h
    by_cases h0 : k0 = k
    · rw [if_pos h0] at h
      cases h
      subst h0
      exact List.mem_cons_self _ _
    · rw [if_neg h0] at h
      exact List.mem_cons_of_mem _ (ih h)

theorem documented_cases (mode : Mode) :
    mode = ModeNormal ∨ mode = ModeInsert ∨ mode = ModeDialog ∨ mode = ModeSearch ∨
      (documented mode = [] ∧ bound NewKeymap mode = []) := by
  by_cases h0 : mode = ModeNormal
  · exact Or.inl h0
  by_cases h1 : mode = ModeInsert
  · exact Or.inr (Or.inl h1)
  by_cases h2 : mode = ModeDialog
  · exact Or.inr (Or.inr (Or.inl h2))
  by_cases h3 : mode = ModeSearch
  · exact Or.inr (Or.inr (Or.inr (Or.inl h3)))
  refine Or.inr (Or.inr (Or.inr (Or.inr ⟨?_, ?_⟩)))
  · have e0 : ¬ ModeNormal = mode := fun e => h0 e.symm
    have e1 : ¬ ModeInsert = mode := fun e => h1 e.symm
    have e2 : ¬ ModeDialog = mode := fun e => h2 e.symm
    have e3 : ¬ ModeSearch = mode := fun e => h3 e.symm
    simp [documented, GetDefaultBindings, tableSet, tableGet, e0, e1, e2, e3,
      show ¬ ModeNormal = ModeInsert by decide, show ¬ ModeNormal = ModeDialog by decide,
      show ¬ ModeNormal = ModeSearch by decide, show ¬ ModeInsert = ModeDialog by decide,
      show ¬ ModeInsert = ModeSearch by decide, show ¬ ModeDialog = ModeSearch by decide]
  · have e0 : ¬ ModeNormal = mode := fun e => h0 e.symm
    have e1 : ¬ ModeInsert = mode := fun e => h1 e.symm
    have e2 : ¬ ModeDialog = mode := fun e => h2 e.symm
    have e3 : ¬ ModeSearch = mode := fun e => h3 e.symm
    simp [bound, NewKeymap, keymapImpl.ResetToDefaults, loadDefaultBindings, tableSet, tableGet,
      e0, e1, e2, e3,
      show ¬ ModeNormal = ModeInsert by decide, show ¬ ModeNormal = ModeDialog by decide,
      show ¬ ModeNormal = ModeSearch by decide, show ¬ ModeInsert = ModeDialog by decide,
      show ¬ ModeInsert = ModeSearch by decide, show ¬ ModeDialog = ModeSearch by decide]

/-- C37 (amended): for every mode and every binding that `GetDefaultBindings`
lists for it, `GetBinding` on a fresh keymap returns the listed action for the
listed key, where the listed name `space` stands for the key of one blank;
every key bound in a fresh keymap is listed for its mode in this way; and
`GetBinding` returns `ActionNone` for every mode and key that is not bound, in
every keymap. -/
theorem default_bindings_installed :
    (∀ mode, ∀ kb ∈ documented mode,
      NewKeymap.GetBinding mode (installedKey kb.Key) = kb.Action) ∧
    (∀ mode, ∀ ka ∈ bound NewKeymap mode,
      ∃ kb ∈ documented mode, installedKey kb.Key = ka.1 ∧ kb.Action = ka.2) ∧
    (∀ (km : keymapImpl) (mode : Mode) (key : Str),
      (∀ action, (key, action) ∉ bound km mode) → km.GetBinding mode key = ActionNone) := by
  refine ⟨?_, ?_, ?_⟩
  · intro mode
    rcases documented_cases mode with h | h | h | h | ⟨h, -⟩
    · subst h; decide
    · subst h; decide
    · subst h; decide
    · subst h; decide
    · rw [h]; simp
  · intro mode
    rcases documented_cases mode with h | h | h | h | ⟨-, h⟩
    · subst h; decide
    · subst h; decide
    · subst h; decide
    · subst h; decide
    · rw [h]; simp
  · intro km mode key h
    unfold keymapImpl.GetBinding
    cases hm : tableGet km.bindings mode with
    | none => rfl
    | some mb =>
      cases hk : tableGet mb key with
      | none => simp only [hk]
      | some a =>
        exfalso
        apply h a
        simp only [bound, hm, Option.getD_some]
        exact tableGet_mem _ _ _ hk

/-- C37, counterexample: the binding of the space bar is listed under the key
`space` and installed under the key of one blank, so that `GetBinding` returns
`ActionNone` for the listed key, and the bound key is not listed. -/
theorem space_binding_differs :
    (⟨"space".toList, ActionToggleTask, "Toggle task completion".toList⟩ : KeyBinding) ∈
      documented ModeNormal ∧
    NewKeymap.GetBinding ModeNormal "space".toList = ActionNone ∧
    NewKeymap.GetBinding ModeNormal " ".toList = ActionToggleTask ∧
    (∀ kb ∈ documented ModeNormal, kb.Key ≠ " ".toList) := by
  refine ⟨by decide, by decide, by decide, by decide⟩

/-! ## Theorems: soundness of the index -/

theorem IncreasingBelow.append {s : Nat} {l : List Nat} (h : IncreasingBelow s l) :
    IncreasingBelow (s + 1) (l ++ [s]) := by
  refine ⟨?_, ?_⟩
  · rw [List.pairwise_append]
    refine ⟨h.1, List.pairwise_singleton _ _, ?_⟩
    intro a ha b hb
    rw [List.mem_singleton] at hb
    subst hb
    exact h.2 a ha
  · intro j hj
    rw [List.mem_append, List.mem_singleton] at hj
    rcases hj with hj | rfl
    · exact Nat.lt_succ_of_lt (h.2 j hj)
    · exact Nat.lt_succ_self _

theorem IncreasingBelow.mono {s : Nat} {l : List Nat} (h : IncreasingBelow s l) :
    IncreasingBelow (s + 1) l :=
  ⟨h.1, fun j hj => Nat.lt_succ_of_lt (h.2 j hj)⟩

/-- What the loop of `Build` makes of a position list to which a step appends
the position of the task or nothing. -/
theorem buildLoop_increasing (sel : Index → List Nat)
    (hstep : ∀ idx i t, sel (Index.buildStep idx i t) = sel idx ++ [i] ∨
      sel (Index.buildStep idx i t) = sel idx)
    (tasks : List Task) (s : Nat) (idx : Index) (h : IncreasingBelow s (sel idx)) :
    IncreasingBelow (s + tasks.length) (sel (Index.buildLoop tasks s idx)) := by
  induction tasks generalizing s idx with
  | nil => simpa [Index.buildLoop] using h
  | cons t rest ih =>
    rw [Index.buildLoop, List.length_cons, show s + (rest.length + 1) = s + 1 + rest.length by omega]
    apply ih
    rcases hstep idx s t with e | e
    · rw [e]; exact h.append
    · rw [e]; exact h.mono

theorem buildStep_priority_eq (k : Str) (idx : Index) (i : Nat) (t : Task) :
    posGet (idx.buildStep i t).PriorityIndex k = posGet idx.PriorityIndex k ++ [i] ∨
      posGet (idx.buildStep i t).PriorityIndex k = posGet idx.PriorityIndex k := by
  unfold Index.buildStep
  by_cases hp : t.Priority = [] <;> cases hc : t.IsComplete
  · right; simp [hp, hc]
  · right; simp [hp, hc]
  · by_cases hk : t.Priority = k
    · left; subst hk; simp [hp, hc, posGet_posAppend]
    · right; simp [hp, hc, posGet_posAppend, hk]
  · by_cases hk : t.Priority = k
    · left; subst hk; simp [hp, hc, posGet_posAppend]
    · right; simp [hp, hc, posGet_posAppend, hk]

theorem buildStep_context_eq (k : Str) (idx : Index) (i : Nat) (t : Task) :
    posGet (idx.buildStep i t).ContextIndex k = posGet idx.ContextIndex k ++ [i] ∨
      posGet (idx.buildStep i t).ContextIndex k = posGet idx.ContextIndex k := by
  have h := posGet_foldl_posAppend t.Contexts.dedup (List.nodup_dedup _) idx.ContextIndex i k
  have h' : posGet (idx.buildStep i t).ContextIndex k =
      posGet (t.Contexts.dedup.foldl (fun m c => posAppend m c i) idx.ContextIndex) k := by
    unfold Index.buildStep
    by_cases hp : t.Priority ≠ [] <;> cases hc : t.IsComplete <;> simp [hp, hc]
  rw [h', h]
  split_ifs
  · exact Or.inl rfl
  · exact Or.inr rfl

theorem buildStep_project_eq (k : Str) (idx : Index) (i : Nat) (t : Task) :
    posGet (idx.buildStep i t).ProjectIndex k = posGet idx.ProjectIndex k ++ [i] ∨
      posGet (idx.buildStep i t).ProjectIndex k = posGet idx.ProjectIndex k := by
  have h := posGet_foldl_posAppend t.Projects.dedup (List.nodup_dedup _) idx.ProjectIndex i k
  have h' : posGet (idx.buildStep i t).ProjectIndex k =
      posGet (t.Projects.dedup.foldl (fun m c => posAppend m c i) idx.ProjectIndex) k := by
    unfold Index.buildStep
    by_cases hp : t.Priority ≠ [] <;> cases hc : t.IsComplete <;> simp [hp, hc]
  rw [h', h]
  split_ifs
  · exact Or.inl rfl
  · exact Or.inr rfl

theorem buildStep_completed_eq (idx : Index) (i : Nat) (t : Task) :
    (idx.buildStep i t).CompletedIdx = idx.CompletedIdx ++ [i] ∨
      (idx.buildStep i t).CompletedIdx = idx.CompletedIdx := by
  unfold Index.buildStep
  by_cases hp : t.Priority ≠ [] <;> cases hc : t.IsComplete <;> simp [hp, hc]

theorem buildStep_active_eq (idx : Index) (i : Nat) (t : Task) :
    (idx.buildStep i t).ActiveIdx = idx.ActiveIdx ++ [i] ∨
      (idx.buildStep i t).ActiveIdx = idx.ActiveIdx := by
  unfold Index.buildStep
  by_cases hp : t.Priority ≠ [] <;> cases hc : t.IsComplete <;> simp [hp, hc]

theorem posAppend_keys (m : PosMap) (k : Str) (i : Nat) :
    (posAppend m k i).map Prod.fst =
      if k ∈ m.map Prod.fst then m.map Prod.fst else m.map Prod.fst ++ [k] := by
  induction m with
  | nil => simp [posAppend]
  | cons kv rest ih =>
    obtain ⟨k0, l⟩ := kv
    unfold posAppend
    by_cases h0 : k0 = k
    · subst h0
      simp
    · have h0' : ¬ k = k0 := fun e => h0 e.symm
      rw [if_neg h0, List.map_cons, ih]
      by_cases hk : k ∈ rest.map Prod.fst
      · simp only [hk, if_true, List.map_cons, List.mem_cons, h0', false_or]
      · simp only [hk, if_false, List.map_cons, List.mem_cons, h0', false_or, List.cons_append]

theorem posAppend_wf (m : PosMap) (k : Str) (i : Nat) (h : PosMapWF m) :
    PosMapWF (posAppend m k i) := by
  refine ⟨?_, ?_⟩
  · rw [posAppend_keys]
    split_ifs with hk
    · exact h.1
    · rw [List.nodup_append]
      refine ⟨h.1, List.nodup_singleton _, ?_⟩
      intro a ha hb
      rw [List.mem_singleton] at hb
      subst hb
      exact hk ha
  · have h2 := h.2
    clear h
    induction m with
    | nil =>
      intro kl hkl
      simp only [posAppend, List.mem_singleton] at hkl
      subst hkl
      simp
    | cons kv rest ih =>
      obtain ⟨k0, l⟩ := kv
      intro kl hkl
      unfold posAppend at hkl
      by_cases h0 : k0 = k
      · rw [if_pos h0, List.mem_cons] at hkl
        rcases hkl with rfl | hkl
        · simp
        · exact h2 kl (List.mem_cons_of_mem _ hkl)
      · rw [if_neg h0, List.mem_cons] at hkl
        rcases hkl with rfl | hkl
        · exact h2 _ (List.mem_cons_self _ _)
        · exact ih (fun x hx => h2 x (List.mem_cons_of_mem _ hx)) kl hkl

theorem foldl_posAppend_wf (ks : List Str) (m : PosMap) (i : Nat) (h : PosMapWF m) :
    PosMapWF (ks.foldl (fun m c => posAppend m c i) m) := by
  induction ks generalizing m with
  | nil => exact h
  | cons c cs ih => exact ih _ (posAppend_wf m c i h)

theorem buildStep_wf (idx : Index) (i : Nat) (t : Task)
    (h : PosMapWF idx.PriorityIndex ∧ PosMapWF idx.ContextIndex ∧ PosMapWF idx.ProjectIndex) :
    PosMapWF (idx.buildStep i t).PriorityIndex ∧ PosMapWF (idx.buildStep i t).ContextIndex ∧
      PosMapWF (idx.buildStep i t).ProjectIndex := by
  obtain ⟨h1, h2, h3⟩ := h
  have a := posAppend_wf idx.PriorityIndex t.Priority i h1
  have b := foldl_posAppend_wf t.Contexts.dedup idx.ContextIndex i h2
  have c := foldl_posAppend_wf t.Projects.dedup idx.ProjectIndex i h3
  unfold Index.buildStep
  by_cases hp : t.Priority ≠ [] <;> cases hc : t.IsComplete
  · simp only [if_pos hp, Bool.false_eq_true, if_false]
    exact ⟨a, b, c⟩
  · simp only [if_pos hp, if_true]
    exact ⟨a, b, c⟩
  · simp only [if_neg hp, Bool.false_eq_true, if_false]
    exact ⟨h1, b, c⟩
  · simp only [if_neg hp, if_true]
    exact ⟨h1, b, c⟩

theorem buildLoop_wf (tasks : List Task) (s : Nat) (idx : Index)
    (h : PosMapWF idx.PriorityIndex ∧ PosMapWF idx.ContextIndex ∧ PosMapWF idx.ProjectIndex) :
    PosMapWF (Index.buildLoop tasks s idx).PriorityIndex ∧
      PosMapWF (Index.buildLoop tasks s idx).ContextIndex ∧
      PosMapWF (Index.buildLoop tasks s idx).ProjectIndex := by
  induction tasks generalizing s idx with
  | nil => exact h
  | cons t rest ih =>
    rw [Index.buildLoop]
    exact ih _ _ (buildStep_wf idx s t h)

theorem posGet_of_mem (m : PosMap) (h : (m.map Prod.fst).Nodup) (k : Str) (l : List Nat)
    (hm : (k, l) ∈ m) : posGet m k = l := by
  induction m with
  | nil => simp at hm
  | cons kv rest ih =>
    obtain ⟨k0, l0⟩ := kv
    rw [List.map_cons, List.nodup_cons] at h
    rw [List.mem_cons] at hm
    unfold posGet
    rcases hm with e | hm
    · cases e
      simp
    · have hk : k0 ≠ k := by
        rintro rfl
        exact h.1 (List.mem_map.2 ⟨(k0, l), hm, rfl⟩)
      rw [if_neg hk]
      exact ih h.2 hm

theorem Build_increasing (idx0 : Index) (tasks : List Task) :
    (∀ k, IncreasingBelow tasks.length (posGet (idx0.Build tasks).PriorityIndex k)) ∧
    (∀ k, IncreasingBelow tasks.length (posGet (idx0.Build tasks).ContextIndex k)) ∧
    (∀ k, IncreasingBelow tasks.length (posGet (idx0.Build tasks).ProjectIndex k)) ∧
    IncreasingBelow tasks.length (idx0.Build tasks).CompletedIdx ∧
    IncreasingBelow tasks.length (idx0.Build tasks).ActiveIdx := by
  have h0 : IncreasingBelow 0 [] := ⟨List.Pairwise.nil, fun j hj => absurd hj (List.not_mem_nil j)⟩
  unfold Index.Build
  refine ⟨fun k => ?_, fun k => ?_, fun k => ?_, ?_, ?_⟩
  · simpa using buildLoop_increasing (fun idx => posGet idx.PriorityIndex k)
      (buildStep_priority_eq k) tasks 0 ⟨[], [], [], [], []⟩ h0
  · simpa using buildLoop_increasing (fun idx => posGet idx.ContextIndex k)
      (buildStep_context_eq k) tasks 0 ⟨[], [], [], [], []⟩ h0
  · simpa using buildLoop_increasing (fun idx => posGet idx.ProjectIndex k)
      (buildStep_project_eq k) tasks 0 ⟨[], [], [], [], []⟩ h0
  · simpa using buildLoop_increasing (fun idx => idx.CompletedIdx)
      buildStep_completed_eq tasks 0 ⟨[], [], [], [], []⟩ h0
  · simpa using buildLoop_increasing (fun idx => idx.ActiveIdx)
      buildStep_active_eq tasks 0 ⟨[], [], [], [], []⟩ h0

theorem Build_wf (idx0 : Index) (tasks : List Task) :
    PosMapWF (idx0.Build tasks).PriorityIndex ∧ PosMapWF (idx0.Build tasks).ContextIndex ∧
      PosMapWF (idx0.Build tasks).ProjectIndex := by
  have h0 : PosMapWF [] := ⟨List.nodup_nil, fun kl hkl => absurd hkl (List.not_mem_nil kl)⟩
  unfold Index.Build
  exact buildLoop_wf tasks 0 _ ⟨h0, h0, h0⟩

/-- C40: after `Build(tasks)` every position list of the index is strictly
increasing, and every position in it is below the number of tasks and is the
position of a task with the indexed property: the priority `p` for a list of
`PriorityIndex[p]`, the context `c` for `ContextIndex[c]`, the project `p` for
`ProjectIndex[p]`, completed for `CompletedIdx` and not completed for
`ActiveIdx`.  No position is in both `CompletedIdx` and `ActiveIdx`, and every
position below the number of tasks is in one of them.  In each of the three
maps the keys are distinct, no key maps to the empty list, the getter returns
the list of a key, and the empty priority is not a key. -/
theorem Build_sound (idx0 : Index) (tasks : List Task) :
    (∀ k l, (k, l) ∈ (idx0.Build tasks).PriorityIndex →
      k ≠ [] ∧ l ≠ [] ∧ (idx0.Build tasks).GetByPriority k = l ∧
      l.Pairwise (fun a b => a < b) ∧
      ∀ i ∈ l, i < tasks.length ∧ ∃ t, tasks[i]? = some t ∧ t.Priority = k) ∧
    (∀ k l, (k, l) ∈ (idx0.Build tasks).ContextIndex →
      l ≠ [] ∧ (idx0.Build tasks).GetByContext k = l ∧
      l.Pairwise (fun a b => a < b) ∧
      ∀ i ∈ l, i < tasks.length ∧ ∃ t, tasks[i]? = some t ∧ k ∈ t.Contexts) ∧
    (∀ k l, (k, l) ∈ (idx0.Build tasks).ProjectIndex →
      l ≠ [] ∧ (idx0.Build tasks).GetByProject k = l ∧
      l.Pairwise (fun a b => a < b) ∧
      ∀ i ∈ l, i < tasks.length ∧ ∃ t, tasks[i]? = some t ∧ k ∈ t.Projects) ∧
    ((idx0.Build tasks).GetCompleted.Pairwise (fun a b => a < b) ∧
      ∀ i ∈ (idx0.Build tasks).GetCompleted,
        i < tasks.length ∧ ∃ t, tasks[i]? = some t ∧ t.Completed = true) ∧
    ((idx0.Build tasks).GetActive.Pairwise (fun a b => a < b) ∧
      ∀ i ∈ (idx0.Build tasks).GetActive,
        i < tasks.length ∧ ∃ t, tasks[i]? = some t ∧ t.Completed = false) ∧
    (∀ i, ¬ (i ∈ (idx0.Build tasks).GetCompleted ∧ i ∈ (idx0.Build tasks).GetActive)) ∧
    (∀ i, i < tasks.length →
      i ∈ (idx0.Build tasks).GetCompleted ∨ i ∈ (idx0.Build tasks).GetActive) ∧
    ((idx0.Build tasks).PriorityIndex.map Prod.fst).Nodup ∧
    ((idx0.Build tasks).ContextIndex.map Prod.fst).Nodup ∧
    ((idx0.Build tasks).ProjectIndex.map Prod.fst).Nodup := by
  obtain ⟨ip, ic, ij, icomp, iact⟩ := Build_increasing idx0 tasks
  obtain ⟨wp, wc, wj⟩ := Build_wf idx0 tasks
  refine ⟨?_, ?_, ?_, ?_, ?_, ?_, ?_, wp.1, wc.1, wj.1⟩
  · intro k l hkl
    have hl : l ≠ [] := wp.2 (k, l) hkl
    have hget := posGet_of_mem _ wp.1 k l hkl
    have hmem : ∀ i ∈ l, i < tasks.length ∧ ∃ t, tasks[i]? = some t ∧ t.Priority = k := by
      intro i hi
      refine ⟨(ip k).2 i (by rw [hget]; exact hi), ?_⟩
      obtain ⟨t, ht, -, hk⟩ := ((Build_mem idx0 tasks i).1 k).1 (by rw [hget]; exact hi)
      exact ⟨t, ht, hk.symm⟩
    refine ⟨?_, hl, hget, by rw [← hget]; exact (ip k).1, hmem⟩
    obtain ⟨i, hi⟩ := List.exists_mem_of_ne_nil l hl
    obtain ⟨t, -, hne, hk⟩ := ((Build_mem idx0 tasks i).1 k).1 (by rw [hget]; exact hi)
    rw [hk]
    exact hne
  · intro k l hkl
    have hget := posGet_of_mem _ wc.1 k l hkl
    refine ⟨wc.2 (k, l) hkl, hget, by rw [← hget]; exact (ic k).1, ?_⟩
    intro i hi
    exact ⟨(ic k).2 i (by rw [hget]; exact hi),
      ((Build_mem idx0 tasks i).2.1 k).1 (by rw [hget]; exact hi)⟩
  · intro k l hkl
    have hget := posGet_of_mem _ wj.1 k l hkl
    refine ⟨wj.2 (k, l) hkl, hget, by rw [← hget]; exact (ij k).1, ?_⟩
    intro i hi
    exact ⟨(ij k).2 i (by rw [hget]; exact hi),
      ((Build_mem idx0 tasks i).2.2.1 k).1 (by rw [hget]; exact hi)⟩
  · exact ⟨icomp.1, fun i hi => ⟨icomp.2 i hi, (Build_mem idx0 tasks i).2.2.2.1.1 hi⟩⟩
  · exact ⟨iact.1, fun i hi => ⟨iact.2 i hi, (Build_mem idx0 tasks i).2.2.2.2.1 hi⟩⟩
  · rintro i ⟨h1, h2⟩
    obtain ⟨t, ht, hc⟩ := (Build_mem idx0 tasks i).2.2.2.1.1 h1
    obtain ⟨t', ht', hc'⟩ := (Build_mem idx0 tasks i).2.2.2.2.1 h2
    rw [ht] at ht'
    cases ht'
    rw [hc] at hc'
    exact absurd hc' (by decide)
  · intro i hi
    obtain ⟨t, ht⟩ : ∃ t, tasks[i]? = some t := ⟨tasks[i], List.getElem?_eq_getElem hi⟩
    cases hc : t.Completed
    · exact Or.inr ((Build_mem idx0 tasks i).2.2.2.2.2 ⟨t, ht, hc⟩)
    · exact Or.inl ((Build_mem idx0 tasks i).2.2.2.1.2 ⟨t, ht, hc⟩)

/-! ## Theorems: the task collection of a `TodoFile` -/

theorem UpdateTask_error (tf : TodoFile) (mem : Heap) (index : Int) (task : Nat)
    (h : index < 0 ∨ index ≥ tf.Tasks.length) :
    tf.UpdateTask mem index task = (some (indexOutOfRange index), tf, mem) := by
  unfold TodoFile.UpdateTask
  rw [dif_pos h]

theorem UpdateTask_ok (tf : TodoFile) (mem : Heap) (index : Int) (task old : Nat)
    (h0 : 0 ≤ index) (hold : tf.Tasks[index.toNat]? = some old) :
    tf.UpdateTask mem index task =
      (none, { tf with Tasks := tf.Tasks.set index.toNat task, Modified := true },
        (mem.write task { mem.cell task with LineNumber := (mem.cell old).LineNumber }).write
          task { mem.cell task with
            LineNumber := (mem.cell old).LineNumber, Modified := true }) := by
  have hlt : index.toNat < tf.Tasks.length := by
    rw [List.getElem?_eq_some] at hold
    exact hold.1
  have h : ¬ (index < 0 ∨ index ≥ tf.Tasks.length) := by omega
  have hget : tf.Tasks.get ⟨index.toNat, hlt⟩ = old := by
    rw [List.getElem?_eq_some] at hold
    obtain ⟨_, e⟩ := hold
    exact e
  unfold TodoFile.UpdateTask
  rw [dif_neg h]
  simp only [hget, Heap.write, if_true]

theorem GetTask_ok (tf : TodoFile) (index : Int) (old : Nat)
    (h0 : 0 ≤ index) (hold : tf.Tasks[index.toNat]? = some old) :
    tf.GetTask index = .ok old := by
  have hlt : index.toNat < tf.Tasks.length := by
    rw [List.getElem?_eq_some] at hold
    exact hold.1
  have h : ¬ (index < 0 ∨ index ≥ tf.Tasks.length) := by omega
  have hget : tf.Tasks.get ⟨index.toNat, hlt⟩ = old := by
    rw [List.getElem?_eq_some] at hold
    obtain ⟨_, e⟩ := hold
    exact e
  unfold TodoFile.GetTask
  rw [dif_neg h, hget]

theorem DeleteTask_error (tf : TodoFile) (mem : Heap) (index : Int)
    (h : index < 0 ∨ index ≥ tf.Tasks.length) :
    tf.DeleteTask mem index = (some (indexOutOfRange index), tf, mem) := by
  unfold TodoFile.DeleteTask
  rw [if_pos h]

theorem DeleteTask_ok (tf : TodoFile) (mem : Heap) (index : Int)
    (h : ¬ (index < 0 ∨ index ≥ tf.Tasks.length)) :
    tf.DeleteTask mem index =
      (none, { tf with Tasks := tf.Tasks.eraseIdx index.toNat, Modified := true },
        renumberLoop ((tf.Tasks.eraseIdx index.toNat).length - index.toNat) index.toNat
          (tf.Tasks.eraseIdx index.toNat) mem) := by
  unfold TodoFile.DeleteTask
  rw [if_neg h, ← List.eraseIdx_eq_take_drop_succ]

theorem in_range_iff (tf : TodoFile) (index : Int) :
    ¬ (index < 0 ∨ index ≥ tf.Tasks.length) ↔
      0 ≤ index ∧ ∃ old, tf.Tasks[index.toNat]? = some old := by
  constructor
  · intro h
    have hlt : index.toNat < tf.Tasks.length := by omega
    exact ⟨by omega, tf.Tasks[index.toNat], List.getElem?_eq_getElem hlt⟩
  · rintro ⟨h0, old, hold⟩
    rw [List.getElem?_eq_some] at hold
    obtain ⟨hlt, -⟩ := hold
    omega

theorem UpdateTask_cell (tf : TodoFile) (mem : Heap) (index : Int) (task old : Nat)
    (h0 : 0 ≤ index) (hold : tf.Tasks[index.toNat]? = some old) (q : Nat) :
    (tf.UpdateTask mem index task).2.2.cell q =
      if q = task then
        { mem.cell task with LineNumber := (mem.cell old).LineNumber, Modified := true }
      else mem.cell q := by
  rw [UpdateTask_ok tf mem index task old h0 hold]
  simp only [Heap.write]
  split_ifs <;> rfl

theorem tasks_getElem (tf : TodoFile) (mem : Heap) (j : Nat) :
    (tf.tasks mem)[j]? = (tf.Tasks[j]?).map mem.cell := by
  unfold TodoFile.tasks
  rw [List.getElem?_map]

/-- C32 (amended): `UpdateTask`, `DeleteTask` and `GetTask` return the error
`index out of range` exactly when the index is negative or not below the
number of tasks, and then leave the collection, the task objects and the flag
`Modified` of the file as they were.  A successful `UpdateTask` stores the
pointer to the new task at the position of the index and leaves the pointer
at every other position and the length as they were; it gives the new task
the line number of the task it replaces, sets `Modified` on the new task and
on the file, and writes to no other task object, so that the task at every
other position at which the new task does not stand is unchanged; a
successful `GetTask` returns the pointer at the index. -/
theorem index_out_of_range (tf : TodoFile) (mem : Heap) (index : Int) (task : Nat) :
    ((tf.UpdateTask mem index task).1 ≠ none ↔ (index < 0 ∨ index ≥ tf.Tasks.length)) ∧
    ((tf.DeleteTask mem index).1 ≠ none ↔ (index < 0 ∨ index ≥ tf.Tasks.length)) ∧
    ((∃ e, tf.GetTask index = .error e) ↔ (index < 0 ∨ index ≥ tf.Tasks.length)) ∧
    ((index < 0 ∨ index ≥ tf.Tasks.length) →
      tf.UpdateTask mem index task = (some (indexOutOfRange index), tf, mem) ∧
      tf.DeleteTask mem index = (some (indexOutOfRange index), tf, mem) ∧
      tf.GetTask index = .error (indexOutOfRange index)) ∧
    (∀ old, 0 ≤ index → tf.Tasks[index.toNat]? = some old →
      tf.GetTask index = .ok old ∧
      (tf.UpdateTask mem index task).1 = none ∧
      (tf.UpdateTask mem index task).2.1.Modified = true ∧
      (tf.UpdateTask mem index task).2.1.Tasks.length = tf.Tasks.length ∧
      (tf.UpdateTask mem index task).2.1.Tasks = tf.Tasks.set index.toNat task ∧
      (tf.UpdateTask mem index task).2.2.cell task =
        { mem.cell task with LineNumber := (mem.cell old).LineNumber, Modified := true } ∧
      (∀ q, q ≠ task → (tf.UpdateTask mem index task).2.2.cell q = mem.cell q) ∧
      (tf.UpdateTask mem index task).2.2.next = mem.next ∧
      ((tf.UpdateTask mem index task).2.1.tasks (tf.UpdateTask mem index task).2.2)[index.toNat]? =
        some { mem.cell task with LineNumber := (mem.cell old).LineNumber, Modified := true } ∧
      (∀ j, j ≠ index.toNat → tf.Tasks[j]? ≠ some task →
        ((tf.UpdateTask mem index task).2.1.tasks (tf.UpdateTask mem index task).2.2)[j]? =
          (tf.tasks mem)[j]?)) := by
  have herr : (index < 0 ∨ index ≥ tf.Tasks.length) →
      tf.UpdateTask mem index task = (some (indexOutOfRange index), tf, mem) ∧
      tf.DeleteTask mem index = (some (indexOutOfRange index), tf, mem) ∧
      tf.GetTask index = .error (indexOutOfRange index) := by
    intro h
    refine ⟨UpdateTask_error tf mem index task h, DeleteTask_error tf mem index h, ?_⟩
    unfold TodoFile.GetTask
    rw [dif_pos h]
  refine ⟨?_, ?_, ?_, herr, ?_⟩
  · constructor
    · intro hne
      by_contra h
      obtain ⟨h0, old, hold⟩ := (in_range_iff tf index).1 h
      rw [UpdateTask_ok tf mem index task old h0 hold] at hne
      exact hne rfl
    · intro h
      rw [(herr h).1]
      simp
  · constructor
    · intro hne
      by_contra h
      rw [DeleteTask_ok tf mem index h] at hne
      exact hne rfl
    · intro h
      rw [(herr h).2.1]
      simp
  · constructor
    · rintro ⟨e, he⟩
      by_contra h
      obtain ⟨h0, old, hold⟩ := (in_range_iff tf index).1 h
      rw [GetTask_ok tf index old h0 hold] at he
      cases he
    · intro h
      exact ⟨_, (herr h).2.2⟩
  · intro old h0 hold
    have hlt : index.toNat < tf.Tasks.length := by
      rw [List.getElem?_eq_some] at hold
      exact hold.1
    have hcell := UpdateTask_cell tf mem index task old h0 hold
    have hT : (tf.UpdateTask mem index task).2.1.Tasks = tf.Tasks.set index.toNat task := by
      rw [UpdateTask_ok tf mem index task old h0 hold]
    refine ⟨GetTask_ok tf index old h0 hold, ?_, ?_, ?_, hT, ?_, ?_, ?_, ?_, ?_⟩
    · rw [UpdateTask_ok tf mem index task old h0 hold]
    · rw [UpdateTask_ok tf mem index task old h0 hold]
    · rw [hT, List.length_set]
    · rw [hcell, if_pos rfl]
    · intro q hq
      rw [hcell, if_neg hq]
    · rw [UpdateTask_ok tf mem index task old h0 hold]
      rfl
    · rw [tasks_getElem, hT, List.getElem?_set, if_pos rfl, if_pos hlt, Option.map_some',
        hcell, if_pos rfl]
    · intro j hj hne
      rw [tasks_getElem, tasks_getElem, hT, List.getElem?_set, if_neg (Ne.symm hj)]
      cases hq : tf.Tasks[j]? with
      | none => rfl
      | some q =>
        rw [hq] at hne
        have hqt : q ≠ task := fun e => hne (by rw [e])
        rw [Option.map_some', Option.map_some', hcell, if_neg hqt]

/-- C32 (amended) at the file of the tasks `a` and `b`: the task `c` replaces
`b` and takes its line number 2, `a` is unchanged, and the index 5 is out of
range. -/
theorem index_out_of_range_witness :
    (twoTaskFile.1.UpdateTask twoTaskFile.2 5 2 =
        (some "index out of range: 5".toList, twoTaskFile.1, twoTaskFile.2)) ∧
    (twoTaskFile.1.UpdateTask twoTaskFile.2 1 2).1 = none ∧
    lineNumbers ((twoTaskFile.1.UpdateTask twoTaskFile.2 1 2).2.1.tasks
      (twoTaskFile.1.UpdateTask twoTaskFile.2 1 2).2.2) = [("a".toList, 1), ("c".toList, 2)] ∧
    ((twoTaskFile.1.UpdateTask twoTaskFile.2 1 2).2.1.tasks
      (twoTaskFile.1.UpdateTask twoTaskFile.2 1 2).2.2)[0]? =
        (twoTaskFile.1.tasks twoTaskFile.2)[0]? :=
  ⟨((index_out_of_range twoTaskFile.1 twoTaskFile.2 5 2).2.2.2.1 (by decide)).1,
    by decide, by decide,
    ((index_out_of_range twoTaskFile.1 twoTaskFile.2 1 2).2.2.2.2 1 (by decide)
      (by decide)).2.2.2.2.2.2.2.2.2 0 (by decide) (by decide)⟩

/-- C32, counterexample: in the file of the tasks `a` and `b`, with the line
numbers 1 and 2, `UpdateTask(1, tf.Tasks[0])` succeeds and writes the line
number 2 to the task `a`, which stands at position 0 as well: the task at
position 0, which is not the position of the index, has changed, and the
line numbers are 2 and 2. -/
theorem UpdateTask_changes_other_position :
    twoTaskFile.1.Tasks = [0, 1] ∧
    lineNumbers (twoTaskFile.1.tasks twoTaskFile.2) = [("a".toList, 1), ("b".toList, 2)] ∧
    twoTaskFile.1.GetTask 0 = .ok 0 ∧
    (twoTaskFile.1.UpdateTask twoTaskFile.2 1 0).1 = none ∧
    (twoTaskFile.1.UpdateTask twoTaskFile.2 1 0).2.1.Tasks = [0, 0] ∧
    lineNumbers ((twoTaskFile.1.UpdateTask twoTaskFile.2 1 0).2.1.tasks
      (twoTaskFile.1.UpdateTask twoTaskFile.2 1 0).2.2) = [("a".toList, 2), ("a".toList, 2)] ∧
    ((twoTaskFile.1.UpdateTask twoTaskFile.2 1 0).2.1.tasks
      (twoTaskFile.1.UpdateTask twoTaskFile.2 1 0).2.2)[0]? ≠
        (twoTaskFile.1.tasks twoTaskFile.2)[0]? := by
  refine ⟨by decide, by decide, by decide, by decide, by decide, by decide, by decide⟩

theorem renumberLoop_cell_of_not_mem (n i : Nat) (tasks : List Nat) (mem : Heap) (q : Nat)
    (h : ∀ j, i ≤ j → j < i + n → tasks[j]? ≠ some q) :
    (renumberLoop n i tasks mem).cell q = mem.cell q := by
  induction n generalizing i mem with
  | zero => rfl
  | succ n ih =>
    rw [renumberLoop, ih (i + 1) _ (fun j h1 h2 => h j (by omega) (by omega))]
    cases hi : tasks[i]? with
    | none => rfl
    | some p =>
      have hpq : q ≠ p := by
        rintro rfl
        exact h i (Nat.le_refl _) (by omega) hi
      simp only [Heap.write, if_neg hpq]

theorem nodup_index_unique {l : List Nat} (h : l.Nodup) {i j : Nat} {q : Nat}
    (hi : l[i]? = some q) (hj : l[j]? = some q) : i = j := by
  rw [List.getElem?_eq_some] at hi hj
  obtain ⟨h1, e1⟩ := hi
  obtain ⟨h2, e2⟩ := hj
  exact (List.Nodup.getElem_inj_iff h).1 (e1.trans e2.symm)

theorem renumberLoop_cell_of_mem (n i : Nat) (tasks : List Nat) (mem : Heap)
    (hnd : tasks.Nodup) (j q : Nat) (h1 : i ≤ j) (h2 : j < i + n) (hq : tasks[j]? = some q) :
    (renumberLoop n i tasks mem).cell q = { mem.cell q with LineNumber := (j : Int) + 1 } := by
  induction n generalizing i mem with
  | zero => omega
  | succ n ih =>
    rw [renumberLoop]
    by_cases hji : j = i
    · subst hji
      rw [renumberLoop_cell_of_not_mem n (j + 1) tasks _ q (fun k hk1 _ hk => by
        have := nodup_index_unique hnd hk hq
        omega)]
      simp only [hq, Heap.write, if_true]
    · rw [ih (i + 1) _ (by omega) (by omega)]
      cases hi : tasks[i]? with
      | none => rfl
      | some p =>
        have hpq : q ≠ p := by
          rintro rfl
          exact hji (nodup_index_unique hnd hq hi)
        simp only [Heap.write, if_neg hpq]

theorem AddTask_eq (tf : TodoFile) (mem : Heap) (task : Nat) :
    (tf.AddTask mem task).1 = { tf with Tasks := tf.Tasks ++ [task], Modified := true } ∧
    ∀ q, (tf.AddTask mem task).2.cell q =
      if q = task then
        { mem.cell task with LineNumber := (tf.Tasks.length : Int) + 1, Modified := true }
      else mem.cell q := by
  refine ⟨rfl, fun q => ?_⟩
  simp only [TodoFile.AddTask, Heap.write]
  split_ifs <;> rfl

theorem AddTask_tasks (tf : TodoFile) (mem : Heap) (task : Nat) (h : task ∉ tf.Tasks) :
    (tf.AddTask mem task).1.tasks (tf.AddTask mem task).2 =
      tf.tasks mem ++
        [{ mem.cell task with LineNumber := (tf.Tasks.length : Int) + 1, Modified := true }] := by
  unfold TodoFile.tasks
  rw [(AddTask_eq tf mem task).1]
  simp only [List.map_append, List.map_cons, List.map_nil]
  congr 1
  · apply List.map_congr_left
    intro q hq
    rw [(AddTask_eq tf mem task).2, if_neg (fun (e : q = task) => h (e ▸ hq))]
  · rw [(AddTask_eq tf mem task).2, if_pos rfl]

theorem contiguous_append (tasks : List Task) (t : Task) (h : Contiguous tasks)
    (ht : t.LineNumber = (tasks.length : Int) + 1) : Contiguous (tasks ++ [t]) := by
  intro i u hi
  by_cases hlt : i < tasks.length
  · rw [List.getElem?_append_left hlt] at hi
    exact h i u hi
  · rw [List.getElem?_append_right (by omega)] at hi
    have hi0 : i - tasks.length = 0 := by
      by_contra hne
      rw [List.getElem?_eq_none_iff.2 (by simp; omega)] at hi
      cases hi
    rw [hi0, List.getElem?_cons_zero] at hi
    cases hi
    rw [ht]
    have : i = tasks.length := by omega
    rw [this]

theorem contiguous_nil : Contiguous [] := by
  intro i t h
  simp at h

theorem Contiguous.nodup {tasks : List Task} (h : Contiguous tasks) :
    (tasks.map (fun t => t.LineNumber)).Nodup := by
  have e : tasks.map (fun t => t.LineNumber) =
      (List.range tasks.length).map (fun (i : Nat) => (i : Int) + 1) := by
    apply List.ext_getElem?
    intro i
    rw [List.getElem?_map, List.getElem?_map]
    by_cases hi : i < tasks.length
    · rw [List.getElem?_range hi, List.getElem?_eq_getElem hi]
      simp only [Option.map_some', Option.some.injEq]
      exact h i _ (List.getElem?_eq_getElem hi)
    · rw [List.getElem?_eq_none_iff.2 (by omega),
        List.getElem?_eq_none_iff.2 (by rw [List.length_range]; omega)]
      rfl
  rw [e]
  refine List.Nodup.map ?_ (List.nodup_range _)
  intro a b hab
  simp only at hab
  omega

theorem Contiguous.pointers_nodup {tf : TodoFile} {mem : Heap}
    (h : Contiguous (tf.tasks mem)) : tf.Tasks.Nodup := by
  have := h.nodup
  unfold TodoFile.tasks at this
  exact (List.Nodup.of_map _ this).of_map _

theorem AddTask_contiguous_iff (tf : TodoFile) (mem : Heap) (task : Nat)
    (h : Contiguous (tf.tasks mem)) :
    Contiguous ((tf.AddTask mem task).1.tasks (tf.AddTask mem task).2) ↔ task ∉ tf.Tasks := by
  constructor
  · intro hc hmem
    have hnd := hc.pointers_nodup
    rw [(AddTask_eq tf mem task).1] at hnd
    simp only at hnd
    rw [List.nodup_append] at hnd
    exact hnd.2.2 hmem (List.mem_singleton_self _)
  · intro hno
    rw [AddTask_tasks tf mem task hno]
    refine contiguous_append _ _ h ?_
    simp [TodoFile.tasks]

theorem DeleteTask_getElem (tf : TodoFile) (mem : Heap) (index : Int)
    (h : ¬ (index < 0 ∨ index ≥ tf.Tasks.length)) (hnd : tf.Tasks.Nodup) (j : Nat) :
    ((tf.DeleteTask mem index).2.1.tasks (tf.DeleteTask mem index).2.2)[j]? =
      (((tf.tasks mem).eraseIdx index.toNat)[j]?).map (fun t =>
        if index.toNat ≤ j then { t with LineNumber := (j : Int) + 1 } else t) := by
  have hnd' : (tf.Tasks.eraseIdx index.toNat).Nodup :=
    hnd.sublist (List.eraseIdx_sublist _ _)
  have hmap : (tf.tasks mem).eraseIdx index.toNat =
      (tf.Tasks.eraseIdx index.toNat).map mem.cell := by
    unfold TodoFile.tasks
    apply List.ext_getElem?
    intro k
    simp only [List.getElem?_eraseIdx, List.getElem?_map]
    split_ifs <;> rfl
  rw [hmap, tasks_getElem, DeleteTask_ok tf mem index h, List.getElem?_map]
  simp only
  cases hq : (tf.Tasks.eraseIdx index.toNat)[j]? with
  | none => rfl
  | some q =>
    have hjl : j < (tf.Tasks.eraseIdx index.toNat).length := by
      rw [List.getElem?_eq_some] at hq
      exact hq.1
    simp only [Option.map_some', Option.some.injEq]
    by_cases hc : index.toNat ≤ j
    · rw [if_pos hc, renumberLoop_cell_of_mem _ _ _ _ hnd' j q hc (by omega) hq]
    · rw [if_neg hc, renumberLoop_cell_of_not_mem]
      intro k hk1 _ hk
      have := nodup_index_unique hnd' hk hq
      omega

theorem DeleteTask_length (tf : TodoFile) (mem : Heap) (index : Int)
    (h : ¬ (index < 0 ∨ index ≥ tf.Tasks.length)) :
    (tf.DeleteTask mem index).2.1.Tasks.length + 1 = tf.Tasks.length := by
  rw [DeleteTask_ok tf mem index h]
  simp only
  rw [List.length_eraseIdx]
  have : index.toNat < tf.Tasks.length := by omega
  rw [if_pos this]
  omega

theorem DeleteTask_contiguous (tf : TodoFile) (mem : Heap) (index : Int)
    (h : ¬ (index < 0 ∨ index ≥ tf.Tasks.length)) (hc : Contiguous (tf.tasks mem)) :
    Contiguous ((tf.DeleteTask mem index).2.1.tasks (tf.DeleteTask mem index).2.2) := by
  intro j t hj
  rw [DeleteTask_getElem tf mem index h hc.pointers_nodup] at hj
  cases he : ((tf.tasks mem).eraseIdx index.toNat)[j]? with
  | none => rw [he] at hj; cases hj
  | some u =>
    rw [he, Option.map_some'] at hj
    cases hj
    by_cases hij : index.toNat ≤ j
    · rw [if_pos hij]
    · rw [if_neg hij]
      rw [List.getElem?_eraseIdx, if_pos (by omega)] at he
      exact hc j u he

theorem DeleteTask_in_range (tf : TodoFile) (mem : Heap) (index : Int)
    (h : (tf.DeleteTask mem index).1 = none) :
    ¬ (index < 0 ∨ index ≥ tf.Tasks.length) := by
  intro hr
  rw [DeleteTask_error tf mem index hr] at h
  cases h

theorem DeleteTask_erases (tf : TodoFile) (mem : Heap) (index : Int)
    (h : ¬ (index < 0 ∨ index ≥ tf.Tasks.length)) (hnd : tf.Tasks.Nodup) :
    ((tf.DeleteTask mem index).2.1.tasks (tf.DeleteTask mem index).2.2).map
        Task.withoutLineNumber =
      ((tf.tasks mem).eraseIdx index.toNat).map Task.withoutLineNumber := by
  apply List.ext_getElem?
  intro j
  rw [List.getElem?_map, List.getElem?_map, DeleteTask_getElem tf mem index h hnd]
  cases ((tf.tasks mem).eraseIdx index.toNat)[j]? with
  | none => rfl
  | some t =>
    simp only [Option.map_some']
    split_ifs <;> rfl

/-- C33 (amended): in a `TodoFile` in which the task at every position `i`
has the line number `i + 1`, `AddTask` appends the pointer to the task and
gives the task the line number `old length + 1` (and `Modified`), and a
successful `DeleteTask(index)` removes the pointer at the index and keeps the
others in their order.  After `AddTask` of a task that is not already in the
collection, the other tasks are as they were, and after a successful
`DeleteTask` the remaining tasks are as they were but for their line
numbers; after either, the task at every position `i` has the line number
`i + 1` again.  The length has grown, respectively shrunk, by one.  After
`AddTask` of a task that is already in the collection the line numbers are
not contiguous. -/
theorem line_numbers_stay_contiguous (tf : TodoFile) (mem : Heap) (task : Nat) (index : Int)
    (h : Contiguous (tf.tasks mem)) :
    (tf.AddTask mem task).1.Tasks = tf.Tasks ++ [task] ∧
    ((tf.AddTask mem task).2.cell task).LineNumber = (tf.Tasks.length : Int) + 1 ∧
    (tf.AddTask mem task).1.Tasks.length = tf.Tasks.length + 1 ∧
    (task ∉ tf.Tasks →
      (tf.AddTask mem task).1.tasks (tf.AddTask mem task).2 =
        tf.tasks mem ++
          [{ mem.cell task with LineNumber := (tf.Tasks.length : Int) + 1, Modified := true }] ∧
      Contiguous ((tf.AddTask mem task).1.tasks (tf.AddTask mem task).2)) ∧
    (task ∈ tf.Tasks →
      ¬ Contiguous ((tf.AddTask mem task).1.tasks (tf.AddTask mem task).2)) ∧
    ((tf.DeleteTask mem index).1 = none →
      (tf.DeleteTask mem index).2.1.Tasks = tf.Tasks.eraseIdx index.toNat ∧
      ((tf.DeleteTask mem index).2.1.tasks (tf.DeleteTask mem index).2.2).map
          Task.withoutLineNumber =
        ((tf.tasks mem).eraseIdx index.toNat).map Task.withoutLineNumber ∧
      Contiguous ((tf.DeleteTask mem index).2.1.tasks (tf.DeleteTask mem index).2.2) ∧
      (tf.DeleteTask mem index).2.1.Tasks.length + 1 = tf.Tasks.length) := by
  refine ⟨rfl, ?_, ?_, ?_, ?_, ?_⟩
  · rw [(AddTask_eq tf mem task).2, if_pos rfl]
  · rw [(AddTask_eq tf mem task).1, List.length_append, List.length_singleton]
  · intro hno
    exact ⟨AddTask_tasks tf mem task hno, (AddTask_contiguous_iff tf mem task h).2 hno⟩
  · intro hmem hc
    exact (AddTask_contiguous_iff tf mem task h).1 hc hmem
  · intro hok
    have hr := DeleteTask_in_range tf mem index hok
    refine ⟨?_, DeleteTask_erases tf mem index hr h.pointers_nodup,
      DeleteTask_contiguous tf mem index hr h, DeleteTask_length tf mem index hr⟩
    rw [DeleteTask_ok tf mem index hr]

theorem twoTaskFile_contiguous : Contiguous (twoTaskFile.1.tasks twoTaskFile.2) := by
  have e : twoTaskFile.1.tasks twoTaskFile.2 =
      [] ++ [(twoTaskFile.2.cell 0)] ++ [(twoTaskFile.2.cell 1)] := rfl
  rw [e]
  exact contiguous_append _ _ (contiguous_append _ _ contiguous_nil (by decide)) (by decide)

/-- C33 (amended) at the file of the tasks `a` and `b`: the task `c` is
added, and the task `a` is deleted. -/
theorem line_numbers_stay_contiguous_witness :
    lineNumbers ((twoTaskFile.1.AddTask twoTaskFile.2 2).1.tasks
      (twoTaskFile.1.AddTask twoTaskFile.2 2).2) =
        [("a".toList, 1), ("b".toList, 2), ("c".toList, 3)] ∧
    Contiguous ((twoTaskFile.1.AddTask twoTaskFile.2 2).1.tasks
      (twoTaskFile.1.AddTask twoTaskFile.2 2).2) ∧
    (twoTaskFile.1.DeleteTask twoTaskFile.2 0).1 = none ∧
    lineNumbers ((twoTaskFile.1.DeleteTask twoTaskFile.2 0).2.1.tasks
      (twoTaskFile.1.DeleteTask twoTaskFile.2 0).2.2) = [("b".toList, 1)] ∧
    Contiguous ((twoTaskFile.1.DeleteTask twoTaskFile.2 0).2.1.tasks
      (twoTaskFile.1.DeleteTask twoTaskFile.2 0).2.2) :=
  ⟨by decide,
    ((line_numbers_stay_contiguous twoTaskFile.1 twoTaskFile.2 2 0
      twoTaskFile_contiguous).2.2.2.1 (by decide)).2,
    by decide, by decide,
    ((line_numbers_stay_contiguous twoTaskFile.1 twoTaskFile.2 2 0
      twoTaskFile_contiguous).2.2.2.2.2 (by decide)).2.2.1⟩

/-- C33, counterexample: in the file of the tasks `a` and `b`, with the line
numbers 1 and 2, `AddTask(tf.Tasks[0])` writes the line number 3 to the task
`a`, which stands at position 0 as well: the line numbers are 3, 2 and 3, and
the task at position 0 does not have the line number 1. -/
theorem AddTask_of_member_breaks_contiguity :
    twoTaskFile.1.Tasks = [0, 1] ∧
    lineNumbers (twoTaskFile.1.tasks twoTaskFile.2) = [("a".toList, 1), ("b".toList, 2)] ∧
    Contiguous (twoTaskFile.1.tasks twoTaskFile.2) ∧
    twoTaskFile.1.GetTask 0 = .ok 0 ∧
    (twoTaskFile.1.AddTask twoTaskFile.2 0).1.Tasks = [0, 1, 0] ∧
    lineNumbers ((twoTaskFile.1.AddTask twoTaskFile.2 0).1.tasks
      (twoTaskFile.1.AddTask twoTaskFile.2 0).2) =
        [("a".toList, 3), ("b".toList, 2), ("a".toList, 3)] ∧
    ¬ Contiguous ((twoTaskFile.1.AddTask twoTaskFile.2 0).1.tasks
      (twoTaskFile.1.AddTask twoTaskFile.2 0).2) := by
  refine ⟨by decide, by decide, twoTaskFile_contiguous, by decide, by decide, by decide, ?_⟩
  intro h
  have h0 := h 0 _ (show ((twoTaskFile.1.AddTask twoTaskFile.2 0).1.tasks
    (twoTaskFile.1.AddTask twoTaskFile.2 0).2)[0]? = some _ from rfl)
  revert h0
  decide

/-- C34: the code at the failing input.  The text `a`, blank line, `b` loads
as two tasks with the line numbers 1 and 3; `AddTask` of a new task `c` gives
it the line number 3 as well, so that the line numbers are 1, 3, 3: they are
not contiguous, and two tasks share a line number. -/
theorem blank_line_breaks_contiguity :
    (emptyFile.Load emptyHeap "a\n\nb".toList).1 = none ∧
    lineNumbers ((emptyFile.Load emptyHeap "a\n\nb".toList).2.1.tasks
      (emptyFile.Load emptyHeap "a\n\nb".toList).2.2) = [("a".toList, 1), ("b".toList, 3)] ∧
    ((emptyFile.Load emptyHeap "a\n\nb".toList).2.2.new (plainTask [] "c".toList)).1 ∉
      (emptyFile.Load emptyHeap "a\n\nb".toList).2.1.Tasks ∧
    lineNumbers
      (((emptyFile.Load emptyHeap "a\n\nb".toList).2.1.AddTask
          ((emptyFile.Load emptyHeap "a\n\nb".toList).2.2.new (plainTask [] "c".toList)).2
          ((emptyFile.Load emptyHeap "a\n\nb".toList).2.2.new (plainTask [] "c".toList)).1).1.tasks
        ((emptyFile.Load emptyHeap "a\n\nb".toList).2.1.AddTask
          ((emptyFile.Load emptyHeap "a\n\nb".toList).2.2.new (plainTask [] "c".toList)).2
          ((emptyFile.Load emptyHeap "a\n\nb".toList).2.2.new (plainTask [] "c".toList)).1).2) =
      [("a".toList, 1), ("b".toList, 3), ("c".toList, 3)] := by
  refine ⟨by decide, by decide, by decide, by decide⟩

/-! ## Theorems: the parse of a line is a fixed point -/

theorem digitChar_of_mod (c : Char) (hc : reDigit c = true) (n : Nat)
    (h : n % 10 = digitVal c) : digitChar n = c := by
  simp only [reDigit, Bool.and_eq_true, decide_eq_true_eq] at hc
  unfold digitChar
  rw [h]
  unfold digitVal
  rw [show 48 + (c.toNat - 48) = c.toNat by omega]
  exact Char.ofNat_toNat c

theorem digitVal_lt (c : Char) (hc : reDigit c = true) : digitVal c < 10 := by
  simp only [reDigit, Bool.and_eq_true, decide_eq_true_eq] at hc
  unfold digitVal
  omega

theorem timeParse_eq_some (s : Str) (D : Date) (h : timeParse s = some D) :
    s = D.Format ∧ D.valid := by
  unfold timeParse at h
  split at h
  · rename_i y1 y2 y3 y4 s1 m1 m2 s2 d1 d2
    split_ifs at h with hc
    simp only [Bool.and_eq_true, decide_eq_true_eq] at hc
    obtain ⟨⟨⟨⟨⟨⟨⟨⟨⟨h1, h2⟩, h3⟩, h4⟩, e1⟩, h5⟩, h6⟩, e2⟩, h7⟩, h8⟩ := hc
    have b1 := digitVal_lt y1 h1
    have b2 := digitVal_lt y2 h2
    have b3 := digitVal_lt y3 h3
    have b4 := digitVal_lt y4 h4
    have b5 := digitVal_lt m1 h5
    have b6 := digitVal_lt m2 h6
    have b7 := digitVal_lt d1 h7
    have b8 := digitVal_lt d2 h8
    by_cases hm : digitVal m1 * 10 + digitVal m2 = 0 ∨ 12 < digitVal m1 * 10 + digitVal m2
    · rw [if_pos hm] at h
      cases h
    rw [if_neg hm] at h
    by_cases hd : digitVal d1 * 10 + digitVal d2 < 1 ∨
        daysIn (digitVal m1 * 10 + digitVal m2)
          (digitVal y1 * 1000 + digitVal y2 * 100 + digitVal y3 * 10 + digitVal y4) <
        digitVal d1 * 10 + digitVal d2
    · rw [if_pos hd] at h
      cases h
    rw [if_neg hd] at h
    simp only [Option.some.injEq] at h
    subst h
    have hv : Date.valid ⟨digitVal y1 * 1000 + digitVal y2 * 100 + digitVal y3 * 10 + digitVal y4,
        digitVal m1 * 10 + digitVal m2, digitVal d1 * 10 + digitVal d2⟩ := by
      refine ⟨?_, ?_, ?_, ?_, ?_⟩ <;> simp only <;> omega
    refine ⟨?_, hv⟩
    rw [Format_eq _ hv.1, e1, e2]
    simp only
    rw [digitChar_of_mod y1 h1 _ (by omega), digitChar_of_mod y2 h2 _ (by omega),
      digitChar_of_mod y3 h3 _ (by omega), digitChar_of_mod y4 h4 _ (by omega),
      digitChar_of_mod m1 h5 _ (by omega), digitChar_of_mod m2 h6 _ (by omega),
      digitChar_of_mod d1 h7 _ (by omega), digitChar_of_mod d2 h8 _ (by omega)]
  · cases h

theorem ParseTodoDate_eq_ok (s : Str) (D : Date) (hs : s ≠ []) (h : ParseTodoDate s = .ok D) :
    s = D.Format ∧ D.valid := by
  unfold ParseTodoDate at h
  rw [if_neg hs] at h
  cases ht : timeParse s with
  | none => rw [ht] at h; cases h
  | some D' =>
    rw [ht] at h
    cases h
    exact timeParse_eq_some s D ht

theorem Format_not_isSpace (D : Date) (hy : D.year ≤ 9999) : ∀ c ∈ D.Format, isSpace c = false := by
  rw [Format_eq D hy]
  intro c hc
  simp only [List.mem_cons, List.mem_singleton, List.not_mem_nil, or_false] at hc
  rcases hc with rfl | rfl | rfl | rfl | rfl | rfl | rfl | rfl | rfl | rfl <;>
    first | exact digitChar_not_isSpace _ | decide

theorem boundary_append (pre u : Str) (hp : ∀ c, pre.getLast? = some c → isSpace c = true)
    (hu : ∀ c, u.getLast? = some c → isSpace c = true) :
    ∀ c, (pre ++ u).getLast? = some c → isSpace c = true := by
  intro c hc
  rw [List.getLast?_append] at hc
  cases hl : u.getLast? with
  | none =>
    rw [hl] at hc
    exact hp c hc
  | some x =>
    rw [hl] at hc
    cases hc
    exact hu _ hl

theorem Aligned.drop {r line : Str} (h : Aligned r line) (u rest : Str) (hr : r = u ++ rest)
    (hu : ∀ c, u.getLast? = some c → isSpace c = true) : Aligned rest line := by
  obtain ⟨pre, post, hl, hp⟩ := h
  refine ⟨pre ++ u, post, ?_, boundary_append pre u hp hu⟩
  rw [hl, hr]
  simp

theorem Aligned.take {r line : Str} (h : Aligned r line) (x b : Str) (hr : r = x ++ b) :
    Aligned x line := by
  obtain ⟨pre, post, hl, hp⟩ := h
  refine ⟨pre, b ++ post, ?_, hp⟩
  rw [hl, hr]
  simp

theorem boundary_of_all (a : Str) (h : ∀ c ∈ a, isSpace c = true) :
    ∀ c, a.getLast? = some c → isSpace c = true := by
  intro c hc
  exact h c (List.mem_of_getLast?_eq_some hc)

theorem Aligned.trim {r line : Str} (h : Aligned r line) : Aligned (TrimSpace r) line := by
  obtain ⟨b, hb⟩ := List.rdropWhile_prefix isSpace (l := r.dropWhile isSpace)
  have h1 : Aligned (r.dropWhile isSpace) line :=
    h.drop (r.takeWhile isSpace) _ (List.takeWhile_append_dropWhile isSpace r).symm
      (boundary_of_all _ (fun c hc => List.mem_takeWhile_imp hc))
  exact h1.take (TrimSpace r) b hb.symm

theorem aligned_self (line : Str) : Aligned line line :=
  ⟨[], [], by simp, fun c hc => by simp at hc⟩

theorem IsToken_of_aligned {r line : Str} (h : Aligned r line) (d : Str) (w : Char)
    (rest : Str) (hr : r = d ++ w :: rest) (hd : d ≠ [])
    (hns : ∀ c ∈ d, isSpace c = false) (hw : isSpace w = true) : IsToken d line := by
  obtain ⟨pre, post, hl, hp⟩ := h
  refine ⟨hd, hns, pre, w :: (rest ++ post), ?_, hp, ?_⟩
  · rw [hl, hr]; simp
  · intro c hc
    simp only [List.head?_cons, Option.some.injEq] at hc
    rw [← hc]
    exact hw

theorem TrimSpace_idem (s : Str) : TrimSpace (TrimSpace s) = TrimSpace s := by
  by_cases hne : TrimSpace s = []
  · rw [hne]; rfl
  · apply TrimSpace_of_head_last _ hne
    · have hpre : TrimSpace s <+: s.dropWhile isSpace := List.rdropWhile_prefix isSpace _
      obtain ⟨b, hb⟩ := hpre
      have hdne : s.dropWhile isSpace ≠ [] := by
        intro h0
        rw [h0] at hb
        exact hne (List.append_eq_nil.1 hb).1
      have hh : (TrimSpace s).head hne = (s.dropWhile isSpace).head hdne := by
        have : (TrimSpace s ++ b).head (by simp [hne]) = (TrimSpace s).head hne :=
          List.head_append_of_ne_nil hne
        rw [← this]
        congr 1
      rw [hh]
      exact List.head_dropWhile_not isSpace s hdne
    · have := List.rdropWhile_last_not (p := isSpace) (l := s.dropWhile isSpace) hne
      simpa using this

theorem TrimSpace_ne_nil_of_last (s : Str) (hne : s ≠ [])
    (hlast : isSpace (s.getLast hne) = false) : TrimSpace s ≠ [] := by
  intro h
  rw [TrimSpace_eq_rdropWhile, List.rdropWhile_eq_nil_iff] at h
  by_cases hd : s.dropWhile isSpace = []
  · rw [List.dropWhile_eq_nil_iff] at hd
    have := hd _ (List.getLast_mem hne)
    rw [hlast] at this
    cases this
  · have hsuf : s.dropWhile isSpace <:+ s := List.dropWhile_suffix isSpace
    obtain ⟨a, ha⟩ := hsuf
    have hl : s.getLast hne = (s.dropWhile isSpace).getLast hd := by
      have : (a ++ s.dropWhile isSpace).getLast (by simp [hd]) =
          (s.dropWhile isSpace).getLast hd := List.getLast_append_of_ne_nil hd
      rw [← this]
      congr 1
      exact ha.symm
    have := h _ (List.getLast_mem hd)
    rw [← hl, hlast] at this
    cases this

/-- What remains of a trimmed text behind a prefix that ends in white space
is not blank. -/
theorem rest_not_blank (r u rest : Str) (hne : r ≠ []) (htrim : TrimSpace r = r)
    (hr : r = u ++ rest) (c : Char) (hu : u.getLast? = some c) (hc : isSpace c = true) :
    TrimSpace rest ≠ [] := by
  have hlast := (trimmed_head_last r hne htrim).2
  have hune : u ≠ [] := by
    rintro rfl
    simp at hu
  have hrest : rest ≠ [] := by
    rintro rfl
    have e : r.getLast hne = c := by
      have : r.getLast? = some c := by rw [hr, List.append_nil]; exact hu
      rw [List.getLast?_eq_getLast _ hne] at this
      exact Option.some.inj this
    rw [e, hc] at hlast
    cases hlast
  apply TrimSpace_ne_nil_of_last rest hrest
  have e : r.getLast hne = rest.getLast hrest := by
    have : (u ++ rest).getLast (by simp [hrest]) = rest.getLast hrest :=
      List.getLast_append_of_ne_nil hrest
    rw [← this]
    congr 1
  rw [← e]
  exact hlast

/-- A match that ends in the white space `x.takeWhile reSpace` at the head of
`x`: the text behind the match, the last character of the match, and the
white space character behind the part `pre`. -/
theorem match_tail (pre x : Str) (h : x.takeWhile reSpace ≠ []) :
    (pre ++ x = (pre ++ x.takeWhile reSpace) ++ x.dropWhile reSpace) ∧
    (pre ++ x).drop (pre ++ x.takeWhile reSpace).length = x.dropWhile reSpace ∧
    (∃ c, (pre ++ x.takeWhile reSpace).getLast? = some c ∧ isSpace c = true) ∧
    (∃ w rest, pre ++ x = pre ++ w :: rest ∧ isSpace w = true) := by
  have e : pre ++ x = (pre ++ x.takeWhile reSpace) ++ x.dropWhile reSpace := by
    rw [List.append_assoc, List.takeWhile_append_dropWhile]
  refine ⟨e, ?_, ?_, ?_⟩
  · conv => lhs; rw [e]
    exact List.drop_left _ _
  · refine ⟨(x.takeWhile reSpace).getLast h, ?_, ?_⟩
    · rw [List.getLast?_append_of_ne_nil _ h, List.getLast?_eq_getLast _ h]
    · exact reSpace_isSpace _ (List.mem_takeWhile_imp (List.getLast_mem h))
  · cases x with
    | nil => exact absurd rfl h
    | cons w rest =>
      refine ⟨w, rest, rfl, ?_⟩
      cases hw : reSpace w
      · simp [List.takeWhile, hw] at h
      · exact reSpace_isSpace w hw

theorem dateRe_some (r whole d : Str) (h : dateRe r = some (whole, d)) :
    d = r.take 10 ∧ d ≠ [] ∧ whole = r.take 10 ++ (r.drop 10).takeWhile reSpace ∧
      (r.drop 10).takeWhile reSpace ≠ [] := by
  unfold dateRe at h
  dsimp only at h
  split at h
  · rename_i y1 y2 y3 y4 s1 m1 m2 s2 d1 d2 heq
    split_ifs at h with hc
    simp only [Option.some.injEq, Prod.mk.injEq] at h
    obtain ⟨h1, h2⟩ := h
    refine ⟨h2.symm, ?_, h1.symm, hc.2.2.2.2.2.2.2.2.2.2⟩
    rw [← h2, heq]
    simp
  · cases h

theorem priorityRe_some (r whole letter : Str) (h : priorityRe r = some (whole, letter)) :
    ∃ p x, r = '(' :: p :: ')' :: x ∧ whole = ['(', p, ')'] ++ x.takeWhile reSpace ∧
      x.takeWhile reSpace ≠ [] := by
  unfold priorityRe at h
  split at h
  · rename_i c0 p c2 rest
    split_ifs at h with hc
    simp only [Option.some.injEq, Prod.mk.injEq] at h
    obtain ⟨h0, -, h2, h3⟩ := hc
    subst h0 h2
    exact ⟨p, rest, rfl, h.1.symm, h3⟩
  · cases h

/-- The creation-date step on a trimmed text that stands in the line behind
white space, when the zero date is no token of the line: either no date is
read and the text is left as it is, or a valid date other than the zero date
is read and a trimmed text that is not blank remains. -/
theorem parseCreation_cases (line r : Str) (hz : ¬ IsToken zeroDateText line)
    (hne : r ≠ []) (htrim : TrimSpace r = r) (ha : Aligned r line) :
    (parseCreation r = (Date.zero, r) ∧ startsWithDate r = false) ∨
    (∃ D rest, parseCreation r = (D, rest) ∧ D.valid ∧ D ≠ Date.zero ∧ rest ≠ [] ∧
      TrimSpace rest = rest ∧ Aligned rest line) := by
  cases hd : dateRe r with
  | none =>
    left
    simp [parseCreation, startsWithDate, hd]
  | some wd =>
    obtain ⟨whole, d⟩ := wd
    cases hp : ParseTodoDate d with
    | error e =>
      left
      simp [parseCreation, startsWithDate, hd, hp]
    | ok D =>
      right
      obtain ⟨hd1, hdne, hw, htw⟩ := dateRe_some r whole d hd
      obtain ⟨hfmt, hvalid⟩ := ParseTodoDate_eq_ok d D hdne hp
      have hr : r = r.take 10 ++ r.drop 10 := (List.take_append_drop 10 r).symm
      obtain ⟨e1, e2, ⟨c, hc1, hc2⟩, ⟨w, rest', e3, hw'⟩⟩ := match_tail (r.take 10) (r.drop 10) htw
      rw [← hr] at e1 e2 e3
      rw [← hw] at e1 e2 hc1
      rw [← hd1] at e3
      have htok : IsToken d line :=
        IsToken_of_aligned ha d w rest' e3 hdne
          (by rw [hfmt]; exact Format_not_isSpace D hvalid.1) hw'
      have hDz : D ≠ Date.zero := by
        rintro rfl
        apply hz
        rw [hfmt] at htok
        exact htok
      refine ⟨D, TrimSpace (r.drop whole.length), ?_, hvalid, hDz, ?_, TrimSpace_idem _, ?_⟩
      · simp [parseCreation, hd, hp]
      · exact rest_not_blank r whole _ hne htrim (by rw [e2]; exact e1) c hc1 hc2
      · exact (ha.drop whole _ (by rw [e2]; exact e1)
          (fun c' hc' => by rw [hc1] at hc'; cases hc'; exact hc2)).trim

/-- The priority step on a trimmed text that stands in the line behind white
space: either no priority is read and the text is left as it is, or a letter
is read and a trimmed text that is not blank remains. -/
theorem parsePriority_cases (line r : Str) (hne : r ≠ []) (htrim : TrimSpace r = r)
    (ha : Aligned r line) :
    (parsePriority false r = ([], r) ∧ priorityRe r = none) ∨
    (∃ p rest, parsePriority false r = ([p], rest) ∧ reUpper p = true ∧ rest ≠ [] ∧
      TrimSpace rest = rest ∧ Aligned rest line) := by
  cases hp : priorityRe r with
  | none =>
    left
    simp [parsePriority, hp]
  | some wl =>
    obtain ⟨whole, letter⟩ := wl
    right
    obtain ⟨p, hl, hup⟩ := priorityRe_letter r whole letter hp
    obtain ⟨p', x, hr, hw, htw⟩ := priorityRe_some r whole letter hp
    obtain ⟨e1, e2, ⟨c, hc1, hc2⟩, -⟩ := match_tail ['(', p', ')'] x htw
    have hr' : r = ['(', p', ')'] ++ x := by rw [hr]; rfl
    rw [← hr'] at e1 e2
    rw [← hw] at e1 e2 hc1
    refine ⟨p, TrimSpace (r.drop whole.length), ?_, hup, ?_, TrimSpace_idem _, ?_⟩
    · simp [parsePriority, hp, hl]
    · exact rest_not_blank r whole _ hne htrim (by rw [e2]; exact e1) c hc1 hc2
    · exact (ha.drop whole _ (by rw [e2]; exact e1)
        (fun c' hc' => by rw [hc1] at hc'; cases hc'; exact hc2)).trim

theorem marker_shape (r : Str) (h : HasPrefix r "x ".toList = true) :
    r = "x ".toList ++ r.drop 2 := by
  match r, h with
  | [], h => exact absurd h (by decide)
  | [c], h => simp [HasPrefix, List.isPrefixOf] at h
  | c0 :: c1 :: rest, h =>
    simp only [HasPrefix, String.toList, List.isPrefixOf, Bool.and_eq_true, beq_iff_eq,
      Bool.and_true] at h
    obtain ⟨h0, h1⟩ := h
    subst h0 h1
    rfl

/-- The text behind the completion marker of a trimmed text is not blank. -/
theorem marker_rest (line r : Str) (hne : r ≠ []) (htrim : TrimSpace r = r)
    (ha : Aligned r line) (h : HasPrefix r "x ".toList = true) :
    TrimSpace (r.drop 2) ≠ [] ∧ Aligned (TrimSpace (r.drop 2)) line := by
  have hr := marker_shape r h
  refine ⟨rest_not_blank r "x ".toList _ hne htrim hr ' ' rfl (by decide), ?_⟩
  exact (ha.drop "x ".toList _ hr (fun c hc => by
    have : c = ' ' := by
      have h' : "x ".toList.getLast? = some ' ' := rfl
      rw [h'] at hc
      exact (Option.some.inj hc).symm
    rw [this]
    decide)).trim

theorem TrimSpace_ne_nil_of_mem (l : Str) (c : Char) (hc : c ∈ l) (hs : isSpace c = false) :
    TrimSpace l ≠ [] := by
  intro h
  rw [TrimSpace_eq_rdropWhile, List.rdropWhile_eq_nil_iff] at h
  rw [← List.takeWhile_append_dropWhile isSpace l, List.mem_append] at hc
  rcases hc with hc | hc
  · rw [List.mem_takeWhile_imp hc] at hs
    cases hs
  · rw [h c hc] at hs
    cases hs

/-- The three prefix steps on a trimmed text that is not blank, in a line of
which the zero date is no token, leave fields that `ParseLine` reads back. -/
theorem steps_reparsable (line s : Str) (hz : ¬ IsToken zeroDateText line)
    (hne : s ≠ []) (htrim : TrimSpace s = s) (ha : Aligned s line) :
    ReparsableFields
      (parsePriority (parseCompleted s).1 (parseCompleted s).2.2).1
      (parseCreation (parsePriority (parseCompleted s).1 (parseCompleted s).2.2).2).1
      (parseCompleted s).1
      (parseCompleted s).2.1
      (parseCreation (parsePriority (parseCompleted s).1 (parseCompleted s).2.2).2).2 := by
  have hzv : Date.zero.valid := by decide
  by_cases hm : HasPrefix s "x ".toList = true
  · obtain ⟨h0ne, h0a⟩ := marker_rest line s hne htrim ha hm
    rw [parseCompleted_marker s hm]
    simp only [parsePriority_completed]
    rcases parseCreation_cases line _ hz h0ne (TrimSpace_idem _) h0a with
      ⟨e, hs⟩ | ⟨D, r1, e, hv, hD, hne1, ht1, ha1⟩
    · rw [e]
      simp only
      rw [e]
      exact ⟨Or.inl rfl, fun _ => rfl, fun h => absurd h (by decide), fun _ _ => rfl, hzv, hzv,
        h0ne, TrimSpace_idem _, fun _ => hs, fun _ h => absurd h (by decide)⟩
    · rw [e]
      simp only
      rcases parseCreation_cases line r1 hz hne1 ht1 ha1 with
        ⟨e2, hs2⟩ | ⟨D2, r2, e2, hv2, hD2, hne2, ht2, -⟩
      · rw [e2]
        exact ⟨Or.inl rfl, fun _ => rfl, fun h => absurd h (by decide), fun _ _ => rfl, hzv, hv,
          hne1, ht1, fun _ => hs2, fun _ h => absurd h (by decide)⟩
      · rw [e2]
        exact ⟨Or.inl rfl, fun _ => rfl, fun h => absurd h (by decide),
          fun _ h => absurd h hD, hv2, hv, hne2, ht2, fun h => absurd h hD2,
          fun _ h => absurd h (by decide)⟩
  · have hm' : HasPrefix s "x ".toList = false := by simpa using hm
    rw [parseCompleted_of_no_marker s hm']
    simp only
    rcases parsePriority_cases line s hne htrim ha with
      ⟨e, hpr⟩ | ⟨p, r1, e, hup, hne1, ht1, ha1⟩
    · rw [e]
      simp only
      rcases parseCreation_cases line s hz hne htrim ha with
        ⟨e2, hs2⟩ | ⟨D2, r2, e2, hv2, hD2, hne2, ht2, -⟩
      · rw [e2]
        exact ⟨Or.inl rfl, fun _ => rfl, fun _ => rfl, fun _ _ => rfl, hzv, hzv,
          hne, htrim, fun _ => hs2, fun _ _ _ => ⟨hm', hpr⟩⟩
      · rw [e2]
        exact ⟨Or.inl rfl, fun _ => rfl, fun _ => rfl, fun h => absurd h (by decide), hv2, hzv,
          hne2, ht2, fun h => absurd h hD2, fun h => absurd h hD2⟩
    · rw [e]
      simp only
      rcases parseCreation_cases line r1 hz hne1 ht1 ha1 with
        ⟨e2, hs2⟩ | ⟨D2, r2, e2, hv2, hD2, hne2, ht2, -⟩
      · rw [e2]
        exact ⟨Or.inr ⟨p, hup, rfl⟩, fun h => absurd h (by decide), fun _ => rfl,
          fun h => absurd h (by decide), hzv, hzv, hne1, ht1, fun _ => hs2,
          fun _ _ h => absurd h (by simp)⟩
      · rw [e2]
        exact ⟨Or.inr ⟨p, hup, rfl⟩, fun h => absurd h (by decide), fun _ => rfl,
          fun h => absurd h (by decide), hv2, hzv, hne2, ht2, fun h => absurd h hD2,
          fun h => absurd h hD2⟩

theorem ParseLine_reparsable (line : Str) (n : Int) (hnb : TrimSpace line ≠ [])
    (hz : ¬ IsToken zeroDateText line) : ∃ t, ParseLine line n = .ok t ∧ Reparsable t := by
  have hne : line ≠ [] := by
    rintro rfl
    exact hnb rfl
  refine ⟨_, ParseLine_of_ne_nil line n hne, ?_⟩
  exact steps_reparsable line (TrimSpace line) hz hnb (TrimSpace_idem line)
    (aligned_self line).trim

theorem Serialize_congr (t u : Task) (h1 : u.Priority = t.Priority)
    (h2 : u.CreationDate = t.CreationDate) (h3 : u.CompletionDate = t.CompletionDate)
    (h4 : u.Completed = t.Completed) (h5 : u.Description = t.Description) :
    Serialize u = Serialize t := by
  rw [Serialize_cases, Serialize_cases, h1, h2, h3, h4, h5]

/-- C39: for every line that has a character other than white space and of
which `0001-01-01`, the text of the zero date, is no token, `ParseLine`
succeeds, `ParseLine` of the serialized task succeeds as well and has the
same priority, completed flag, completion date, creation date and description,
and serializing that task gives the same text again. -/
theorem ParseLine_fixed_point (line : Str) (n m : Int)
    (hns : ∃ c ∈ line, isSpace c = false) (hz : ¬ IsToken zeroDateText line) :
    ∃ t t', ParseLine line n = .ok t ∧ ParseLine (Serialize t) m = .ok t' ∧
      t'.Priority = t.Priority ∧ t'.Completed = t.Completed ∧
      t'.CompletionDate = t.CompletionDate ∧ t'.CreationDate = t.CreationDate ∧
      t'.Description = t.Description ∧ Serialize t' = Serialize t := by
  obtain ⟨c, hc, hs⟩ := hns
  obtain ⟨t, ht, hr⟩ := ParseLine_reparsable line n (TrimSpace_ne_nil_of_mem line c hc hs) hz
  obtain ⟨t', ht', h1, h2, h3, h4, h5⟩ := round_trip_core t m hr
  exact ⟨t, t', ht, ht', h1, h4, h3, h2, h5, Serialize_congr t t' h1 h2 h3 h4 h5⟩

/-- C39 at a line with a completion marker, two dates, a description that
begins like a priority, and untidy white space: the serialized task is
`x 2026-03-04 2026-02-02 (A)  call  Bob`. -/
theorem ParseLine_fixed_point_witness :
    (∃ t t', ParseLine untidyLine 1 = .ok t ∧ ParseLine (Serialize t) 1 = .ok t' ∧
      t'.Priority = t.Priority ∧ t'.Completed = t.Completed ∧
      t'.CompletionDate = t.CompletionDate ∧ t'.CreationDate = t.CreationDate ∧
      t'.Description = t.Description ∧ Serialize t' = Serialize t) ∧
    (∃ t, ParseLine untidyLine 1 = .ok t ∧
      Serialize t = "x 2026-03-04 2026-02-02 (A)  call  Bob".toList) :=
  ⟨ParseLine_fixed_point untidyLine 1 1 ⟨'x', by decide, by decide⟩ (by
      rintro ⟨-, -, pre, post, hl, -, -⟩
      have h1 : '1' ∈ untidyLine := by
        rw [hl]
        simp [zeroDateText]
      revert h1
      decide),
    ⟨_, rfl, by decide⟩⟩

end TodoTxt
